import Mathlib

/-!
# Handler registration and dispatch table of the teleport router

A shallow embedding of `router.go`: the `Router` registry with its shared handler
table and unknown-fallback cell, the two `HandlersMaker` strategies that derive
handlers from the reflective view of a service value, and the `Handler` accessors.

Go strings are embedded as `String`; the string algorithms work on the character
list.  Pointers (`*Router`, the `map` reference, the `**Handler` cell) are addresses
into an explicit heap, so that sharing between routers is visible.  `Fatalf` ends the
process: an operation that reaches it yields `Outcome.fatal` together with the heap
as it stands at that moment.
-/

namespace Teleport

/-! ## Library strings: `path.Clean`, `path.Join`, `strings.Split`, `goutil.SnakeString` -/

/-- The backtracking loop of `path.Clean` for a `..` element, on the write index:
`for out.w > dotdot && out.index(out.w) != '/' { out.w-- }`. -/
def backtrack (out : List Char) (dotdot : Nat) : Nat → Nat
  | 0 => 0
  | w + 1 =>
    if dotdot < w + 1 ∧ out.get? (w + 1) ≠ some '/' then backtrack out dotdot w else w + 1

/-- The main loop of `path.Clean` over the unread part of the path.  `inElem` is true
while the inner copy loop of a real path element is running; `out` is the written
buffer and `dotdot` the index where `..` must stop. -/
def cleanLoop (rooted : Bool) : List Char → Bool → List Char → Nat → List Char
  | [], _, out, _ => out
  | c :: rest, true, out, dotdot =>
    if c = '/' then cleanLoop rooted rest false out dotdot
    else cleanLoop rooted rest true (out ++ [c]) dotdot
  | c :: rest, false, out, dotdot =>
    let addSlash : List Char :=
      if (rooted ∧ out.length ≠ 1) ∨ (¬ rooted ∧ out.length ≠ 0) then out ++ ['/'] else out
    if c = '/' then
      -- empty path element
      cleanLoop rooted rest false out dotdot
    else if c = '.' then
      match rest with
      | [] =>
        -- `.` element at the end of the path
        out
      | d :: rest2 =>
        if d = '/' then
          -- `.` element
          cleanLoop rooted rest2 false out dotdot
        else if d = '.' ∧ (rest2 = [] ∨ rest2.head? = some '/') then
          -- `..` element: remove to last `/`
          if dotdot < out.length then
            cleanLoop rooted rest2 false
              (out.take (backtrack out dotdot (out.length - 1))) dotdot
          else if ¬ rooted then
            let out2 := (if 0 < out.length then out ++ ['/'] else out) ++ ['.', '.']
            cleanLoop rooted rest2 false out2 out2.length
          else
            cleanLoop rooted rest2 false out dotdot
        else
          -- real path element starting with a dot
          cleanLoop rooted (d :: rest2) true (addSlash ++ [c]) dotdot
    else
      -- real path element
      cleanLoop rooted rest true (addSlash ++ [c]) dotdot

/-- The function `path.Clean` of the Go standard library on the characters of a path:
the empty path gives `.`, a leading slash makes the path rooted, and an empty result
gives `.`. -/
def cleanChars (path : List Char) : List Char :=
  match path with
  | [] => ['.']
  | c :: rest =>
    let out :=
      if c = '/' then cleanLoop true rest false ['/'] 1
      else cleanLoop false (c :: rest) false [] 0
    if out.length = 0 then ['.'] else out

/-- The function `path.Clean` of the Go standard library. -/
def Clean (path : String) : String := String.mk (cleanChars path.data)

/-- The function `strings.Join(elem, "/")` on character lists. -/
def joinSlash : List (List Char) → List Char
  | [] => []
  | [e] => e
  | e :: es => e ++ '/' :: joinSlash es

/-- The function `path.Join` of the Go standard library: the elements from the first non-empty one on are joined
with slashes and the result is cleaned; with no non-empty element the result is empty. -/
def Join : List String → String
  | [] => ""
  | e :: es =>
    if e ≠ "" then String.mk (cleanChars (joinSlash ((e :: es).map String.data)))
    else Join es

/-- The function `strings.Split(s, sep)` of the Go standard library for a one-character
separator; the result is never empty. -/
def splitOn (sep : Char) : List Char → List (List Char)
  | [] => [[]]
  | c :: cs =>
    if c = sep then [] :: splitOn sep cs
    else
      match splitOn sep cs with
      | [] => [[c]]
      | w :: ws => (c :: w) :: ws

/-- The function `strings.TrimPrefix` of the Go standard library. -/
def TrimPrefix (s pre : String) : String :=
  if pre.data.isPrefixOf s.data then String.mk (s.data.drop pre.data.length) else s

/-- The byte loop of `goutil.SnakeString`: an underscore is written before an upper-case
letter that is not the first byte once a byte other than `_` has been seen (`j`). -/
def snakeLoop : Nat → Bool → List Char → List Char
  | _, _, [] => []
  | i, j, d :: rest =>
    let mark : List Char := if 0 < i ∧ 'A' ≤ d ∧ d ≤ 'Z' ∧ j = true then ['_'] else []
    let j2 : Bool := if d ≠ '_' then true else j
    mark ++ d :: snakeLoop (i + 1) j2 rest

/-- Modelled from the spec: `goutil.SnakeString` is library code outside the sources
(`snake_case`, `XxYy` to `xx_yy`): the marking loop followed by `strings.ToLower`,
which is the ASCII lowering on the identifiers covered here. -/
def SnakeString (s : String) : String :=
  String.mk ((snakeLoop 0 false s.data).map Char.toLower)

/-- A plain path segment: non-empty, without slash and without dot, as the Go identifiers
that name types and methods are. -/
def plainSegment (s : String) : Prop := s.data ≠ [] ∧ '/' ∉ s.data ∧ '.' ∉ s.data

instance (s : String) : Decidable (plainSegment s) := by
  unfold plainSegment; infer_instance

/-! ## Reflection: type descriptors and the reflective view of a service value -/

/-- The enumeration `reflect.Kind`. -/
inductive Kind where
  | Invalid | Bool | Int | Int8 | Int16 | Int32 | Int64
  | Uint | Uint8 | Uint16 | Uint32 | Uint64 | Uintptr
  | Float32 | Float64 | Complex64 | Complex128
  | Array | Chan | Func | Interface | Map | Ptr | Slice | String | Struct | UnsafePointer
  deriving DecidableEq, Repr

/-- A `reflect.Type` descriptor, as far as the router reads it: `Kind()`, `Name()`,
`PkgPath()`, `String()` and, for pointer types, `Elem()`. -/
inductive RType where
  | ptr (name pkgPath str : String) (elem : RType)
  | other (kind : Kind) (notPtr : kind ≠ Kind.Ptr) (name pkgPath str : String)

/-- The method `Type.Kind()`. -/
def RType.Kind : RType → Teleport.Kind
  | .ptr _ _ _ _ => Teleport.Kind.Ptr
  | .other k _ _ _ _ => k

/-- The method `Type.Name()`: the name within its package, empty for an unnamed type. -/
def RType.Name : RType → String
  | .ptr n _ _ _ => n
  | .other _ _ n _ _ => n

/-- The method `Type.PkgPath()`. -/
def RType.PkgPath : RType → String
  | .ptr _ p _ _ => p
  | .other _ _ _ p _ => p

/-- The method `Type.String()`. -/
def RType.toStr : RType → String
  | .ptr _ _ s _ => s
  | .other _ _ _ _ s => s

/-- The method `Type.Elem()` of a pointer type; `none` where Go panics. -/
def RType.Elem : RType → Option RType
  | .ptr _ _ _ e => some e
  | .other _ _ _ _ _ => none

/-- Modelled from the spec: `goutil.IsExportedName` is library code outside the sources:
the first letter of the name is upper case. -/
def IsExportedName (name : String) : Bool :=
  match name.data with
  | [] => false
  | c :: _ => c.isUpper

/-- Modelled from the spec: `goutil.IsExportedOrBuiltinType` is library code outside the
sources ("exported-or-builtin"): pointers are followed to the pointee, which has an
exported name or no package path. -/
def IsExportedOrBuiltinType : RType → Bool
  | .ptr _ _ _ e => IsExportedOrBuiltinType e
  | .other _ _ n p _ => IsExportedName n || p = ""

/-- A `reflect.Method` of the service type: `Type.In(0)` is the receiver. -/
structure Method where
  Name : String
  PkgPath : String
  ins : List RType
  outs : List RType

/-- A `reflect.StructField`, as far as the router reads it. -/
structure StructField where
  Name : String
  Anonymous : Bool

/-- The reflective view of a non-nil service value: its type descriptor, the method set
`Method(0) .. Method(NumMethod()-1)`, the fields `FieldByName` finds in the pointee, and
the results of the type assertions `ctrlStruct.(PullCtx)` and `ctrlStruct.(PushCtx)`. -/
structure CtrlType where
  rtype : RType
  methods : List Method
  elemFields : List StructField
  implementsPullCtx : Bool
  implementsPushCtx : Bool

/-- A service value `ctrlStruct interface{}`; `none` is the nil interface, for which
`reflect.TypeOf` returns nil. -/
abbrev CtrlStruct := Option CtrlType

/-- The method `Type.FieldByName` on the pointee of the service type. -/
def FieldByName (fields : List StructField) (name : String) : Option StructField :=
  fields.find? (fun f => f.Name = name)

/-! ## Plugins -/

/-- Modelled from the spec: `Plugin` is declared outside the sources; a plugin has a name
and a `PostReg` hook that sees the accessors of the handler (name, argument element
type, reply type) and may return an error. -/
structure Plugin where
  name : String
  PostReg : String → RType → Option RType → Option String

/-- Modelled from the spec: `PluginContainer` is declared outside the sources: an ordered
hook chain. -/
structure PluginContainer where
  plugins : List Plugin

/-- Modelled from the spec: `newPluginContainer` gives the empty chain. -/
def newPluginContainer : PluginContainer := ⟨[]⟩

/-- Modelled from the spec: `cloneAdd(plugins...) → (chain, error)`: a copy of the chain
extended with `plugins`; composition fails when a plugin name is repeated. -/
def PluginContainer.cloneAdd (p : PluginContainer) (plugin : List Plugin) :
    Except String PluginContainer :=
  let rec add : List Plugin → List Plugin → Except String PluginContainer
    | acc, [] => .ok ⟨acc⟩
    | acc, q :: qs =>
      if acc.any (fun x => x.name = q.name) then .error ("repeat add plugin: " ++ q.name)
      else add (acc ++ [q]) qs
  add p.plugins plugin

/-! ## Handlers -/

/-- The dynamic type of a value passed to `SetUnknown`: one of the two fallback function
types, or anything else. -/
inductive DynType where
  | unknownPullFunc
  | unknownPushFunc
  | other (descr : String)
  deriving DecidableEq

/-- A value `unknownHandler interface{}`: its dynamic type and an identity. -/
structure GoValue where
  dynType : DynType
  id : Nat
  deriving DecidableEq

/-- The field `Handler.method`: a method of the service type or a function value. -/
inductive MethodValue where
  | func (recv : String) (name : String)
  | value (v : GoValue)
  deriving DecidableEq

/-- The field `Handler.originStructMaker`: the factory that allocates the service struct
and sets its context field, or the one that passes the context itself. -/
inductive OriginStructMaker where
  | newStruct (elem : RType) (ctxField : String)
  | ctxValue

/-- The struct `Handler`; a nil `reply` is `none`. -/
structure Handler where
  name : String
  originStructMaker : OriginStructMaker
  method : MethodValue
  argElem : RType
  reply : Option RType
  pluginContainer : PluginContainer

/-- The accessor `Name`. -/
def Handler.Name (h : Handler) : String := h.name

/-- The accessor `ArgElemType`. -/
def Handler.ArgElemType (h : Handler) : RType := h.argElem

/-- The accessor `ReplyType`. -/
def Handler.ReplyType (h : Handler) : Option RType := h.reply

/-- The accessor `IsPush`: `h.reply == nil`. -/
def Handler.IsPush (h : Handler) : Bool := h.reply.isNone

/-- The accessor `IsPull`: `!h.IsPush()`. -/
def Handler.IsPull (h : Handler) : Bool := !h.IsPush

/-- Modelled from the spec: `PostReg(handler) → error` runs the hooks of the chain in
order and returns the first error. -/
def PluginContainer.PostReg (p : PluginContainer) (h : Handler) : Option String :=
  p.plugins.findSome? (fun q => q.PostReg h.Name h.ArgElemType h.ReplyType)

/-! ## The two maker strategies -/

/-- The result of a `HandlersMaker`: the candidate list, an error, or a run-time panic. -/
inductive MakerResult where
  | handlers (hs : List Handler)
  | error (msg : String)
  | panic (msg : String)

/-- The type `HandlersMaker`. -/
abbrev HandlersMaker := String → CtrlStruct → Option PluginContainer → MakerResult

/-- The functions `isPullCtxMethod` and `isPushCtxMethod`: `name` is one of the methods
that reflection lists for the context value `new(readHandleCtx)`.  That type is declared
outside the sources, so its method names `ctxMethods` are a parameter. -/
def isPullCtxMethod (ctxMethods : List String) (name : String) : Bool :=
  ctxMethods.any (fun m => name = m)

/-- See `isPullCtxMethod`: both functions range over the methods of the same value. -/
def isPushCtxMethod (ctxMethods : List String) (name : String) : Bool :=
  ctxMethods.any (fun m => name = m)

/-- The function `ctrlStructSnakeName`: the last dot-separated piece of the type string in
snake case; `none` where the index `len(split)-1` would be out of range. -/
def ctrlStructSnakeName (ctype : RType) : Option String :=
  let split := splitOn '.' ctype.toStr.data
  match split.get? (split.length - 1) with
  | some tName => some (SnakeString (String.mk tName))
  | none => none

/-- The check `structType.Kind() != reflect.Ptr || structType.Elem().Kind() != reflect.Struct`,
negated: the receiver is a pointer to a struct. -/
def isStructPointer : RType → Bool
  | .ptr _ _ _ e => e.Kind = Teleport.Kind.Struct
  | .other _ _ _ _ _ => false

/-- The literal `&Handler` of the two makers: the name is
`path.Join(pathPrefix, ctrlStructSnakeName(ctype), goutil.SnakeString(mname))`, the method
is `method.Func`, and `reply` is set by the pull maker only. -/
def makeHandler (pathPrefix tName : String) (ctype : RType) (mname : String)
    (originStructMaker : OriginStructMaker) (argElem : RType) (reply : Option RType)
    (pluginContainer : PluginContainer) : Handler :=
  { name := Join [pathPrefix, tName, SnakeString mname]
    originStructMaker := originStructMaker
    method := .func ctype.toStr mname
    argElem := argElem
    reply := reply
    pluginContainer := pluginContainer }

/-- The method loop of `pullHandlersMaker`, from method index `m` on. -/
def pullMethods (ctxMethods : List String) (pathPrefix : String) (ctype : RType)
    (originStructMaker : OriginStructMaker) (pluginContainer : PluginContainer) :
    List Method → List Handler → MakerResult
  | [], handlers => .handlers handlers
  | method :: rest, handlers =>
    let mname := method.Name
    -- Method must be exported.
    if method.PkgPath ≠ "" ∨ isPullCtxMethod ctxMethods mname = true then
      pullMethods ctxMethods pathPrefix ctype originStructMaker pluginContainer rest handlers
    else
      match method.ins with
      | [structType, argType] =>
        if ¬ (isStructPointer structType = true) then
          .error ("register pull handler: " ++ ctype.toStr ++ "." ++ mname
            ++ " receiver need be a struct pointer: " ++ structType.toStr)
        else if ¬ (IsExportedOrBuiltinType argType = true) then
          .error ("register pull handler: " ++ ctype.toStr ++ "." ++ mname
            ++ " args type not exported: " ++ argType.toStr)
        else
          match argType.Elem with
          | none =>
            .error ("register pull handler: " ++ ctype.toStr ++ "." ++ mname
              ++ " args type need be a pointer: " ++ argType.toStr)
          | some argElem =>
            match method.outs with
            | [replyType, returnType] =>
              if ¬ (IsExportedOrBuiltinType replyType = true) then
                .error ("register pull handler: " ++ ctype.toStr ++ "." ++ mname
                  ++ " first reply type not exported: " ++ replyType.toStr)
              else if TrimPrefix returnType.Name "teleport." ≠ "Xerror" then
                .error ("register pull handler: " ++ ctype.toStr ++ "." ++ mname
                  ++ " second reply type " ++ returnType.toStr ++ " not teleport.Xerror")
              else
                match ctrlStructSnakeName ctype with
                | none => .panic "index out of range"
                | some tName =>
                  pullMethods ctxMethods pathPrefix ctype originStructMaker pluginContainer rest
                    (handlers ++ [makeHandler pathPrefix tName ctype mname originStructMaker
                      argElem (some replyType) pluginContainer])
            | outs =>
              .error ("register pull handler: " ++ ctype.toStr ++ "." ++ mname
                ++ " needs two out arguments, but have " ++ toString outs.length)
      | ins =>
        .error ("register pull handler: " ++ ctype.toStr ++ "." ++ mname
          ++ " needs one in argument, but have " ++ toString ins.length)

/-- The function `pullHandlersMaker`. -/
def pullHandlersMaker (ctxMethods : List String) : HandlersMaker :=
  fun pathPrefix ctrlStruct pluginContainer =>
  match ctrlStruct with
  | none => .panic "invalid memory address or nil pointer dereference"
  | some c =>
    let ctype := c.rtype
    match ctype.Elem with
    | none => .error ("register pull handler: the type is not struct point: " ++ ctype.toStr)
    | some ctypeElem =>
      if ctypeElem.Kind ≠ Teleport.Kind.Struct then
        .error ("register pull handler: the type is not struct point: " ++ ctype.toStr)
      else if ¬ (c.implementsPullCtx = true) then
        .error ("register pull handler: the type is not implemented PullCtx interface: "
          ++ ctype.toStr)
      else
        match FieldByName c.elemFields "PullCtx" with
        | some iType =>
          if iType.Anonymous = true then
            pullMethods ctxMethods pathPrefix ctype (.newStruct ctypeElem "PullCtx")
              (pluginContainer.getD newPluginContainer) c.methods []
          else
            .error ("register pull handler: the struct do not have anonymous field PullCtx: "
              ++ ctype.toStr)
        | none =>
          .error ("register pull handler: the struct do not have anonymous field PullCtx: "
            ++ ctype.toStr)

/-- The method loop of `pushHandlersMaker`, from method index `m` on. -/
def pushMethods (ctxMethods : List String) (pathPrefix : String) (ctype : RType)
    (originStructMaker : OriginStructMaker) (pluginContainer : PluginContainer) :
    List Method → List Handler → MakerResult
  | [], handlers => .handlers handlers
  | method :: rest, handlers =>
    let mname := method.Name
    -- Method must be exported.
    if method.PkgPath ≠ "" ∨ isPushCtxMethod ctxMethods mname = true then
      pushMethods ctxMethods pathPrefix ctype originStructMaker pluginContainer rest handlers
    else
      match method.ins with
      | [structType, argType] =>
        if ¬ (isStructPointer structType = true) then
          .error ("register push handler: " ++ ctype.toStr ++ "." ++ mname
            ++ " receiver need be a struct pointer: " ++ structType.toStr)
        else if ¬ (IsExportedOrBuiltinType argType = true) then
          .error ("register push handler: " ++ ctype.toStr ++ "." ++ mname
            ++ " args type not exported: " ++ argType.toStr)
        else
          match argType.Elem with
          | none =>
            .error ("register push handler: " ++ ctype.toStr ++ "." ++ mname
              ++ " args type need be a pointer: " ++ argType.toStr)
          | some argElem =>
            if method.outs.length ≠ 0 then
              .error ("register push handler: " ++ ctype.toStr ++ "." ++ mname
                ++ " does not need out argument, but have " ++ toString method.outs.length)
            else
              match ctrlStructSnakeName ctype with
              | none => .panic "index out of range"
              | some tName =>
                pushMethods ctxMethods pathPrefix ctype originStructMaker pluginContainer rest
                  (handlers ++ [makeHandler pathPrefix tName ctype mname originStructMaker
                    argElem none pluginContainer])
      | ins =>
        .error ("register push handler: " ++ ctype.toStr ++ "." ++ mname
          ++ " needs one in argument, but have " ++ toString ins.length)

/-- The function `pushHandlersMaker`. -/
def pushHandlersMaker (ctxMethods : List String) : HandlersMaker :=
  fun pathPrefix ctrlStruct pluginContainer =>
  match ctrlStruct with
  | none => .panic "invalid memory address or nil pointer dereference"
  | some c =>
    let ctype := c.rtype
    match ctype.Elem with
    | none => .error ("register push handler: the type is not struct point: " ++ ctype.toStr)
    | some ctypeElem =>
      if ctypeElem.Kind ≠ Teleport.Kind.Struct then
        .error ("register push handler: the type is not struct point: " ++ ctype.toStr)
      else if ¬ (c.implementsPushCtx = true) then
        .error ("register push handler: the type is not implemented PushCtx interface: "
          ++ ctype.toStr)
      else
        match FieldByName c.elemFields "PushCtx" with
        | some iType =>
          if iType.Anonymous = true then
            pushMethods ctxMethods pathPrefix ctype (.newStruct ctypeElem "PushCtx")
              (pluginContainer.getD newPluginContainer) c.methods []
          else
            .error ("register push handler: the struct do not have anonymous field PushCtx: "
              ++ ctype.toStr)
        | none =>
          .error ("register push handler: the struct do not have anonymous field PushCtx: "
            ++ ctype.toStr)

/-! ## The router -/

/-- The handler mapping `map[string]*Handler` as an association list without repeated
keys. -/
abbrev Table := List (String × Handler)

/-- The map read `t[name]`. -/
def Table.get : Table → String → Option Handler
  | [], _ => none
  | (k, h) :: rest, name => if k = name then some h else Table.get rest name

/-- The map write `t[name] = h`. -/
def Table.set : Table → String → Handler → Table
  | [], name, h => [(name, h)]
  | (k, h0) :: rest, name, h =>
    if k = name then (name, h) :: rest else (k, h0) :: Table.set rest name h

/-- The struct `Router`: `handlers` is the reference to the shared map and
`unknownApiType` the address of a `*Handler` cell. -/
structure Router where
  handlers : Nat
  unknownApiType : Nat
  pathPrefix : String
  pluginContainer : PluginContainer
  typ : String
  fn : HandlersMaker

/-- What the process emits: the log calls and the invocations of the `PostReg` hook. -/
inductive Event where
  | Printf (msg : String)
  | Warnf (msg : String)
  | Fatalf (msg : String)
  | PostReg (name : String)
  deriving DecidableEq

/-- The heap: the maps, the `*Handler` cells and the `Router` objects by address, the
next free address of each, and the events emitted so far. -/
structure Heap where
  maps : Nat → Table
  cells : Nat → Option Handler
  routers : Nat → Router
  nextMap : Nat
  nextCell : Nat
  nextRouter : Nat
  log : List Event

/-- The result of a router operation: normal return, `Fatalf` (the process exits), or a
run-time panic; each with the heap at that moment. -/
inductive Outcome (α : Type) where
  | ok (σ : Heap) (v : α)
  | fatal (σ : Heap) (msg : String)
  | panic (σ : Heap) (msg : String)

/-- The heap of an outcome. -/
def Outcome.heap {α : Type} : Outcome α → Heap
  | .ok σ _ => σ
  | .fatal σ _ => σ
  | .panic σ _ => σ

/-- A store with the entry at address `a` replaced. -/
def update {β : Type} (f : Nat → β) (a : Nat) (v : β) : Nat → β :=
  fun x => if x = a then v else f x

/-- The heap with one more event. -/
def Heap.emit (σ : Heap) (e : Event) : Heap := { σ with log := σ.log ++ [e] }

/-- The call `Fatalf(msg)`. -/
def Fatalf {α : Type} (σ : Heap) (msg : String) : Outcome α :=
  .fatal (σ.emit (.Fatalf msg)) msg

/-- The handler table seen by the router at address `r`. -/
def Heap.table (σ : Heap) (r : Nat) : Table := σ.maps (σ.routers r).handlers

/-- The allocation of a router by `newPullRouter` or `newPushRouter`: a fresh map, a
fresh nil cell and a fresh `Router` with path prefix `/`. -/
def newRouter (σ : Heap) (pluginContainer : PluginContainer) (fn : HandlersMaker)
    (typ : String) : Heap × Nat :=
  ({ σ with
      maps := update σ.maps σ.nextMap []
      cells := update σ.cells σ.nextCell none
      routers := update σ.routers σ.nextRouter
        { handlers := σ.nextMap
          unknownApiType := σ.nextCell
          pathPrefix := "/"
          pluginContainer := pluginContainer
          fn := fn
          typ := typ }
      nextMap := σ.nextMap + 1
      nextCell := σ.nextCell + 1
      nextRouter := σ.nextRouter + 1 },
   σ.nextRouter)

/-- The function `newPullRouter`. -/
def newPullRouter (ctxMethods : List String) (σ : Heap) (pluginContainer : PluginContainer) :
    Heap × Nat :=
  newRouter σ pluginContainer (pullHandlersMaker ctxMethods) "pull"

/-- The function `newPushRouter`. -/
def newPushRouter (ctxMethods : List String) (σ : Heap) (pluginContainer : PluginContainer) :
    Heap × Nat :=
  newRouter σ pluginContainer (pushHandlersMaker ctxMethods) "push"

/-- The method `Router.Group`: the new router copies the map reference, the cell address
and the maker of the receiver; the literal leaves `typ` at its zero value.  The call
`warnInvaildRouterHooks` only writes a warning and is left out, here and below. -/
def Group (σ : Heap) (r : Nat) (pathPrefix : String) (plugin : List Plugin) : Outcome Nat :=
  match (σ.routers r).pluginContainer.cloneAdd plugin with
  | .error err => Fatalf σ err
  | .ok pluginContainer =>
    .ok { σ with
          routers := update σ.routers σ.nextRouter
            { handlers := (σ.routers r).handlers
              unknownApiType := (σ.routers r).unknownApiType
              pathPrefix := Join [(σ.routers r).pathPrefix, pathPrefix]
              pluginContainer := pluginContainer
              typ := ""
              fn := (σ.routers r).fn }
          nextRouter := σ.nextRouter + 1 }
        σ.nextRouter

/-- The map write `r.handlers[h.name] = h` through the map reference of router `r`. -/
def Heap.setHandler (σ : Heap) (r : Nat) (h : Handler) : Heap :=
  { σ with maps := update σ.maps (σ.routers r).handlers (Table.set (σ.table r) h.name h) }

/-- The loop of `Router.Reg` over the candidates: conflict check against the table of
the router, `PostReg`, insertion, log line. -/
def regLoop (r : Nat) (pluginContainer : PluginContainer) : List Handler → Heap → Outcome Unit
  | [], σ => .ok σ ()
  | h :: rest, σ =>
    if (Table.get (σ.table r) h.name).isSome then
      Fatalf σ ("There is a " ++ (σ.routers r).typ ++ " handler conflict: " ++ h.name)
    else
      match pluginContainer.PostReg h with
      | some err => Fatalf (σ.emit (.PostReg h.name)) err
      | none =>
        regLoop r pluginContainer rest
          (((σ.emit (.PostReg h.name)).setHandler r h).emit
            (.Printf ("register " ++ (σ.routers r).typ ++ " handler: " ++ h.name)))

/-- The method `Router.Reg`. -/
def Reg (σ : Heap) (r : Nat) (ctrlStruct : CtrlStruct) (plugin : List Plugin) : Outcome Unit :=
  match (σ.routers r).pluginContainer.cloneAdd plugin with
  | .error err => Fatalf σ err
  | .ok pluginContainer =>
    match (σ.routers r).fn (σ.routers r).pathPrefix ctrlStruct (some pluginContainer) with
    | .error err => Fatalf σ err
    | .panic msg => .panic σ msg
    | .handlers handlers => regLoop r pluginContainer handlers σ

/-- The type descriptor `reflect.TypeOf([]byte{})`. -/
def bytesType : RType := .other Teleport.Kind.Slice (by decide) "" "" "[]uint8"

/-- The name that the `switch r.typ` of `Router.SetUnknown` assigns. -/
def unknownName (typ : String) : String :=
  if typ = "pull" then "unknown_pull_handle"
  else if typ = "push" then "unknown_push_handle"
  else ""

/-- The literal `&Handler` of `Router.SetUnknown`, with the name that the switch assigned
for router type `typ`. -/
def unknownHandlerOf (typ : String) (v : GoValue) (pc : PluginContainer) : Handler :=
  { name := unknownName typ
    originStructMaker := .ctxValue
    method := .value v
    argElem := bytesType
    reply := none
    pluginContainer := pc }

/-- The method `Router.SetUnknown`: the handler is stored in a new cell (`&h`) and the
field `unknownApiType` of the receiver is pointed at it. -/
def SetUnknown (σ : Heap) (r : Nat) (unknownHandler : GoValue) (plugin : List Plugin) :
    Outcome Unit :=
  match (σ.routers r).pluginContainer.cloneAdd plugin with
  | .error err => Fatalf σ err
  | .ok pluginContainer =>
    let name := unknownName (σ.routers r).typ
    if (σ.routers r).typ = "pull" ∧ unknownHandler.dynType ≠ .unknownPullFunc then
      Fatalf σ ("*Router.SetUnknown(): " ++ name ++ " handler needs type:\n "
        ++ "func(ctx UnknownPullCtx, body *[]byte) (reply interface\x7b\x7d, xerr Xerror)")
    else if (σ.routers r).typ = "push" ∧ unknownHandler.dynType ≠ .unknownPushFunc then
      Fatalf σ ("*Router.SetUnknown(): " ++ name ++ " handler needs type:\n "
        ++ "func(ctx UnknownPushCtx, body *[]byte)")
    else
      let h : Handler := unknownHandlerOf (σ.routers r).typ unknownHandler pluginContainer
      let σ1 :=
        if (σ.cells (σ.routers r).unknownApiType).isNone then
          σ.emit (.Printf ("set " ++ name ++ " handler"))
        else
          σ.emit (.Warnf ("covered " ++ name ++ " handler"))
      .ok { σ1 with
            cells := update σ1.cells σ1.nextCell (some h)
            routers := update σ1.routers r { σ1.routers r with unknownApiType := σ1.nextCell }
            nextCell := σ1.nextCell + 1 }
          ()

/-- The method `Router.get`. -/
def get (σ : Heap) (r : Nat) (uriPath : String) : Option Handler × Bool :=
  match Table.get (σ.table r) uriPath with
  | some t => (some t, true)
  | none =>
    match σ.cells (σ.routers r).unknownApiType with
    | some unknown => (some unknown, true)
    | none => (none, false)

/-- The empty heap at process start. -/
def Heap.init : Heap :=
  { maps := fun _ => []
    cells := fun _ => none
    routers := fun _ =>
      { handlers := 0, unknownApiType := 0, pathPrefix := "", pluginContainer := ⟨[]⟩,
        typ := "", fn := fun _ _ _ => .handlers [] }
    nextMap := 0
    nextCell := 0
    nextRouter := 0
    log := [] }

/-- The relation "`g` in heap `σ2` is derived from `r` in heap `σ` by a chain of `Group`
calls", each call returning normally. -/
inductive GroupChain : Heap → Nat → Heap → Nat → Prop where
  | refl (σ : Heap) (r : Nat) : GroupChain σ r σ r
  | step {σ σ1 σ2 : Heap} {r g1 g2 : Nat} (p : String) (ps : List Plugin) :
      GroupChain σ r σ1 g1 → Group σ1 g1 p ps = .ok σ2 g2 → GroupChain σ r σ2 g2

/-! ## Valid services, in the words of the rules -/

/-- A method is eligible for the pull maker: exported and not a method of the context
value. -/
def eligiblePull (ctxMethods : List String) (m : Method) : Bool :=
  decide (m.PkgPath = "") && !isPullCtxMethod ctxMethods m.Name

/-- The pull signature rules: one argument beyond the receiver, a pointer of exported or
builtin type; two results, the first exported or builtin, the second named `Xerror`. -/
def pullMethodOk (m : Method) : Bool :=
  match m.ins, m.outs with
  | [recv, arg], [reply, ret] =>
    isStructPointer recv && IsExportedOrBuiltinType arg && arg.Elem.isSome
      && IsExportedOrBuiltinType reply && decide (TrimPrefix ret.Name "teleport." = "Xerror")
  | _, _ => false

/-- A valid pull service: a pointer to a struct that implements `PullCtx` through an
anonymous field `PullCtx`, all of whose eligible methods satisfy the signature rules. -/
def validPullService (ctxMethods : List String) (c : CtrlType) : Bool :=
  isStructPointer c.rtype && c.implementsPullCtx
    && (FieldByName c.elemFields "PullCtx").any (fun f => f.Anonymous)
    && c.methods.all (fun m => !eligiblePull ctxMethods m || pullMethodOk m)

/-- The dispatch names that the pull maker derives for a service under a prefix: one per
eligible method. -/
def pullNames (ctxMethods : List String) (pathPrefix : String) (c : CtrlType) : List String :=
  (c.methods.filter (eligiblePull ctxMethods)).map
    (fun m => Join [pathPrefix, (ctrlStructSnakeName c.rtype).getD "", SnakeString m.Name])

/-! ## Sample data -/

/-- A sample list of the method names of the context value. -/
def sampleCtxMethods : List String :=
  ["Uri", "Path", "RawQuery", "Query", "Public", "PublicLen", "Ip", "Peer", "Session",
   "SetBodyCodec"]

/-- The type `map[string]interface{}`. -/
def mapType : RType := .other Teleport.Kind.Map (by decide) "" "" "map[string]interface \x7b\x7d"

/-- The type `*map[string]interface{}`. -/
def mapPtrType : RType := .ptr "" "" "*map[string]interface \x7b\x7d" mapType

/-- The type `interface{}`. -/
def emptyInterfaceType : RType :=
  .other Teleport.Kind.Interface (by decide) "" "" "interface \x7b\x7d"

/-- The type `teleport.Xerror`. -/
def xerrorType : RType :=
  .other Teleport.Kind.Interface (by decide) "Xerror" "github.com/henrylee2cn/teleport"
    "teleport.Xerror"

/-- The struct type `main.Home`. -/
def homeStructType : RType := .other Teleport.Kind.Struct (by decide) "Home" "main" "main.Home"

/-- The type `*main.Home`. -/
def homeType : RType := .ptr "" "" "*main.Home" homeStructType

/-- The pull service `Home` with `Test(args *map[string]interface{}) (interface{}, Xerror)`
and the promoted context method `Uri`. -/
def homeService : CtrlType :=
  { rtype := homeType
    methods := [⟨"Test", "", [homeType, mapPtrType], [emptyInterfaceType, xerrorType]⟩,
                ⟨"Uri", "", [homeType], [.other Teleport.Kind.String (by decide) "string" "" "string"]⟩]
    elemFields := [⟨"PullCtx", true⟩]
    implementsPullCtx := true
    implementsPushCtx := false }

/-- A fresh pull router in the empty heap. -/
def pullRoot : Heap × Nat := newPullRouter sampleCtxMethods Heap.init newPluginContainer

/-- A fresh push router in the empty heap. -/
def pushRoot : Heap × Nat := newPushRouter sampleCtxMethods Heap.init newPluginContainer

/-- A function value of the pull fallback type. -/
def pullFallback : GoValue := ⟨.unknownPullFunc, 1⟩

/-- A function value of the push fallback type. -/
def pushFallback : GoValue := ⟨.unknownPushFunc, 2⟩

/-- The heap after `Home` was registered on the fresh pull router. -/
def homeRegistered : Heap := (Reg pullRoot.1 pullRoot.2 (some homeService) []).heap

/-- The heap and the address of the new router after `Group(p)` on router `r`; on a
failed call the heap at that moment and `r` itself. -/
def groupOf (s : Heap × Nat) (p : String) : Heap × Nat :=
  match Group s.1 s.2 p [] with
  | .ok σ g => (σ, g)
  | .fatal σ _ => (σ, s.2)
  | .panic σ _ => (σ, s.2)

/-- The router `Group("a")` of the fresh pull router. -/
def pullGroupA : Heap × Nat := groupOf pullRoot "a"

/-- The router `Group("a").Group("b")` of the fresh pull router. -/
def pullGroupAB : Heap × Nat := groupOf pullGroupA "b"

/-- The router `Group("/group")` of the fresh pull router. -/
def pullGroupSlash : Heap × Nat := groupOf pullRoot "/group"

/-- The struct type `main.Dup`. -/
def dupStructType : RType := .other Teleport.Kind.Struct (by decide) "Dup" "main" "main.Dup"

/-- The type `*main.Dup`. -/
def dupType : RType := .ptr "" "" "*main.Dup" dupStructType

/-- A pull service with the two exported methods `AbC` and `Ab_c`, both of the pull
signature. -/
def dupService : CtrlType :=
  { rtype := dupType
    methods := [⟨"AbC", "", [dupType, mapPtrType], [emptyInterfaceType, xerrorType]⟩,
                ⟨"Ab_c", "", [dupType, mapPtrType], [emptyInterfaceType, xerrorType]⟩]
    elemFields := [⟨"PullCtx", true⟩]
    implementsPullCtx := true
    implementsPushCtx := false }

/-- The type `*other.Two` with the struct type `other.Two`. -/
def otherTwoType : RType :=
  .ptr "" "" "*other.Two" (.other Teleport.Kind.Struct (by decide) "Two" "other" "other.Two")

/-- The type `*main.Two` with the struct type `main.Two`. -/
def mainTwoType : RType :=
  .ptr "" "" "*main.Two" (.other Teleport.Kind.Struct (by decide) "Two" "main" "main.Two")

/-- The pull service `other.Two` with the single method `Beta`. -/
def otherTwoService : CtrlType :=
  { rtype := otherTwoType
    methods := [⟨"Beta", "", [otherTwoType, mapPtrType], [emptyInterfaceType, xerrorType]⟩]
    elemFields := [⟨"PullCtx", true⟩]
    implementsPullCtx := true
    implementsPushCtx := false }

/-- The pull service `main.Two` with the methods `Alpha` and `Beta`. -/
def mainTwoService : CtrlType :=
  { rtype := mainTwoType
    methods := [⟨"Alpha", "", [mainTwoType, mapPtrType], [emptyInterfaceType, xerrorType]⟩,
                ⟨"Beta", "", [mainTwoType, mapPtrType], [emptyInterfaceType, xerrorType]⟩]
    elemFields := [⟨"PullCtx", true⟩]
    implementsPullCtx := true
    implementsPushCtx := false }

/-- The heap after `other.Two` was registered on the fresh pull router. -/
def otherTwoRegistered : Heap := (Reg pullRoot.1 pullRoot.2 (some otherTwoService) []).heap

/-- The table after the map writes `t[h.name] = h` for the handlers `done`, in order. -/
def Table.setAll (t : Table) (done : List Handler) : Table :=
  done.foldl (fun acc h => Table.set acc h.name h) t

/-- The framework's error type `teleport.Xerror`: the type named `Xerror` of the package
`github.com/henrylee2cn/teleport`. -/
def isFrameworkXerror (t : RType) : Prop :=
  t.Name = "Xerror" ∧ t.PkgPath = "github.com/henrylee2cn/teleport"

instance (t : RType) : Decidable (isFrameworkXerror t) := by
  unfold isFrameworkXerror; infer_instance

/-- A type `main.Xerror` declared by the user, not the framework's. -/
def userXerrorType : RType :=
  .other Teleport.Kind.Interface (by decide) "Xerror" "main" "main.Xerror"

/-- The type `*main.Fake` with the struct type `main.Fake`. -/
def fakeType : RType :=
  .ptr "" "" "*main.Fake" (.other Teleport.Kind.Struct (by decide) "Fake" "main" "main.Fake")

/-- The pull service `main.Fake` whose method `Test` returns `(interface{}, main.Xerror)`. -/
def fakeService : CtrlType :=
  { rtype := fakeType
    methods := [⟨"Test", "", [fakeType, mapPtrType], [emptyInterfaceType, userXerrorType]⟩]
    elemFields := [⟨"PullCtx", true⟩]
    implementsPullCtx := true
    implementsPushCtx := false }

/-- An unexported struct type `main.secret`. -/
def secretType : RType :=
  .other Teleport.Kind.Struct (by decide) "secret" "main" "main.secret"

/-- The pull service `main.Two` with a valid `Alpha` followed by a `Beta` that returns
the unexported `main.secret`. -/
def badReplyService : CtrlType :=
  { rtype := mainTwoType
    methods := [⟨"Alpha", "", [mainTwoType, mapPtrType], [emptyInterfaceType, xerrorType]⟩,
                ⟨"Beta", "", [mainTwoType, mapPtrType], [secretType, xerrorType]⟩]
    elemFields := [⟨"PullCtx", true⟩]
    implementsPullCtx := true
    implementsPushCtx := false }

/-- A method is eligible for the push maker: exported and not a method of the context
value. -/
def eligiblePush (ctxMethods : List String) (m : Method) : Bool :=
  decide (m.PkgPath = "") && !isPushCtxMethod ctxMethods m.Name

/-- The push signature rules: exactly one argument beyond the receiver, its type
exported or builtin and a pointer, and no return values. -/
def pushMethodOk (m : Method) : Bool :=
  match m.ins with
  | [_, arg] =>
    IsExportedOrBuiltinType arg && decide (arg.Kind = Teleport.Kind.Ptr) && m.outs.isEmpty
  | _ => false

/-- A valid push service: a pointer to a struct that implements `PushCtx` through an
anonymous field `PushCtx`, all of whose eligible methods satisfy the signature rules. -/
def validPushService (ctxMethods : List String) (c : CtrlType) : Bool :=
  isStructPointer c.rtype && c.implementsPushCtx
    && (FieldByName c.elemFields "PushCtx").any (fun f => f.Anonymous)
    && c.methods.all (fun m => !eligiblePush ctxMethods m || pushMethodOk m)

/-- The type `*main.Push` with the struct type `main.Push`. -/
def pushType : RType :=
  .ptr "" "" "*main.Push" (.other Teleport.Kind.Struct (by decide) "Push" "main" "main.Push")

/-- The push service `Push` of the client sample, with
`Test(args *map[string]interface{})` and the promoted context method `Ip`. -/
def pushService : CtrlType :=
  { rtype := pushType
    methods := [⟨"Ip", "", [pushType], [.other Teleport.Kind.String (by decide) "string" "" "string"]⟩,
                ⟨"Test", "", [pushType, mapPtrType], []⟩]
    elemFields := [⟨"PushCtx", true⟩]
    implementsPullCtx := false
    implementsPushCtx := true }

/-- The type `*[]byte` of the raw body argument of a fallback function. -/
def bytesPtrType : RType := .ptr "" "" "*[]uint8" bytesType

/-- The events that the loop of `Reg` emits for candidates that pass: for each one the
`PostReg` invocation, then the log line written after the insertion. -/
def regEvents (typ : String) : List Handler → List Event
  | [] => []
  | h :: hs =>
    .PostReg h.name :: .Printf ("register " ++ typ ++ " handler: " ++ h.name)
      :: regEvents typ hs

/-- The heap after one round of the loop of `Reg` for a candidate that passes: the hook
event, then the map write, then the log line. -/
def Heap.afterCandidate (σ : Heap) (r : Nat) (h : Handler) : Heap :=
  ((σ.emit (.PostReg h.name)).setHandler r h).emit
    (.Printf ("register " ++ (σ.routers r).typ ++ " handler: " ++ h.name))

/-- A plugin whose `PostReg` hook returns an error for the name `/two/beta`. -/
def rejectBeta : Plugin :=
  { name := "reject_beta"
    PostReg := fun name _ _ => if name = "/two/beta" then some "beta is rejected" else none }

/-- A second function value of the pull fallback type. -/
def pullFallback2 : GoValue := ⟨.unknownPullFunc, 3⟩

/-- A service value of the non-pointer type `main.Home`. -/
def homeValue : CtrlType :=
  { rtype := homeStructType
    methods := []
    elemFields := [⟨"PullCtx", true⟩]
    implementsPullCtx := false
    implementsPushCtx := false }

/-- A service value of type `*int`, a pointer to a non-struct. -/
def intPointer : CtrlType :=
  { rtype := .ptr "" "" "*int" (.other Teleport.Kind.Int (by decide) "int" "" "int")
    methods := []
    elemFields := []
    implementsPullCtx := false
    implementsPushCtx := false }

/-- A path that begins with a slash. -/
def beginsWithSlash (s : String) : Prop := s.data.head? = some '/'

instance (s : String) : Decidable (beginsWithSlash s) := by
  unfold beginsWithSlash; infer_instance

/-- The last dot-separated piece of a type string: what follows the last dot, or the
whole string when it has no dot. -/
def lastDotPiece (s : String) : String :=
  String.mk (s.data.reverse.takeWhile (fun c => decide (c ≠ '.'))).reverse

/-- The unnamed struct type `struct { teleport.PullCtx; main.Inner }`. -/
def innerStructType : RType :=
  .other Teleport.Kind.Struct (by decide) "" ""
    "struct \x7b teleport.PullCtx; main.Inner \x7d"

/-- The pointer type `*struct { teleport.PullCtx; main.Inner }`. -/
def innerType : RType :=
  .ptr "" "" "*struct \x7b teleport.PullCtx; main.Inner \x7d" innerStructType

/-- A pull service of the unnamed struct type above, with the method `Test` promoted from
the embedded `main.Inner`. -/
def innerService : CtrlType :=
  { rtype := innerType
    methods := [⟨"Test", "", [innerType, mapPtrType], [emptyInterfaceType, xerrorType]⟩]
    elemFields := [⟨"PullCtx", true⟩, ⟨"Inner", true⟩]
    implementsPullCtx := true
    implementsPushCtx := false }

end Teleport

namespace Teleport

/-! ## Facts about the table and the stores -/

theorem Table.get_set_same (t : Table) (k : String) (h : Handler) :
    Table.get (Table.set t k h) k = some h := by
  induction t with
  | nil => simp [Table.set, Table.get]
  | cons p rest ih =>
    obtain ⟨k0, h0⟩ := p
    by_cases hk : k0 = k
    · simp [Table.set, Table.get, hk]
    · simp [Table.set, Table.get, hk, ih]

theorem Table.get_set_ne (t : Table) (k k2 : String) (h : Handler) (hne : k2 ≠ k) :
    Table.get (Table.set t k h) k2 = Table.get t k2 := by
  induction t with
  | nil => simp [Table.set, Table.get, Ne.symm hne]
  | cons p rest ih =>
    obtain ⟨k0, h0⟩ := p
    by_cases hk : k0 = k
    · subst hk
      simp [Table.set, Table.get, Ne.symm hne]
    · by_cases hk2 : k0 = k2
      · subst hk2
        simp [Table.set, Table.get, hk]
      · simp [Table.set, Table.get, hk, hk2, ih]

theorem Table.get_some_mem (t : Table) (k : String) (h : Handler)
    (hget : Table.get t k = some h) : (k, h) ∈ t := by
  induction t with
  | nil => simp [Table.get] at hget
  | cons p rest ih =>
    obtain ⟨k0, h0⟩ := p
    by_cases hk : k0 = k
    · simp [Table.get, hk] at hget
      simp [hk, hget]
    · simp [Table.get, hk] at hget
      exact List.mem_cons_of_mem _ (ih hget)

theorem Table.get_none_not_mem (t : Table) (k : String)
    (hget : Table.get t k = none) (h : Handler) : (k, h) ∉ t := by
  induction t with
  | nil => simp
  | cons p rest ih =>
    obtain ⟨k0, h0⟩ := p
    by_cases hk : k0 = k
    · simp [Table.get, hk] at hget
    · simp [Table.get, hk] at hget
      intro hmem
      rcases List.mem_cons.mp hmem with heq | hin
      · exact hk (by injection heq with h1 _; exact h1.symm)
      · exact ih hget hin

theorem Table.length_set_absent (t : Table) (k : String) (h : Handler)
    (hget : Table.get t k = none) : (Table.set t k h).length = t.length + 1 := by
  induction t with
  | nil => simp [Table.set]
  | cons p rest ih =>
    obtain ⟨k0, h0⟩ := p
    by_cases hk : k0 = k
    · simp [Table.get, hk] at hget
    · simp [Table.get, hk] at hget
      simp [Table.set, hk, ih hget]

@[simp] theorem update_same {β : Type} (f : Nat → β) (a : Nat) (v : β) :
    update f a v a = v := by
  simp [update]

theorem update_other {β : Type} (f : Nat → β) (a x : Nat) (v : β) (hne : x ≠ a) :
    update f a v x = f x := by
  simp [update, hne]

@[simp] theorem emit_routers (σ : Heap) (e : Event) : (σ.emit e).routers = σ.routers := rfl
@[simp] theorem emit_maps (σ : Heap) (e : Event) : (σ.emit e).maps = σ.maps := rfl
@[simp] theorem emit_cells (σ : Heap) (e : Event) : (σ.emit e).cells = σ.cells := rfl
@[simp] theorem emit_table (σ : Heap) (e : Event) (r : Nat) : (σ.emit e).table r = σ.table r := rfl
@[simp] theorem setHandler_routers (σ : Heap) (r : Nat) (h : Handler) :
    (σ.setHandler r h).routers = σ.routers := rfl
@[simp] theorem setHandler_cells (σ : Heap) (r : Nat) (h : Handler) :
    (σ.setHandler r h).cells = σ.cells := rfl

@[simp] theorem setHandler_table (σ : Heap) (r : Nat) (h : Handler) :
    (σ.setHandler r h).table r = Table.set (σ.table r) h.name h := by
  simp [Heap.setHandler, Heap.table]

/-- Two routers that hold the same map reference see the same table. -/
theorem table_eq_of_handlers (σ : Heap) (x y : Nat)
    (hxy : (σ.routers x).handlers = (σ.routers y).handlers) : σ.table x = σ.table y := by
  simp [Heap.table, hxy]

/-! ## Facts about the registration loop -/

theorem regLoop_routers (r : Nat) (pc : PluginContainer) (hs : List Handler) (σ : Heap) :
    (regLoop r pc hs σ).heap.routers = σ.routers := by
  induction hs generalizing σ with
  | nil => simp [regLoop, Outcome.heap]
  | cons h rest ih =>
    unfold regLoop
    split
    · simp [Fatalf, Outcome.heap]
    · split
      · simp [Fatalf, Outcome.heap]
      · rw [ih]; simp

theorem regLoop_cells (r : Nat) (pc : PluginContainer) (hs : List Handler) (σ : Heap) :
    (regLoop r pc hs σ).heap.cells = σ.cells := by
  induction hs generalizing σ with
  | nil => simp [regLoop, Outcome.heap]
  | cons h rest ih =>
    unfold regLoop
    split
    · simp [Fatalf, Outcome.heap]
    · split
      · simp [Fatalf, Outcome.heap]
      · rw [ih]; simp

/-- The loop never overwrites or removes an entry that is already in the table. -/
theorem regLoop_keeps (r : Nat) (pc : PluginContainer) (hs : List Handler) (σ : Heap)
    (n : String) (h0 : Handler) (hin : Table.get (σ.table r) n = some h0) :
    Table.get ((regLoop r pc hs σ).heap.table r) n = some h0 := by
  induction hs generalizing σ with
  | nil => simpa [regLoop, Outcome.heap] using hin
  | cons h rest ih =>
    unfold regLoop
    split
    · simpa [Fatalf, Outcome.heap] using hin
    · rename_i hfree
      split
      · simpa [Fatalf, Outcome.heap] using hin
      · apply ih
        have hne : n ≠ h.name := by
          intro heq
          subst heq
          simp [hin] at hfree
        simp [Table.get_set_ne _ _ _ _ hne, hin]

/-- A candidate whose name is taken makes the loop end in `Fatalf`. -/
theorem regLoop_conflict (r : Nat) (pc : PluginContainer) (hs : List Handler) (σ : Heap)
    (hex : ∃ h ∈ hs, (Table.get (σ.table r) h.name).isSome = true) :
    ∃ σ2 msg, regLoop r pc hs σ = .fatal σ2 msg := by
  induction hs generalizing σ with
  | nil => simp at hex
  | cons h rest ih =>
    unfold regLoop
    split
    · exact ⟨_, _, rfl⟩
    · rename_i hfree
      split
      · exact ⟨_, _, rfl⟩
      · apply ih
        obtain ⟨h1, hmem, htaken⟩ := hex
        rcases List.mem_cons.mp hmem with heq | hin
        · subst heq; exact absurd htaken hfree
        · refine ⟨h1, hin, ?_⟩
          obtain ⟨h0, hh0⟩ := Option.isSome_iff_exists.mp htaken
          have hne : h1.name ≠ h.name := by
            intro heq
            rw [heq] at hh0
            simp [hh0] at hfree
          simp [Table.get_set_ne _ _ _ _ hne, hh0]

/-- After a loop that returns normally every candidate is in the table under its name. -/
theorem regLoop_ok_get (r : Nat) (pc : PluginContainer) (hs : List Handler) (σ σ2 : Heap)
    (hok : regLoop r pc hs σ = .ok σ2 ()) :
    ∀ h ∈ hs, Table.get (σ2.table r) h.name = some h := by
  induction hs generalizing σ with
  | nil => simp
  | cons h rest ih =>
    unfold regLoop at hok
    split at hok
    · simp [Fatalf] at hok
    · split at hok
      · simp [Fatalf] at hok
      · intro h1 hmem
        rcases List.mem_cons.mp hmem with heq | hin
        · subst heq
          have hk := congrArg (fun o => Table.get (o.heap.table r) h1.name) hok
          simp only [Outcome.heap] at hk
          rw [← hk]
          apply regLoop_keeps
          simp [Table.get_set_same]
        · exact ih _ hok h1 hin

/-! ## Facts about `SetUnknown` and `Group` -/

/-- A normal return of `SetUnknown`: the maps are as before, the handler sits in the
cell at the old `nextCell`, and only the receiver is redirected to that cell. -/
theorem SetUnknown_ok (σ σ2 : Heap) (r : Nat) (v : GoValue) (ps : List Plugin)
    (hok : SetUnknown σ r v ps = .ok σ2 ()) :
    ∃ pc, (σ.routers r).pluginContainer.cloneAdd ps = .ok pc ∧
      σ2.maps = σ.maps ∧
      σ2.cells = update σ.cells σ.nextCell (some (unknownHandlerOf (σ.routers r).typ v pc)) ∧
      σ2.routers = update σ.routers r { σ.routers r with unknownApiType := σ.nextCell } := by
  unfold SetUnknown at hok
  split at hok
  · simp [Fatalf] at hok
  · rename_i pc hpc
    refine ⟨pc, hpc, ?_⟩
    simp only at hok
    split at hok
    · simp [Fatalf] at hok
    · split at hok
      · simp [Fatalf] at hok
      · injection hok with hσ _
        subst hσ
        split <;> simp [unknownHandlerOf, Heap.emit]

/-- After a normal return of `SetUnknown` the receiver reads the new handler from its
cell and still sees its table. -/
theorem SetUnknown_ok_receiver (σ σ2 : Heap) (r : Nat) (v : GoValue) (ps : List Plugin)
    (hok : SetUnknown σ r v ps = .ok σ2 ()) :
    σ2.table r = σ.table r ∧
    ∃ pc, (σ.routers r).pluginContainer.cloneAdd ps = .ok pc ∧
      σ2.cells (σ2.routers r).unknownApiType
        = some (unknownHandlerOf (σ.routers r).typ v pc) := by
  obtain ⟨pc, hpc, hmaps, hcells, hrouters⟩ := SetUnknown_ok σ σ2 r v ps hok
  refine ⟨?_, pc, hpc, ?_⟩
  · simp [Heap.table, hmaps, hrouters]
  · simp [hcells, hrouters]

/-- A normal return of `Group`: the new router sits at the old `nextRouter` and copies
the map reference, the cell address and the maker of the receiver. -/
theorem Group_ok (σ σ2 : Heap) (r g : Nat) (p : String) (ps : List Plugin)
    (hok : Group σ r p ps = .ok σ2 g) :
    g = σ.nextRouter ∧ σ2.maps = σ.maps ∧ σ2.cells = σ.cells ∧
    ∃ pc, (σ.routers r).pluginContainer.cloneAdd ps = .ok pc ∧
      σ2.routers = update σ.routers σ.nextRouter
        { handlers := (σ.routers r).handlers
          unknownApiType := (σ.routers r).unknownApiType
          pathPrefix := Join [(σ.routers r).pathPrefix, p]
          pluginContainer := pc
          typ := ""
          fn := (σ.routers r).fn } := by
  unfold Group at hok
  split at hok
  · simp [Fatalf] at hok
  · rename_i pc hpc
    injection hok with hσ hg
    subst hσ
    exact ⟨hg.symm, rfl, rfl, pc, hpc, rfl⟩

/-! ## Lookup -/

/-- A fresh router has an empty table and a nil fallback cell. -/
theorem newRouter_get (σ : Heap) (pc : PluginContainer) (fn : HandlersMaker) (typ name : String) :
    get (newRouter σ pc fn typ).1 (newRouter σ pc fn typ).2 name = (none, false) := by
  simp [get, newRouter, Heap.table, Table.get]

/-- C1: `get(name)` returns the handler stored under exactly that name when the table
has one (and it is an entry of the table); on a miss it returns the fallback of the
router when its cell holds one, and not-found otherwise.  On a fresh pull or push router
every lookup is a miss that reports not-found, and after a `SetUnknown` that returned
normally a miss on the same router returns the handler wrapping the installed value. -/
theorem get_entry_or_fallback (ctxMethods : List String) (σ : Heap) (r : Nat) (name : String) :
    (∀ h, Table.get (σ.table r) name = some h →
        get σ r name = (some h, true) ∧ (name, h) ∈ σ.table r) ∧
    (Table.get (σ.table r) name = none →
        (∀ h, (name, h) ∉ σ.table r) ∧
        (∀ f, σ.cells (σ.routers r).unknownApiType = some f → get σ r name = (some f, true)) ∧
        (σ.cells (σ.routers r).unknownApiType = none → get σ r name = (none, false))) ∧
    (∀ pc, get (newPullRouter ctxMethods σ pc).1 (newPullRouter ctxMethods σ pc).2 name
              = (none, false) ∧
           get (newPushRouter ctxMethods σ pc).1 (newPushRouter ctxMethods σ pc).2 name
              = (none, false)) ∧
    (∀ v ps σ2, SetUnknown σ r v ps = .ok σ2 () → Table.get (σ.table r) name = none →
        ∃ f, get σ2 r name = (some f, true) ∧ f.method = .value v) := by
  refine ⟨?_, ?_, ?_, ?_⟩
  · intro h hget
    exact ⟨by simp [get, hget], Table.get_some_mem _ _ _ hget⟩
  · intro hmiss
    refine ⟨Table.get_none_not_mem _ _ hmiss, ?_, ?_⟩
    · intro f hf
      simp [get, hmiss, hf]
    · intro hnil
      simp [get, hmiss, hnil]
  · intro pc
    exact ⟨newRouter_get _ _ _ _ _, newRouter_get _ _ _ _ _⟩
  · intro v ps σ2 hok hmiss
    obtain ⟨htab, pc, _, hcell⟩ := SetUnknown_ok_receiver σ σ2 r v ps hok
    refine ⟨unknownHandlerOf (σ.routers r).typ v pc, ?_, rfl⟩
    simp [get, htab, hmiss, hcell]

/-- C1, at the fresh pull router: after `SetUnknown(pullFallback)` the unregistered name
`/home/none` resolves to a handler wrapping that value. -/
theorem get_entry_or_fallback_witness :
    ∃ f, get (SetUnknown pullRoot.1 pullRoot.2 pullFallback []).heap pullRoot.2 "/home/none"
        = (some f, true) ∧ f.method = .value pullFallback :=
  (get_entry_or_fallback sampleCtxMethods pullRoot.1 pullRoot.2 "/home/none").2.2.2
    pullFallback [] _ rfl rfl

/-! ## Registration -/

/-- When the maker of the router derives a candidate whose name is taken, `Reg` ends in
`Fatalf` and the entries of the table are as before. -/
theorem Reg_fatal_of_taken (σ : Heap) (r : Nat) (ctrlStruct : CtrlStruct)
    (plugin : List Plugin) (pc : PluginContainer) (hs : List Handler)
    (hpc : (σ.routers r).pluginContainer.cloneAdd plugin = .ok pc)
    (hfn : (σ.routers r).fn (σ.routers r).pathPrefix ctrlStruct (some pc) = .handlers hs)
    (hex : ∃ h ∈ hs, (Table.get (σ.table r) h.name).isSome = true) :
    ∃ σ2 msg, Reg σ r ctrlStruct plugin = .fatal σ2 msg ∧
      ∀ n h0, Table.get (σ.table r) n = some h0 → Table.get (σ2.table r) n = some h0 := by
  obtain ⟨σ2, msg, hfatal⟩ := regLoop_conflict r pc hs σ hex
  refine ⟨σ2, msg, ?_, ?_⟩
  · simp [Reg, hpc, hfn, hfatal]
  · intro n h0 hin
    have hk := regLoop_keeps r pc hs σ n h0 hin
    rw [hfatal] at hk
    simpa [Outcome.heap] using hk

/-- C2: when the maker of the router derives a candidate whose dispatch name is already
in the handler table, `Reg` ends in `Fatalf`, and every name that was in the table
before the call still maps to the same handler at that moment. -/
theorem Reg_conflict_fatal_keeps (σ : Heap) (r : Nat) (ctrlStruct : CtrlStruct)
    (plugin : List Plugin) (pc : PluginContainer) (hs : List Handler)
    (hpc : (σ.routers r).pluginContainer.cloneAdd plugin = .ok pc)
    (hfn : (σ.routers r).fn (σ.routers r).pathPrefix ctrlStruct (some pc) = .handlers hs)
    (hex : ∃ h ∈ hs, (Table.get (σ.table r) h.name).isSome = true) :
    ∃ σ2 msg, Reg σ r ctrlStruct plugin = .fatal σ2 msg ∧
      ∀ n h0, Table.get (σ.table r) n = some h0 → Table.get (σ2.table r) n = some h0 := by
  obtain ⟨σ2, msg, hfatal⟩ := regLoop_conflict r pc hs σ hex
  refine ⟨σ2, msg, ?_, ?_⟩
  · simp [Reg, hpc, hfn, hfatal]
  · intro n h0 hin
    have hk := regLoop_keeps r pc hs σ n h0 hin
    rw [hfatal] at hk
    simpa [Outcome.heap] using hk

/-- C2, at the pull router on which `Home` is already registered: registering `Home`
again ends in `Fatalf` and keeps the entries. -/
theorem Reg_conflict_fatal_keeps_witness :
    ∃ σ2 msg, Reg homeRegistered pullRoot.2 (some homeService) [] = .fatal σ2 msg ∧
      ∀ n h0, Table.get (homeRegistered.table pullRoot.2) n = some h0 →
        Table.get (σ2.table pullRoot.2) n = some h0 :=
  Reg_conflict_fatal_keeps homeRegistered pullRoot.2 (some homeService) [] _ _ rfl rfl
    ⟨_, List.mem_cons_self _ _, rfl⟩

/-! ## Groups share the table -/

/-- Every router derived through `Group` holds the map reference of its ancestor. -/
theorem GroupChain_handlers {σ σ2 : Heap} {r g : Nat} (hchain : GroupChain σ r σ2 g) :
    (σ2.routers r).handlers = (σ2.routers g).handlers := by
  induction hchain with
  | refl => rfl
  | @step σ1 σ3 r0 g1 g2 p ps _ hgroup ih =>
    obtain ⟨hg, _, _, pc, _, hrouters⟩ := Group_ok _ _ _ _ _ _ hgroup
    subst hg
    rw [hrouters]
    by_cases hr : r0 = σ1.nextRouter
    · rw [← hr]
    · rw [update_other _ _ _ _ hr, update_same]; exact ih

/-- A `Reg` that returns normally leaves the routers as they were, and every candidate is
then found by `get` on any router that holds the same map reference. -/
theorem Reg_ok_get_shared (σ σ3 : Heap) (x y : Nat) (ctrlStruct : CtrlStruct)
    (plugin : List Plugin) (pc : PluginContainer) (hs : List Handler)
    (hxy : (σ.routers x).handlers = (σ.routers y).handlers)
    (hpc : (σ.routers x).pluginContainer.cloneAdd plugin = .ok pc)
    (hfn : (σ.routers x).fn (σ.routers x).pathPrefix ctrlStruct (some pc) = .handlers hs)
    (hok : Reg σ x ctrlStruct plugin = .ok σ3 ()) :
    σ3.routers = σ.routers ∧
    ∀ h ∈ hs, Table.get (σ3.table y) h.name = some h ∧ get σ3 y h.name = (some h, true) := by
  simp only [Reg, hpc, hfn] at hok
  have hr : σ3.routers = σ.routers := by
    have := regLoop_routers x pc hs σ
    rw [hok] at this
    simpa [Outcome.heap] using this
  refine ⟨hr, ?_⟩
  intro h hmem
  have hget := regLoop_ok_get x pc hs σ σ3 hok h hmem
  have htab : σ3.table y = σ3.table x := by
    apply table_eq_of_handlers
    rw [hr]; exact hxy.symm
  simp [get, htab, hget]

/-- C3: a router `r` and a router `g` derived from it by a chain of `Group` calls see the
same handler table.  For either order of the two: the handlers that a `Reg` on one inserts
are returned by `get` on the other under their names; `Reg` on one ends in `Fatalf` when a
derived name is in the table that the other sees; and after a `Reg` through one, a `Reg`
on the other that derives one of the names just registered ends in `Fatalf`. -/
theorem Group_shares_table (σ σ2 : Heap) (r g : Nat) (hchain : GroupChain σ r σ2 g)
    (x y : Nat) (hxy : (x = r ∧ y = g) ∨ (x = g ∧ y = r))
    (ctrlStruct : CtrlStruct) (plugin : List Plugin) (pc : PluginContainer)
    (hs : List Handler)
    (hpc : (σ2.routers x).pluginContainer.cloneAdd plugin = .ok pc)
    (hfn : (σ2.routers x).fn (σ2.routers x).pathPrefix ctrlStruct (some pc) = .handlers hs) :
    σ2.table x = σ2.table y ∧
    ((∃ h ∈ hs, (Table.get (σ2.table y) h.name).isSome = true) →
      ∃ σ3 msg, Reg σ2 x ctrlStruct plugin = .fatal σ3 msg) ∧
    (∀ σ3, Reg σ2 x ctrlStruct plugin = .ok σ3 () →
      (∀ h ∈ hs, get σ3 y h.name = (some h, true)) ∧
      ∀ ctrlStruct2 plugin2 pc2 hs2,
        (σ3.routers y).pluginContainer.cloneAdd plugin2 = .ok pc2 →
        (σ3.routers y).fn (σ3.routers y).pathPrefix ctrlStruct2 (some pc2) = .handlers hs2 →
        (∃ h2 ∈ hs2, ∃ h ∈ hs, h2.name = h.name) →
        ∃ σ4 msg, Reg σ3 y ctrlStruct2 plugin2 = .fatal σ4 msg) := by
  have href : (σ2.routers x).handlers = (σ2.routers y).handlers := by
    rcases hxy with ⟨hx, hy⟩ | ⟨hx, hy⟩
    · subst hx; subst hy; exact GroupChain_handlers hchain
    · subst hx; subst hy; exact (GroupChain_handlers hchain).symm
  have htab : σ2.table x = σ2.table y := table_eq_of_handlers σ2 x y href
  refine ⟨htab, ?_, ?_⟩
  · intro hex
    rw [← htab] at hex
    obtain ⟨σ3, msg, hfatal, _⟩ :=
      Reg_fatal_of_taken σ2 x ctrlStruct plugin pc hs hpc hfn hex
    exact ⟨σ3, msg, hfatal⟩
  · intro σ3 hok
    obtain ⟨hr, hget⟩ := Reg_ok_get_shared σ2 σ3 x y ctrlStruct plugin pc hs href hpc hfn hok
    refine ⟨fun h hmem => (hget h hmem).2, ?_⟩
    intro ctrlStruct2 plugin2 pc2 hs2 hpc2 hfn2 hex
    obtain ⟨h2, hmem2, h, hmem, hname⟩ := hex
    have hin : (Table.get (σ3.table y) h2.name).isSome = true := by
      rw [hname, (hget h hmem).1]; rfl
    obtain ⟨σ4, msg, hfatal, _⟩ :=
      Reg_fatal_of_taken σ3 y ctrlStruct2 plugin2 pc2 hs2 hpc2 hfn2 ⟨h2, hmem2, hin⟩
    exact ⟨σ4, msg, hfatal⟩

/-- C3, at `Group("a").Group("b")` of the fresh pull router: `Home` registered through
the group is found through the root under its name. -/
theorem Group_shares_table_witness :
    (get (Reg pullGroupAB.1 pullGroupAB.2 (some homeService) []).heap pullRoot.2
      "/a/b/home/test").2 = true :=
  congrArg Prod.snd
    (((Group_shares_table pullRoot.1 pullGroupAB.1 pullRoot.2 pullGroupAB.2
      (GroupChain.step "b" [] (GroupChain.step "a" [] (GroupChain.refl _ _) rfl) rfl)
      pullGroupAB.2 pullRoot.2 (Or.inr ⟨rfl, rfl⟩) (some homeService) [] _ _ rfl rfl).2.2
      _ rfl).1 _ (List.mem_cons_self _ _))

/-- One round of the pull method loop that ends with a candidate list: the method is
skipped, or it passes every check and its handler is appended. -/
theorem pullMethods_cons (ctxMethods : List String) (pathPrefix : String) (ctype : RType)
    (osm : OriginStructMaker) (pc : PluginContainer) (m : Method) (rest : List Method)
    (acc hs : List Handler)
    (hmk : pullMethods ctxMethods pathPrefix ctype osm pc (m :: rest) acc = .handlers hs) :
    ((m.PkgPath ≠ "" ∨ isPullCtxMethod ctxMethods m.Name = true) ∧
      pullMethods ctxMethods pathPrefix ctype osm pc rest acc = .handlers hs) ∨
    (¬ (m.PkgPath ≠ "" ∨ isPullCtxMethod ctxMethods m.Name = true) ∧
      ∃ structType argType argElem replyType returnType tName,
        m.ins = [structType, argType] ∧ isStructPointer structType = true ∧
        IsExportedOrBuiltinType argType = true ∧ argType.Elem = some argElem ∧
        m.outs = [replyType, returnType] ∧ IsExportedOrBuiltinType replyType = true ∧
        TrimPrefix returnType.Name "teleport." = "Xerror" ∧
        ctrlStructSnakeName ctype = some tName ∧
        pullMethods ctxMethods pathPrefix ctype osm pc rest
          (acc ++ [makeHandler pathPrefix tName ctype m.Name osm argElem (some replyType) pc])
          = .handlers hs) := by
  unfold pullMethods at hmk
  simp only at hmk
  split at hmk
  · rename_i hskip
    exact Or.inl ⟨hskip, hmk⟩
  · rename_i hskip
    refine Or.inr ⟨hskip, ?_⟩
    split at hmk
    · rename_i structType argType hins
      split at hmk
      · simp at hmk
      · rename_i hrecv
        split at hmk
        · simp at hmk
        · rename_i harg
          split at hmk
          · simp at hmk
          · rename_i argElem hElem
            split at hmk
            · rename_i replyType returnType houts
              split at hmk
              · simp at hmk
              · rename_i hreply
                split at hmk
                · simp at hmk
                · rename_i hret
                  split at hmk
                  · simp at hmk
                  · rename_i tName htn
                    exact ⟨structType, argType, argElem, replyType, returnType, tName, hins,
                      by simpa using hrecv, by simpa using harg, hElem, houts,
                      by simpa using hreply, by simpa using hret, htn, hmk⟩
            · simp at hmk
    · simp at hmk

/-- One round of the push method loop that ends with a candidate list: the method is
skipped, or it passes every check and its handler is appended. -/
theorem pushMethods_cons (ctxMethods : List String) (pathPrefix : String) (ctype : RType)
    (osm : OriginStructMaker) (pc : PluginContainer) (m : Method) (rest : List Method)
    (acc hs : List Handler)
    (hmk : pushMethods ctxMethods pathPrefix ctype osm pc (m :: rest) acc = .handlers hs) :
    ((m.PkgPath ≠ "" ∨ isPushCtxMethod ctxMethods m.Name = true) ∧
      pushMethods ctxMethods pathPrefix ctype osm pc rest acc = .handlers hs) ∨
    (¬ (m.PkgPath ≠ "" ∨ isPushCtxMethod ctxMethods m.Name = true) ∧
      ∃ structType argType argElem tName,
        m.ins = [structType, argType] ∧ isStructPointer structType = true ∧
        IsExportedOrBuiltinType argType = true ∧ argType.Elem = some argElem ∧
        m.outs.length = 0 ∧
        ctrlStructSnakeName ctype = some tName ∧
        pushMethods ctxMethods pathPrefix ctype osm pc rest
          (acc ++ [makeHandler pathPrefix tName ctype m.Name osm argElem none pc])
          = .handlers hs) := by
  unfold pushMethods at hmk
  simp only at hmk
  split at hmk
  · rename_i hskip
    exact Or.inl ⟨hskip, hmk⟩
  · rename_i hskip
    refine Or.inr ⟨hskip, ?_⟩
    split at hmk
    · rename_i structType argType hins
      split at hmk
      · simp at hmk
      · rename_i hrecv
        split at hmk
        · simp at hmk
        · rename_i harg
          split at hmk
          · simp at hmk
          · rename_i argElem hElem
            split at hmk
            · simp at hmk
            · rename_i houts
              split at hmk
              · simp at hmk
              · rename_i tName htn
                exact ⟨structType, argType, argElem, tName, hins,
                  by simpa using hrecv, by simpa using harg, hElem,
                  by simpa using houts, htn, hmk⟩
    · simp at hmk


/-- What `pullHandlersMaker` has checked when it returns a candidate list. -/
theorem pullHandlersMaker_handlers (ctxMethods : List String) (pathPrefix : String)
    (c : CtrlType) (pc : Option PluginContainer) (hs : List Handler)
    (hmk : pullHandlersMaker ctxMethods pathPrefix (some c) pc = .handlers hs) :
    ∃ elem f, c.rtype.Elem = some elem ∧ elem.Kind = Teleport.Kind.Struct ∧
      c.implementsPullCtx = true ∧ FieldByName c.elemFields "PullCtx" = some f ∧
      f.Anonymous = true ∧
      pullMethods ctxMethods pathPrefix c.rtype (.newStruct elem "PullCtx")
        (pc.getD newPluginContainer) c.methods [] = .handlers hs := by
  unfold pullHandlersMaker at hmk
  simp only at hmk
  split at hmk
  · simp at hmk
  · rename_i elem hElem
    split at hmk
    · simp at hmk
    · rename_i hkind
      split at hmk
      · simp at hmk
      · rename_i himpl
        split at hmk
        · rename_i f hf
          split at hmk
          · rename_i hanon
            exact ⟨elem, f, hElem, by simpa using hkind, by simpa using himpl, hf, hanon, hmk⟩
          · simp at hmk
        · simp at hmk

/-- What `pushHandlersMaker` has checked when it returns a candidate list. -/
theorem pushHandlersMaker_handlers (ctxMethods : List String) (pathPrefix : String)
    (c : CtrlType) (pc : Option PluginContainer) (hs : List Handler)
    (hmk : pushHandlersMaker ctxMethods pathPrefix (some c) pc = .handlers hs) :
    ∃ elem f, c.rtype.Elem = some elem ∧ elem.Kind = Teleport.Kind.Struct ∧
      c.implementsPushCtx = true ∧ FieldByName c.elemFields "PushCtx" = some f ∧
      f.Anonymous = true ∧
      pushMethods ctxMethods pathPrefix c.rtype (.newStruct elem "PushCtx")
        (pc.getD newPluginContainer) c.methods [] = .handlers hs := by
  unfold pushHandlersMaker at hmk
  simp only at hmk
  split at hmk
  · simp at hmk
  · rename_i elem hElem
    split at hmk
    · simp at hmk
    · rename_i hkind
      split at hmk
      · simp at hmk
      · rename_i himpl
        split at hmk
        · rename_i f hf
          split at hmk
          · rename_i hanon
            exact ⟨elem, f, hElem, by simpa using hkind, by simpa using himpl, hf, hanon, hmk⟩
          · simp at hmk
        · simp at hmk

/-- Every candidate of the pull loop was accumulated before or is the handler of one of
the remaining methods, named from the prefix, the type piece and the method name. -/
theorem pullMethods_mem (ctxMethods : List String) (pathPrefix : String) (ctype : RType)
    (osm : OriginStructMaker) (pc : PluginContainer) (ms : List Method)
    (acc hs : List Handler)
    (hmk : pullMethods ctxMethods pathPrefix ctype osm pc ms acc = .handlers hs) :
    ∀ h ∈ hs, h ∈ acc ∨ ∃ m ∈ ms, ∃ tName argElem replyType,
      ctrlStructSnakeName ctype = some tName ∧
      isPullCtxMethod ctxMethods m.Name = false ∧
      h = makeHandler pathPrefix tName ctype m.Name osm argElem (some replyType) pc := by
  induction ms generalizing acc with
  | nil =>
    intro h hmem
    simp [pullMethods] at hmk
    subst hmk
    exact Or.inl hmem
  | cons m rest ih =>
    intro h hmem
    rcases pullMethods_cons _ _ _ _ _ _ _ _ _ hmk with ⟨_, hrest⟩ | ⟨hskip, hpass⟩
    · rcases ih _ hrest h hmem with hacc | ⟨m2, hm2, hx⟩
      · exact Or.inl hacc
      · exact Or.inr ⟨m2, List.mem_cons_of_mem _ hm2, hx⟩
    · obtain ⟨_, _, argElem, replyType, _, tName, _, _, _, _, _, _, _, htn, hrest⟩ := hpass
      rcases ih _ hrest h hmem with hacc | ⟨m2, hm2, hx⟩
      · rcases List.mem_append.mp hacc with hold | hnew
        · exact Or.inl hold
        · refine Or.inr ⟨m, List.mem_cons_self _ _, tName, argElem, replyType, htn, ?_, ?_⟩
          · simpa using fun hc => hskip (Or.inr hc)
          · simpa using hnew
      · exact Or.inr ⟨m2, List.mem_cons_of_mem _ hm2, hx⟩

/-- Every candidate of the push loop was accumulated before or is the handler of one of
the remaining methods, named from the prefix, the type piece and the method name. -/
theorem pushMethods_mem (ctxMethods : List String) (pathPrefix : String) (ctype : RType)
    (osm : OriginStructMaker) (pc : PluginContainer) (ms : List Method)
    (acc hs : List Handler)
    (hmk : pushMethods ctxMethods pathPrefix ctype osm pc ms acc = .handlers hs) :
    ∀ h ∈ hs, h ∈ acc ∨ ∃ m ∈ ms, ∃ tName argElem,
      ctrlStructSnakeName ctype = some tName ∧
      isPushCtxMethod ctxMethods m.Name = false ∧
      h = makeHandler pathPrefix tName ctype m.Name osm argElem none pc := by
  induction ms generalizing acc with
  | nil =>
    intro h hmem
    simp [pushMethods] at hmk
    subst hmk
    exact Or.inl hmem
  | cons m rest ih =>
    intro h hmem
    rcases pushMethods_cons _ _ _ _ _ _ _ _ _ hmk with ⟨_, hrest⟩ | ⟨hskip, hpass⟩
    · rcases ih _ hrest h hmem with hacc | ⟨m2, hm2, hx⟩
      · exact Or.inl hacc
      · exact Or.inr ⟨m2, List.mem_cons_of_mem _ hm2, hx⟩
    · obtain ⟨_, _, argElem, tName, _, _, _, _, _, htn, hrest⟩ := hpass
      rcases ih _ hrest h hmem with hacc | ⟨m2, hm2, hx⟩
      · rcases List.mem_append.mp hacc with hold | hnew
        · exact Or.inl hold
        · refine Or.inr ⟨m, List.mem_cons_self _ _, tName, argElem, htn, ?_, ?_⟩
          · simpa using fun hc => hskip (Or.inr hc)
          · simpa using hnew
      · exact Or.inr ⟨m2, List.mem_cons_of_mem _ hm2, hx⟩

/-! ## The last piece of the type string -/

theorem splitOn_ne_nil (sep : Char) (s : List Char) : splitOn sep s ≠ [] := by
  cases s with
  | nil => simp [splitOn]
  | cons c cs =>
    unfold splitOn
    split
    · simp
    · split <;> simp

theorem splitOn_no_sep (sep : Char) (n : List Char) (hn : sep ∉ n) : splitOn sep n = [n] := by
  induction n with
  | nil => simp [splitOn]
  | cons c cs ih =>
    have hc : c ≠ sep := fun h => hn (by simp [h])
    have hcs : sep ∉ cs := fun h => hn (List.mem_cons_of_mem _ h)
    simp [splitOn, hc, ih hcs]

theorem splitOn_tail (sep : Char) (p n : List Char) (hn : sep ∉ n) :
    ∃ w ws, splitOn sep (p ++ sep :: n) = w :: ws ∧ ws ≠ [] ∧ ws.getLast? = some n := by
  induction p with
  | nil => exact ⟨[], [n], by simp [splitOn, splitOn_no_sep sep n hn], by simp, by simp⟩
  | cons c cs ih =>
    obtain ⟨w, ws, hsplit, hne, hlast⟩ := ih
    by_cases hc : c = sep
    · refine ⟨[], w :: ws, by simp [splitOn, hc, hsplit], by simp, ?_⟩
      cases ws with
      | nil => exact absurd rfl hne
      | cons a as => simpa [List.getLast?_cons_cons] using hlast
    · exact ⟨c :: w, ws, by simp [splitOn, hc, hsplit], hne, hlast⟩

/-- The last dot-separated piece of `p.n` is `n` when `n` has no dot. -/
theorem splitOn_last (sep : Char) (p n : List Char) (hn : sep ∉ n) :
    (splitOn sep (p ++ sep :: n)).get? ((splitOn sep (p ++ sep :: n)).length - 1) = some n := by
  obtain ⟨w, ws, hsplit, hne, hlast⟩ := splitOn_tail sep p n hn
  rw [hsplit]
  cases ws with
  | nil => exact absurd rfl hne
  | cons a as =>
    rw [← hlast, List.getLast?_eq_getElem?]
    simp

/-- The type piece of a dispatch name is always defined: `strings.Split` never returns an
empty slice. -/
theorem ctrlStructSnakeName_isSome (ctype : RType) : (ctrlStructSnakeName ctype).isSome = true := by
  unfold ctrlStructSnakeName
  simp only
  have hne := splitOn_ne_nil '.' ctype.toStr.data
  cases hsp : splitOn '.' ctype.toStr.data with
  | nil => exact absurd hsp hne
  | cons w ws =>
    have hlt : (w :: ws).length - 1 < (w :: ws).length := by simp
    rw [List.get?_eq_get hlt]
    rfl

/-- For the type string `*q.n` the type piece is the snake case of the bare name `n`. -/
theorem ctrlStructSnakeName_bare (ctype : RType) (q n : String)
    (htype : ctype.toStr = "*" ++ q ++ "." ++ n) (hn : '.' ∉ n.data) :
    ctrlStructSnakeName ctype = some (SnakeString n) := by
  unfold ctrlStructSnakeName
  simp only
  have hdata : ctype.toStr.data = ('*' :: q.data) ++ '.' :: n.data := by
    rw [htype]; simp [String.data_append]
  rw [hdata, splitOn_last '.' _ _ hn]

theorem takeWhile_until_sep (sep : Char) (a b : List Char) (ha : sep ∉ a) :
    (a ++ sep :: b).takeWhile (fun c => decide (c ≠ sep)) = a := by
  induction a with
  | nil => simp [List.takeWhile]
  | cons c cs ih =>
    have hc : c ≠ sep := fun h => ha (by simp [h])
    have hcs : sep ∉ cs := fun h => ha (List.mem_cons_of_mem _ h)
    have hd : decide (c ≠ sep) = true := by simp [hc]
    rw [List.cons_append, List.takeWhile_cons]
    simp only [hd, if_true]
    rw [ih hcs]

theorem takeWhile_no_sep (sep : Char) (a : List Char) (ha : sep ∉ a) :
    a.takeWhile (fun c => decide (c ≠ sep)) = a := by
  induction a with
  | nil => rfl
  | cons c cs ih =>
    have hc : c ≠ sep := fun h => ha (by simp [h])
    have hcs : sep ∉ cs := fun h => ha (List.mem_cons_of_mem _ h)
    have hd : decide (c ≠ sep) = true := by simp [hc]
    rw [List.takeWhile_cons]
    simp only [hd, if_true]
    rw [ih hcs]

/-- The last element of `strings.Split(s, sep)` is what follows the last separator. -/
theorem splitOn_last_piece (sep : Char) (s : List Char) :
    (splitOn sep s).get? ((splitOn sep s).length - 1)
      = some (s.reverse.takeWhile (fun c => decide (c ≠ sep))).reverse := by
  by_cases hmem : sep ∈ s
  · have hrev : sep ∈ s.reverse := List.mem_reverse.mpr hmem
    obtain ⟨a, b, hab, ha⟩ := List.eq_append_cons_of_mem hrev
    have hs : s = b.reverse ++ sep :: a.reverse := by
      have := congrArg List.reverse hab
      simpa using this
    have hna : sep ∉ a.reverse := fun h => ha (List.mem_reverse.mp h)
    rw [hab, takeWhile_until_sep sep a b ha, hs]
    exact splitOn_last sep _ _ hna
  · rw [splitOn_no_sep sep s hmem]
    have hrev : sep ∉ s.reverse := fun h => hmem (List.mem_reverse.mp h)
    rw [takeWhile_no_sep sep _ hrev]
    simp

/-- The type piece of a dispatch name is the snake case of the last dot-separated piece
of the type string. -/
theorem ctrlStructSnakeName_eq (ctype : RType) :
    ctrlStructSnakeName ctype = some (SnakeString (lastDotPiece ctype.toStr)) := by
  unfold ctrlStructSnakeName
  simp only
  rw [splitOn_last_piece]
  rfl

/-- For the type string `*q.n` with a dot-free `n` the last dot-separated piece is `n`. -/
theorem lastDotPiece_bare (s q n : String) (hs : s = "*" ++ q ++ "." ++ n)
    (hn : '.' ∉ n.data) : lastDotPiece s = n := by
  have hdata : s.data.reverse = n.data.reverse ++ '.' :: ('*' :: q.data).reverse := by
    rw [hs]; simp [String.data_append]
  have hnr : '.' ∉ n.data.reverse := fun h => hn (List.mem_reverse.mp h)
  unfold lastDotPiece
  rw [hdata, takeWhile_until_sep '.' _ _ hnr]
  simp

/-! ## Dispatch names -/

/-- With a non-empty first element `path.Join` cleans the slash-joined elements. -/
theorem Join_three (p a b : String) (hp : p ≠ "") :
    Join [p, a, b] = Clean (p ++ "/" ++ a ++ "/" ++ b) := by
  simp [Join, hp, Clean, joinSlash, String.data_append]

/-- Every handler that a maker returns is bound to a method of the service and named from
the prefix, the type piece and the method name. -/
theorem maker_names (ctxMethods : List String) (pathPrefix : String) (c : CtrlType)
    (pc : Option PluginContainer) (hs : List Handler)
    (hmk : pullHandlersMaker ctxMethods pathPrefix (some c) pc = .handlers hs ∨
      pushHandlersMaker ctxMethods pathPrefix (some c) pc = .handlers hs) :
    ∀ h ∈ hs, ∃ m ∈ c.methods, ∃ tName, ctrlStructSnakeName c.rtype = some tName ∧
      h.method = .func c.rtype.toStr m.Name ∧
      h.name = Join [pathPrefix, tName, SnakeString m.Name] := by
  intro h hmem
  rcases hmk with hpull | hpush
  · obtain ⟨elem, f, _, _, _, _, _, hloop⟩ := pullHandlersMaker_handlers _ _ _ _ _ hpull
    rcases pullMethods_mem _ _ _ _ _ _ _ _ hloop h hmem with hnil | ⟨m, hm, t, a, rt, ht, _, hh⟩
    · simp at hnil
    · subst hh
      exact ⟨m, hm, t, ht, rfl, rfl⟩
  · obtain ⟨elem, f, _, _, _, _, _, hloop⟩ := pushHandlersMaker_handlers _ _ _ _ _ hpush
    rcases pushMethods_mem _ _ _ _ _ _ _ _ hloop h hmem with hnil | ⟨m, hm, t, a, ht, _, hh⟩
    · simp at hnil
    · subst hh
      exact ⟨m, hm, t, ht, rfl, rfl⟩

/-- C4, amended: for every path prefix and every service value accepted by
`pullHandlersMaker` or `pushHandlersMaker`, each returned handler is bound to a method of
the service and its `Name()` is `Join(pathPrefix, SnakeString(piece), SnakeString(method
name))`, where `piece` is the last dot-separated piece of the service type's string and
`Join` cleans the slash-joined string; when the service type is a pointer to a struct
type whose string is `*q.` followed by the dot-free name of the struct type, the piece is
that bare struct type name. -/
theorem maker_dispatch_name (ctxMethods : List String) (pathPrefix : String) (c : CtrlType)
    (pc : Option PluginContainer) (hs : List Handler)
    (hmk : pullHandlersMaker ctxMethods pathPrefix (some c) pc = .handlers hs ∨
      pushHandlersMaker ctxMethods pathPrefix (some c) pc = .handlers hs) :
    ∀ h ∈ hs, ∃ m ∈ c.methods, h.method = .func c.rtype.toStr m.Name ∧
      h.Name = Join [pathPrefix, SnakeString (lastDotPiece c.rtype.toStr),
        SnakeString m.Name] ∧
      (pathPrefix ≠ "" →
        h.Name = Clean (pathPrefix ++ "/" ++ SnakeString (lastDotPiece c.rtype.toStr)
          ++ "/" ++ SnakeString m.Name)) ∧
      (∀ elem q, c.rtype.Elem = some elem →
        c.rtype.toStr = "*" ++ q ++ "." ++ elem.Name → '.' ∉ elem.Name.data →
        h.Name = Join [pathPrefix, SnakeString elem.Name, SnakeString m.Name]) := by
  intro h hmem
  obtain ⟨m, hm, t, ht, hmeth, hname⟩ := maker_names ctxMethods pathPrefix c pc hs hmk h hmem
  rw [ctrlStructSnakeName_eq c.rtype] at ht
  injection ht with ht
  subst ht
  refine ⟨m, hm, hmeth, hname, fun hp => ?_, ?_⟩
  · rw [← Join_three _ _ _ hp]
    exact hname
  · intro elem q _ hstr hdot
    rw [← lastDotPiece_bare c.rtype.toStr q elem.Name hstr hdot]
    exact hname

/-- C4, at the pull service `*main.Home` under the prefix `/group`: the piece is the bare
struct type name `Home`. -/
theorem maker_dispatch_name_witness :
    ∃ m ∈ homeService.methods,
      (makeHandler "/group" "home" homeType "Test" (.newStruct homeStructType "PullCtx")
        mapType (some emptyInterfaceType) newPluginContainer).method
          = .func homeService.rtype.toStr m.Name ∧
      (makeHandler "/group" "home" homeType "Test" (.newStruct homeStructType "PullCtx")
        mapType (some emptyInterfaceType) newPluginContainer).Name
          = Join ["/group", SnakeString homeStructType.Name, SnakeString m.Name] :=
  match maker_dispatch_name sampleCtxMethods "/group" homeService none _ (Or.inl rfl) _
      (List.mem_cons_self _ _) with
  | ⟨m, hm, hmeth, _, _, hbare⟩ =>
    ⟨m, hm, hmeth, hbare homeStructType "main" rfl rfl (by decide)⟩

/-- C4 as stated fails: the pointer to the unnamed struct
`struct { teleport.PullCtx; main.Inner }` is accepted by `pullHandlersMaker`, its struct
type has no name, and the handler of the promoted method `Test` is named from the last
dot-separated piece `Inner }` of the type string, not from the bare struct type name. -/
theorem maker_dispatch_name_counterexample :
    innerService.rtype.Elem.map RType.Name = some "" ∧
    ∃ hs, pullHandlersMaker sampleCtxMethods "/" (some innerService) none = .handlers hs ∧
      hs.map Handler.Name = ["/inner \x7d/test"] ∧
      hs.map Handler.Name ≠ [Join ["/", SnakeString "", SnakeString "Test"]] := by
  refine ⟨rfl, _, rfl, by decide, by decide⟩

/-! ## Cleaning paths made of plain segments -/

theorem toLower_ne (c d : Char) (hd : d.toNat < 97) (h : c ≠ d) : c.toLower ≠ d := by
  unfold Char.toLower
  simp only
  split
  · rename_i hup
    intro heq
    have h2 := congrArg Char.toNat heq
    have hv : (c.toNat + 32).isValidChar := by
      left; omega
    rw [Char.ofNat, dif_pos hv] at h2
    change c.toNat + 32 = d.toNat at h2
    omega
  · exact h

theorem snakeLoop_mem (i : Nat) (j : Bool) (s : List Char) :
    ∀ x ∈ snakeLoop i j s, x = '_' ∨ x ∈ s := by
  induction s generalizing i j with
  | nil => simp [snakeLoop]
  | cons d rest ih =>
    intro x hx
    simp only [snakeLoop] at hx
    rcases List.mem_append.mp hx with hmark | htail
    · split at hmark <;> simp at hmark
      exact Or.inl hmark
    · rcases List.mem_cons.mp htail with hd | hr
      · exact Or.inr (by simp [hd])
      · rcases ih _ _ x hr with h1 | h2
        · exact Or.inl h1
        · exact Or.inr (List.mem_cons_of_mem _ h2)

theorem snakeLoop_ne_nil (i : Nat) (j : Bool) (s : List Char) (hs : s ≠ []) :
    snakeLoop i j s ≠ [] := by
  cases s with
  | nil => exact absurd rfl hs
  | cons d rest => simp [snakeLoop]

/-- The snake case of a plain segment is a plain segment. -/
theorem SnakeString_plain (s : String) (hs : plainSegment s) : plainSegment (SnakeString s) := by
  obtain ⟨hne, hslash, hdot⟩ := hs
  refine ⟨?_, ?_, ?_⟩
  · simp [SnakeString, snakeLoop_ne_nil 0 false s.data hne]
  · intro hmem
    simp only [SnakeString, List.mem_map] at hmem
    obtain ⟨y, hy, hlow⟩ := hmem
    have hy2 : y ≠ '/' := by
      rcases snakeLoop_mem _ _ _ y hy with h1 | h2
      · rw [h1]; decide
      · intro hc; exact hslash (hc ▸ h2)
    exact toLower_ne y '/' (by decide) hy2 hlow
  · intro hmem
    simp only [SnakeString, List.mem_map] at hmem
    obtain ⟨y, hy, hlow⟩ := hmem
    have hy2 : y ≠ '.' := by
      rcases snakeLoop_mem _ _ _ y hy with h1 | h2
      · rw [h1]; decide
      · intro hc; exact hdot (hc ▸ h2)
    exact toLower_ne y '.' (by decide) hy2 hlow

/-- The copy loop of `path.Clean` writes a slash-free run as it is. -/
theorem cleanLoop_copy (rooted : Bool) (s rest out : List Char) (dd : Nat) (hs : '/' ∉ s) :
    cleanLoop rooted (s ++ rest) true out dd = cleanLoop rooted rest true (out ++ s) dd := by
  induction s generalizing out with
  | nil => simp
  | cons c cs ih =>
    have hc : c ≠ '/' := fun h => hs (by simp [h])
    have hcs : '/' ∉ cs := fun h => hs (List.mem_cons_of_mem _ h)
    simp [cleanLoop, hc, ih _ hcs]

/-- On a rooted path a plain segment is written after a slash, unless the buffer is just
the root. -/
theorem cleanLoop_segment (s rest out : List Char) (dd : Nat)
    (hne : s ≠ []) (hslash : '/' ∉ s) (hdot : '.' ∉ s) :
    cleanLoop true (s ++ rest) false out dd
      = cleanLoop true rest true ((if out.length ≠ 1 then out ++ ['/'] else out) ++ s) dd := by
  cases s with
  | nil => exact absurd rfl hne
  | cons c cs =>
    have hc : c ≠ '/' := fun h => hslash (by simp [h])
    have hc2 : c ≠ '.' := fun h => hdot (by simp [h])
    have hcs : '/' ∉ cs := fun h => hslash (List.mem_cons_of_mem _ h)
    simp only [List.cons_append]
    conv_lhs => unfold cleanLoop
    simp only [hc, hc2, if_false]
    rw [cleanLoop_copy _ _ _ _ _ hcs]
    simp

/-- Two plain segments joined by a slash are written as they are after the buffer. -/
theorem cleanLoop_two_segments (T M out : List Char) (dd : Nat)
    (hT : T ≠ [] ∧ '/' ∉ T ∧ '.' ∉ T) (hM : M ≠ [] ∧ '/' ∉ M ∧ '.' ∉ M) :
    cleanLoop true (T ++ '/' :: M) false out dd
      = (if out.length ≠ 1 then out ++ ['/'] else out) ++ T ++ '/' :: M := by
  rw [cleanLoop_segment T _ out dd hT.1 hT.2.1 hT.2.2]
  simp only [cleanLoop, if_true]
  have hM2 := cleanLoop_segment M [] ((if out.length ≠ 1 then out ++ ['/'] else out) ++ T) dd
    hM.1 hM.2.1 hM.2.2
  simp only [List.append_nil] at hM2
  rw [hM2]
  have hlen : ((if out.length ≠ 1 then out ++ ['/'] else out) ++ T).length ≠ 1 := by
    have : 0 < T.length := List.length_pos.mpr hT.1
    split <;> simp <;> omega
  rw [if_pos hlen]
  simp [cleanLoop]

/-- A slash outside an element is skipped. -/
theorem cleanLoop_slash (rooted : Bool) (rest out : List Char) (dd : Nat) :
    cleanLoop rooted ('/' :: rest) false out dd = cleanLoop rooted rest false out dd := by
  conv_lhs => unfold cleanLoop
  simp

/-- A slash ends the element that is being copied. -/
theorem cleanLoop_end (rooted : Bool) (rest out : List Char) (dd : Nat) :
    cleanLoop rooted ('/' :: rest) true out dd = cleanLoop rooted rest false out dd := by
  simp [cleanLoop]

/-- At the root prefix the dispatch name is `/type/method`. -/
theorem Join_root (T M : String) (hT : plainSegment T) (hM : plainSegment M) :
    Join ["/", T, M] = "/" ++ T ++ "/" ++ M := by
  have h := cleanLoop_two_segments T.data M.data ['/'] 1 hT hM
  apply String.ext
  simp [Join, joinSlash, cleanChars, cleanLoop_slash, String.data_append, h]

/-- Under the prefix `/a/b` the dispatch name is `/a/b/type/method`. -/
theorem Join_a_b (T M : String) (hT : plainSegment T) (hM : plainSegment M) :
    Join ["/a/b", T, M] = "/a/b/" ++ T ++ "/" ++ M := by
  have h := cleanLoop_two_segments T.data M.data ['/', 'a', '/', 'b'] 1 hT hM
  have ha := cleanLoop_segment ['a'] ('/' :: 'b' :: '/' :: (T.data ++ '/' :: M.data)) ['/'] 1
    (by simp) (by decide) (by decide)
  have hb := cleanLoop_segment ['b'] ('/' :: (T.data ++ '/' :: M.data)) ['/', 'a'] 1
    (by simp) (by decide) (by decide)
  simp only [List.cons_append, List.nil_append] at ha hb
  apply String.ext
  simp [Join, joinSlash, cleanChars, cleanLoop_end, ha, hb, String.data_append, h]

/-! ## Names under group prefixes -/

/-- The root router of a lineage has the prefix `/`. -/
theorem newRouter_router (σ : Heap) (pc : PluginContainer) (fn : HandlersMaker) (typ : String) :
    (newRouter σ pc fn typ).1.routers (newRouter σ pc fn typ).2 =
      { handlers := σ.nextMap, unknownApiType := σ.nextCell, pathPrefix := "/",
        pluginContainer := pc, typ := typ, fn := fn } := by
  simp [newRouter]

/-- The router returned by `Group`. -/
theorem Group_router (σ σ2 : Heap) (r g : Nat) (p : String) (ps : List Plugin)
    (hok : Group σ r p ps = .ok σ2 g) :
    (σ2.routers g).pathPrefix = Join [(σ.routers r).pathPrefix, p] ∧
    (σ2.routers g).fn = (σ.routers r).fn ∧
    (σ2.routers g).handlers = (σ.routers r).handlers ∧
    (σ2.routers g).unknownApiType = (σ.routers r).unknownApiType ∧
    (σ2.routers g).typ = "" := by
  obtain ⟨hg, _, _, pc, _, hrouters⟩ := Group_ok σ σ2 r g p ps hok
  subst hg
  simp [hrouters]

/-- C5, amended: in a lineage whose root comes from `newPullRouter` or `newPushRouter`
the names are rooted.  The router `Group("a").Group("b")` has the prefix `/a/b`, and for a
service type `*q.n` whose bare name and method names are plain segments its candidates
are named `/a/b/` + snake(n) + `/` + snake(method); the candidates of the root itself are
named `/` + snake(n) + `/` + snake(method); and `Home.Test` registered on
`Group("/group")` of a pull root is stored under exactly `/group/home/test`. -/
theorem group_names_rooted (ctxMethods : List String) (σ : Heap) (pc0 : PluginContainer)
    (s : Heap × Nat)
    (hroot : s = newPullRouter ctxMethods σ pc0 ∨ s = newPushRouter ctxMethods σ pc0)
    (c : CtrlType) (q n : String) (htype : c.rtype.toStr = "*" ++ q ++ "." ++ n)
    (hn : plainSegment n) (hms : ∀ m ∈ c.methods, plainSegment m.Name) :
    (∀ σ2 g1 σ3 g2 ps1 ps2, Group s.1 s.2 "a" ps1 = .ok σ2 g1 →
      Group σ2 g1 "b" ps2 = .ok σ3 g2 →
      (σ3.routers g2).pathPrefix = "/a/b" ∧
      ∀ pc hs, (σ3.routers g2).fn (σ3.routers g2).pathPrefix (some c) pc = .handlers hs →
        ∀ h ∈ hs, ∃ m ∈ c.methods,
          h.Name = "/a/b/" ++ SnakeString n ++ "/" ++ SnakeString m.Name) ∧
    ((s.1.routers s.2).pathPrefix = "/" ∧
      ∀ pc hs, (s.1.routers s.2).fn (s.1.routers s.2).pathPrefix (some c) pc = .handlers hs →
        ∀ h ∈ hs, ∃ m ∈ c.methods,
          h.Name = "/" ++ SnakeString n ++ "/" ++ SnakeString m.Name) ∧
    List.map Prod.fst
      ((Reg pullGroupSlash.1 pullGroupSlash.2 (some homeService) []).heap.table pullGroupSlash.2)
      = ["/group/home/test"] := by
  have hfn : (s.1.routers s.2).pathPrefix = "/" ∧
      ((s.1.routers s.2).fn = pullHandlersMaker ctxMethods ∨
        (s.1.routers s.2).fn = pushHandlersMaker ctxMethods) := by
    rcases hroot with h | h <;> subst h
    · simp [newPullRouter, newRouter_router]
    · simp [newPushRouter, newRouter_router]
  have hbare := ctrlStructSnakeName_bare c.rtype q n htype hn.2.2
  have hnames : ∀ (fn : HandlersMaker),
      (fn = pullHandlersMaker ctxMethods ∨ fn = pushHandlersMaker ctxMethods) →
      ∀ pre pc hs, fn pre (some c) pc = .handlers hs →
      ∀ h ∈ hs, ∃ m ∈ c.methods, h.Name = Join [pre, SnakeString n, SnakeString m.Name] := by
    intro fn hfn2 pre pc hs hmk h hmem
    have hmk2 : pullHandlersMaker ctxMethods pre (some c) pc = .handlers hs ∨
        pushHandlersMaker ctxMethods pre (some c) pc = .handlers hs := by
      rcases hfn2 with h1 | h1 <;> subst h1
      · exact Or.inl hmk
      · exact Or.inr hmk
    obtain ⟨m, hm, t, ht, _, hname⟩ := maker_names ctxMethods pre c pc hs hmk2 h hmem
    rw [hbare] at ht
    injection ht with ht
    subst ht
    exact ⟨m, hm, hname⟩
  refine ⟨?_, ⟨hfn.1, ?_⟩, by decide⟩
  · intro σ2 g1 σ3 g2 ps1 ps2 hg1 hg2
    obtain ⟨hp1, hf1, _⟩ := Group_router _ _ _ _ _ _ hg1
    obtain ⟨hp2, hf2, _⟩ := Group_router _ _ _ _ _ _ hg2
    have hpre : (σ3.routers g2).pathPrefix = "/a/b" := by
      rw [hp2, hp1, hfn.1]; decide
    refine ⟨hpre, ?_⟩
    intro pc hs hmk h hmem
    rw [hpre] at hmk
    obtain ⟨m, hm, hname⟩ :=
      hnames _ (by rw [hf2, hf1]; exact hfn.2) "/a/b" pc hs hmk h hmem
    refine ⟨m, hm, ?_⟩
    rw [hname]
    exact Join_a_b _ _ (SnakeString_plain _ hn) (SnakeString_plain _ (hms m hm))
  · intro pc hs hmk h hmem
    rw [hfn.1] at hmk
    obtain ⟨m, hm, hname⟩ := hnames _ hfn.2 "/" pc hs hmk h hmem
    refine ⟨m, hm, ?_⟩
    rw [hname]
    exact Join_root _ _ (SnakeString_plain _ hn) (SnakeString_plain _ (hms m hm))

/-- C5, at the fresh pull router and the service `Home`. -/
theorem group_names_rooted_witness :
    (pullGroupAB.1.routers pullGroupAB.2).pathPrefix = "/a/b" :=
  ((group_names_rooted sampleCtxMethods Heap.init newPluginContainer pullRoot (Or.inl rfl)
    homeService "main" "Home" rfl (by decide) (by decide)).1
    pullGroupA.1 pullGroupA.2 pullGroupAB.1 pullGroupAB.2 [] [] rfl rfl).1

/-- C5 as stated fails: `Home.Test` registered on `Group("/group")` of the fresh pull
router is stored under `/group/home/test`; the name `group/home/test` does not resolve. -/
theorem group_names_rooted_counterexample :
    List.map Prod.fst
      ((Reg pullGroupSlash.1 pullGroupSlash.2 (some homeService) []).heap.table pullGroupSlash.2)
      ≠ ["group/home/test"] ∧
    get (Reg pullGroupSlash.1 pullGroupSlash.2 (some homeService) []).heap pullGroupSlash.2
      "group/home/test" = (none, false) := by
  constructor
  · decide
  · rfl

/-! ## Counting the handlers of a valid service -/

theorem Table.mem_set (t : Table) (k : String) (h : Handler) (k2 : String) (h2 : Handler)
    (hmem : (k2, h2) ∈ Table.set t k h) : (k2, h2) ∈ t ∨ (k2 = k ∧ h2 = h) := by
  induction t with
  | nil =>
    simp [Table.set] at hmem
    exact Or.inr hmem
  | cons p rest ih =>
    obtain ⟨k0, h0⟩ := p
    by_cases hk : k0 = k
    · simp only [Table.set, hk, if_true] at hmem
      rcases List.mem_cons.mp hmem with heq | hin
      · injection heq with h1 h2e
        exact Or.inr ⟨h1, h2e⟩
      · exact Or.inl (List.mem_cons_of_mem _ hin)
    · simp only [Table.set, hk, if_false] at hmem
      rcases List.mem_cons.mp hmem with heq | hin
      · exact Or.inl (by rw [heq]; exact List.mem_cons_self _ _)
      · rcases ih hin with h1 | h1
        · exact Or.inl (List.mem_cons_of_mem _ h1)
        · exact Or.inr h1

/-- Every entry of the table after the loop was there before or is one of the candidates. -/
theorem regLoop_mem (r : Nat) (pc : PluginContainer) (hs : List Handler) (σ : Heap)
    (k : String) (h : Handler) (hmem : (k, h) ∈ (regLoop r pc hs σ).heap.table r) :
    (k, h) ∈ σ.table r ∨ h ∈ hs := by
  induction hs generalizing σ with
  | nil => exact Or.inl (by simpa [regLoop, Outcome.heap] using hmem)
  | cons h1 rest ih =>
    unfold regLoop at hmem
    split at hmem
    · exact Or.inl (by simpa [Fatalf, Outcome.heap] using hmem)
    · split at hmem
      · exact Or.inl (by simpa [Fatalf, Outcome.heap] using hmem)
      · rcases ih _ hmem with hin | hin
        · simp only [emit_table, setHandler_table] at hin
          rcases Table.mem_set _ _ _ _ _ hin with h2 | ⟨_, h2⟩
          · exact Or.inl h2
          · exact Or.inr (by rw [h2]; exact List.mem_cons_self _ _)
        · exact Or.inr (List.mem_cons_of_mem _ hin)

/-- With free, pairwise distinct names and accepting hooks the loop returns normally and
the table grows by one entry per candidate. -/
theorem regLoop_ok (r : Nat) (pc : PluginContainer) (hs : List Handler) (σ : Heap)
    (hfree : ∀ h ∈ hs, Table.get (σ.table r) h.name = none)
    (hnodup : (hs.map Handler.name).Nodup)
    (hhook : ∀ h ∈ hs, pc.PostReg h = none) :
    ∃ σ2, regLoop r pc hs σ = .ok σ2 () ∧
      (σ2.table r).length = (σ.table r).length + hs.length := by
  induction hs generalizing σ with
  | nil => exact ⟨σ, rfl, rfl⟩
  | cons h rest ih =>
    have hh := hfree h (List.mem_cons_self _ _)
    have hp := hhook h (List.mem_cons_self _ _)
    rw [List.map_cons, List.nodup_cons] at hnodup
    unfold regLoop
    simp only [hh, hp, Option.isSome_none]
    have hfree2 : ∀ h2 ∈ rest, Table.get
        ((((σ.emit (.PostReg h.name)).setHandler r h).emit
          (.Printf ("register " ++ (σ.routers r).typ ++ " handler: " ++ h.name))).table r)
        h2.name = none := by
      intro h2 hm2
      have hne : h2.name ≠ h.name := by
        intro heq
        exact hnodup.1 (heq ▸ List.mem_map_of_mem Handler.name hm2)
      simp only [emit_table, setHandler_table]
      rw [Table.get_set_ne _ _ _ _ hne]
      exact hfree h2 (List.mem_cons_of_mem _ hm2)
    obtain ⟨σ2, hok, hlen⟩ := ih _ hfree2 hnodup.2
      (fun h2 hm2 => hhook h2 (List.mem_cons_of_mem _ hm2))
    refine ⟨σ2, by simpa using hok, ?_⟩
    rw [hlen]
    simp only [emit_table, setHandler_table, List.length_cons]
    rw [Table.length_set_absent _ _ _ hh]
    omega

/-- For a list of methods whose eligible members satisfy the pull rules the loop returns
the accumulated handlers followed by one handler per eligible method, in order. -/
theorem pullMethods_valid (ctxMethods : List String) (pathPrefix : String) (ctype : RType)
    (osm : OriginStructMaker) (pc : PluginContainer) (tName : String)
    (htn : ctrlStructSnakeName ctype = some tName) (ms : List Method) (acc : List Handler)
    (hok : ∀ m ∈ ms, eligiblePull ctxMethods m = true → pullMethodOk m = true) :
    ∃ hs, pullMethods ctxMethods pathPrefix ctype osm pc ms acc = .handlers (acc ++ hs) ∧
      List.Forall₂ (fun m h => ∃ argElem replyType,
          h = makeHandler pathPrefix tName ctype m.Name osm argElem (some replyType) pc)
        (ms.filter (eligiblePull ctxMethods)) hs := by
  induction ms generalizing acc with
  | nil => exact ⟨[], by simp [pullMethods], by simp⟩
  | cons m rest ih =>
    have hrest : ∀ m2 ∈ rest, eligiblePull ctxMethods m2 = true → pullMethodOk m2 = true :=
      fun m2 hm2 => hok m2 (List.mem_cons_of_mem _ hm2)
    by_cases hel : eligiblePull ctxMethods m = true
    · have hmok := hok m (List.mem_cons_self _ _) hel
      have hskip : ¬ (m.PkgPath ≠ "" ∨ isPullCtxMethod ctxMethods m.Name = true) := by
        simp [eligiblePull] at hel
        simp [hel]
      unfold pullMethodOk at hmok
      split at hmok
      · rename_i recv arg reply ret hins houts
        simp only [Bool.and_eq_true, decide_eq_true_eq] at hmok
        obtain ⟨⟨⟨⟨h1, h2⟩, h3⟩, h4⟩, h5⟩ := hmok
        obtain ⟨argElem, hElem⟩ := Option.isSome_iff_exists.mp h3
        obtain ⟨hs, hloop, hall⟩ := ih
          (acc ++ [makeHandler pathPrefix tName ctype m.Name osm argElem (some reply) pc]) hrest
        refine ⟨makeHandler pathPrefix tName ctype m.Name osm argElem (some reply) pc :: hs,
          ?_, ?_⟩
        · unfold pullMethods
          simp only [hskip, if_false, hins, houts, h1, h2, h4, h5, hElem, htn,
            not_true_eq_false]
          rw [hloop]
          simp
        · rw [List.filter_cons_of_pos hel]
          exact List.Forall₂.cons ⟨argElem, reply, rfl⟩ hall
      · simp at hmok
    · have hskip : m.PkgPath ≠ "" ∨ isPullCtxMethod ctxMethods m.Name = true := by
        simp [eligiblePull] at hel
        by_cases hp : m.PkgPath = ""
        · exact Or.inr (hel hp)
        · exact Or.inl hp
      obtain ⟨hs, hloop, hall⟩ := ih acc hrest
      refine ⟨hs, ?_, ?_⟩
      · unfold pullMethods
        simp only [hskip, if_true]
        exact hloop
      · rw [List.filter_cons_of_neg hel]
        exact hall

/-- What a list of pull handlers built one per method looks like. -/
theorem pull_forall2 (pathPrefix : String) (ctype : RType) (osm : OriginStructMaker)
    (pc : PluginContainer) (tName : String) (ems : List Method) (hs : List Handler)
    (hall : List.Forall₂ (fun m h => ∃ argElem replyType,
      h = makeHandler pathPrefix tName ctype m.Name osm argElem (some replyType) pc) ems hs) :
    hs.map Handler.name = ems.map (fun m => Join [pathPrefix, tName, SnakeString m.Name]) ∧
    ∀ h ∈ hs, ∃ m ∈ ems, h.method = .func ctype.toStr m.Name ∧ h.reply.isSome = true := by
  induction hall with
  | nil => simp
  | @cons m h1 ms1 hs1 hhead _ ih =>
    obtain ⟨a, rt, hh⟩ := hhead
    refine ⟨?_, ?_⟩
    · simp only [List.map_cons, ih.1]
      rw [hh]; rfl
    · intro h hmem
      rcases List.mem_cons.mp hmem with heq | hin
      · exact ⟨m, List.mem_cons_self _ _, by rw [heq, hh]; rfl, by rw [heq, hh]; rfl⟩
      · obtain ⟨m2, hm2, hx⟩ := ih.2 h hin
        exact ⟨m2, List.mem_cons_of_mem _ hm2, hx⟩

/-- The candidate list of `pullHandlersMaker` for a valid service: one handler per
eligible method, in order, named as `pullNames` says. -/
theorem pullHandlersMaker_valid (ctxMethods : List String) (pathPrefix : String)
    (c : CtrlType) (pc : Option PluginContainer)
    (hvalid : validPullService ctxMethods c = true) :
    ∃ hs, pullHandlersMaker ctxMethods pathPrefix (some c) pc = .handlers hs ∧
      hs.length = (c.methods.filter (eligiblePull ctxMethods)).length ∧
      hs.map Handler.name = pullNames ctxMethods pathPrefix c ∧
      ∀ h ∈ hs, ∃ m ∈ c.methods, eligiblePull ctxMethods m = true ∧
        h.method = .func c.rtype.toStr m.Name ∧ h.reply.isSome = true := by
  simp only [validPullService, Bool.and_eq_true, List.all_eq_true, Bool.or_eq_true,
    Bool.not_eq_true'] at hvalid
  obtain ⟨⟨⟨hptr, himpl⟩, hfield⟩, hms⟩ := hvalid
  obtain ⟨tName, htn⟩ := Option.isSome_iff_exists.mp (ctrlStructSnakeName_isSome c.rtype)
  have hms2 : ∀ m ∈ c.methods, eligiblePull ctxMethods m = true → pullMethodOk m = true := by
    intro m hm hel
    rcases hms m hm with h1 | h1
    · rw [hel] at h1; exact absurd h1 (by simp)
    · exact h1
  cases hrt : c.rtype with
  | other k hk nm pp st => rw [hrt] at hptr; simp [isStructPointer] at hptr
  | ptr nm pp st elem =>
    rw [hrt] at hptr htn
    simp only [isStructPointer, decide_eq_true_eq] at hptr
    cases hf : FieldByName c.elemFields "PullCtx" with
    | none => rw [hf] at hfield; simp at hfield
    | some f =>
      rw [hf] at hfield
      simp only [Option.any_some] at hfield
      obtain ⟨hs, hloop, hall⟩ := pullMethods_valid ctxMethods pathPrefix
        (.ptr nm pp st elem) (.newStruct elem "PullCtx") (pc.getD newPluginContainer) tName htn
        c.methods [] hms2
      obtain ⟨hnm, hbd⟩ := pull_forall2 pathPrefix (.ptr nm pp st elem)
        (.newStruct elem "PullCtx") (pc.getD newPluginContainer) tName _ _ hall
      refine ⟨hs, ?_, hall.length_eq.symm, ?_, ?_⟩
      · simp only [pullHandlersMaker, hrt, RType.Elem, hptr, himpl, hf, hfield, ne_eq,
          not_true_eq_false, if_false, if_true]
        simpa using hloop
      · simp only [pullNames, hrt, htn, Option.getD_some]
        exact hnm
      · intro h hmem
        obtain ⟨m, hm, hmeth, hrep⟩ := hbd h hmem
        obtain ⟨hm1, hel⟩ := List.mem_filter.mp hm
        exact ⟨m, hm1, hel, hmeth, hrep⟩

/-- C6, amended: for a valid pull service with `N` eligible methods, on a pull router
whose table contains none of the derived names, when the derived names are pairwise
distinct, plugin composition succeeds and the `PostReg` hook accepts each candidate of
this call, the maker returns `N` candidates, `Reg` returns normally, the table grows by exactly `N` entries, each
candidate is stored under its name, every entry is an old one or a candidate, and no
candidate is bound to a method of the context value. -/
theorem Reg_valid_pull_inserts (ctxMethods : List String) (σ : Heap) (r : Nat) (c : CtrlType)
    (plugin : List Plugin) (pc : PluginContainer)
    (hfn : (σ.routers r).fn = pullHandlersMaker ctxMethods)
    (hvalid : validPullService ctxMethods c = true)
    (hpc : (σ.routers r).pluginContainer.cloneAdd plugin = .ok pc)
    (hhook : ∀ hs,
      pullHandlersMaker ctxMethods (σ.routers r).pathPrefix (some c) (some pc) = .handlers hs →
      ∀ h ∈ hs, pc.PostReg h = none)
    (hfree : ∀ n ∈ pullNames ctxMethods (σ.routers r).pathPrefix c,
      Table.get (σ.table r) n = none)
    (hnodup : (pullNames ctxMethods (σ.routers r).pathPrefix c).Nodup) :
    ∃ σ2 hs,
      pullHandlersMaker ctxMethods (σ.routers r).pathPrefix (some c) (some pc) = .handlers hs ∧
      hs.length = (c.methods.filter (eligiblePull ctxMethods)).length ∧
      Reg σ r (some c) plugin = .ok σ2 () ∧
      (σ2.table r).length
        = (σ.table r).length + (c.methods.filter (eligiblePull ctxMethods)).length ∧
      (∀ h ∈ hs, Table.get (σ2.table r) h.name = some h) ∧
      (∀ k h, (k, h) ∈ σ2.table r → (k, h) ∈ σ.table r ∨ h ∈ hs) ∧
      (∀ h ∈ hs, ∀ name, isPullCtxMethod ctxMethods name = true →
        h.method ≠ .func c.rtype.toStr name) := by
  obtain ⟨hs, hmk, hlen, hnames, hbound⟩ :=
    pullHandlersMaker_valid ctxMethods (σ.routers r).pathPrefix c (some pc) hvalid
  have hfree2 : ∀ h ∈ hs, Table.get (σ.table r) h.name = none := by
    intro h hmem
    apply hfree
    rw [← hnames]
    exact List.mem_map_of_mem Handler.name hmem
  obtain ⟨σ2, hok, hgrow⟩ := regLoop_ok r pc hs σ hfree2 (by rw [hnames]; exact hnodup)
    (hhook hs hmk)
  have hreg : Reg σ r (some c) plugin = .ok σ2 () := by
    simp only [Reg, hpc, hfn, hmk]
    exact hok
  refine ⟨σ2, hs, hmk, hlen, hreg, by rw [hgrow, hlen], regLoop_ok_get r pc hs σ σ2 hok, ?_, ?_⟩
  · intro k h hmem
    have := regLoop_mem r pc hs σ k h (by rw [hok]; exact hmem)
    exact this
  · intro h hmem name hctx heq
    obtain ⟨m, _, hel, hmeth, _⟩ := hbound h hmem
    rw [hmeth] at heq
    injection heq with _ hname
    simp only [eligiblePull, Bool.and_eq_true, decide_eq_true_eq, Bool.not_eq_true'] at hel
    rw [hname, hctx] at hel
    exact absurd hel.2 (by simp)

/-- C6, at the fresh pull router and the service `Home`, registered with a plugin whose
hook rejects the name `/two/beta` and accepts the one candidate of this call: one
eligible method, one entry. -/
theorem Reg_valid_pull_inserts_witness :
    ∃ σ2 hs,
      pullHandlersMaker sampleCtxMethods (pullRoot.1.routers pullRoot.2).pathPrefix
        (some homeService) (some ⟨[rejectBeta]⟩) = .handlers hs ∧
      hs.length = (homeService.methods.filter (eligiblePull sampleCtxMethods)).length ∧
      Reg pullRoot.1 pullRoot.2 (some homeService) [rejectBeta] = .ok σ2 () ∧
      (σ2.table pullRoot.2).length = (pullRoot.1.table pullRoot.2).length
        + (homeService.methods.filter (eligiblePull sampleCtxMethods)).length ∧
      (∀ h ∈ hs, Table.get (σ2.table pullRoot.2) h.name = some h) ∧
      (∀ k h, (k, h) ∈ σ2.table pullRoot.2 → (k, h) ∈ pullRoot.1.table pullRoot.2 ∨ h ∈ hs) ∧
      (∀ h ∈ hs, ∀ name, isPullCtxMethod sampleCtxMethods name = true →
        h.method ≠ .func homeService.rtype.toStr name) :=
  Reg_valid_pull_inserts sampleCtxMethods pullRoot.1 pullRoot.2 homeService [rejectBeta]
    ⟨[rejectBeta]⟩ rfl (by decide) rfl
    (by
      intro hs hmk h hmem
      have e : MakerResult.handlers [makeHandler "/" "home" homeType "Test"
          (.newStruct homeStructType "PullCtx") mapType (some emptyInterfaceType)
          ⟨[rejectBeta]⟩] = .handlers hs := hmk
      injection e with e
      subst e
      rw [List.mem_singleton] at hmem
      subst hmem
      rfl)
    (fun _ _ => rfl) (by decide)

/-- C6 as stated fails: `Dup` is a valid pull service with two eligible methods, `AbC`
and `Ab_c`, the empty table of the fresh pull router contains none of the derived names,
and `Reg` ends in `Fatalf` with one entry in the table, because both methods derive the
name `/dup/ab_c`. -/
theorem Reg_valid_pull_inserts_counterexample :
    validPullService sampleCtxMethods dupService = true ∧
    (dupService.methods.filter (eligiblePull sampleCtxMethods)).length = 2 ∧
    pullRoot.1.table pullRoot.2 = [] ∧
    pullNames sampleCtxMethods "/" dupService = ["/dup/ab_c", "/dup/ab_c"] ∧
    (∃ σ2 msg, Reg pullRoot.1 pullRoot.2 (some dupService) [] = .fatal σ2 msg ∧
      List.map Prod.fst (σ2.table pullRoot.2) = ["/dup/ab_c"]) := by
  refine ⟨by decide, by decide, rfl, by decide, _, _, rfl, by decide⟩

/-! ## The fallback handler -/

/-- C7 at its failing input: on the fresh pull router `SetUnknown` with a function of the
pull fallback type returns normally, and the handler that `get` then returns for an
unregistered name has a nil `ReplyType()`, `IsPush()` true and `IsPull()` false. -/
theorem pull_fallback_is_push :
    ∃ σ2 f, SetUnknown pullRoot.1 pullRoot.2 pullFallback [] = .ok σ2 () ∧
      (pullRoot.1.routers pullRoot.2).typ = "pull" ∧
      get σ2 pullRoot.2 "/home/none" = (some f, true) ∧
      f.method = .value pullFallback ∧
      f.ReplyType.isNone = true ∧ f.IsPush = true ∧ f.IsPull = false :=
  ⟨_, _, rfl, rfl, rfl, rfl, rfl, rfl, rfl⟩

/-- C8 at its failing input: on `Group("a")` of the fresh pull router, whose `typ` is
empty, `SetUnknown` with a function of the push fallback type returns normally and
installs it as the fallback of that router under the empty name; on the root the same
call ends in `Fatalf`. -/
theorem group_SetUnknown_unchecked :
    (pullGroupA.1.routers pullGroupA.2).typ = "" ∧
    (∃ σ2 f, SetUnknown pullGroupA.1 pullGroupA.2 pushFallback [] = .ok σ2 () ∧
      get σ2 pullGroupA.2 "/home/none" = (some f, true) ∧
      f.method = .value pushFallback ∧ f.name = "") ∧
    (∃ σ3 msg, SetUnknown pullRoot.1 pullRoot.2 pushFallback [] = .fatal σ3 msg ∧
      get σ3 pullRoot.2 "/home/none" = (none, false)) :=
  ⟨rfl, ⟨_, _, rfl, rfl, rfl, rfl⟩, ⟨_, _, rfl, rfl⟩⟩

/-- C9 at its failing input: with `g = root.Group("a")`, a fallback installed on the root
after `g` was created serves the root but not `g`, and a fallback installed on `g` serves
`g` but not the root: `SetUnknown` points the receiver at a new cell and leaves the
shared cell nil. -/
theorem fallback_not_shared :
    (∃ σ2 f, SetUnknown pullGroupA.1 pullRoot.2 pullFallback [] = .ok σ2 () ∧
      get σ2 pullRoot.2 "/home/none" = (some f, true) ∧
      get σ2 pullGroupA.2 "/home/none" = (none, false)) ∧
    (∃ σ2 f, SetUnknown pullGroupA.1 pullGroupA.2 pullFallback [] = .ok σ2 () ∧
      get σ2 pullGroupA.2 "/home/none" = (some f, true) ∧
      get σ2 pullRoot.2 "/home/none" = (none, false)) :=
  ⟨⟨_, _, rfl, rfl, rfl⟩, ⟨_, _, rfl, rfl, rfl⟩⟩

/-! ## A failed registration -/

theorem Table.setAll_cons (t : Table) (h : Handler) (done : List Handler) :
    Table.setAll t (h :: done) = Table.setAll (Table.set t h.name h) done := rfl

/-- A loop that ends in `Fatalf` has inserted the candidates before the failing one, each
under a name that was free, and has not inserted the failing one. -/
theorem regLoop_fatal (r : Nat) (pc : PluginContainer) (hs : List Handler) (σ σ2 : Heap)
    (msg : String) (hfatal : regLoop r pc hs σ = .fatal σ2 msg) :
    ∃ done h rest, hs = done ++ h :: rest ∧
      σ2.table r = Table.setAll (σ.table r) done ∧
      (σ2.table r).length = (σ.table r).length + done.length ∧
      ((Table.get (σ2.table r) h.name).isSome = true ∨
        (pc.PostReg h = some msg ∧ Table.get (σ2.table r) h.name = none)) := by
  induction hs generalizing σ with
  | nil => simp [regLoop] at hfatal
  | cons h rest ih =>
    unfold regLoop at hfatal
    split at hfatal
    · rename_i htaken
      simp only [Fatalf] at hfatal
      injection hfatal with hσ _
      subst hσ
      exact ⟨[], h, rest, rfl, rfl, rfl, Or.inl (by simpa using htaken)⟩
    · rename_i hfree
      have hnone : Table.get (σ.table r) h.name = none := by
        simpa using hfree
      split at hfatal
      · rename_i err herr
        simp only [Fatalf] at hfatal
        injection hfatal with hσ hmsg
        subst hσ
        subst hmsg
        exact ⟨[], h, rest, rfl, rfl, rfl, Or.inr ⟨herr, by simpa using hnone⟩⟩
      · obtain ⟨done, h2, rest2, hsplit, htab, hlen, hwhy⟩ := ih _ hfatal
        refine ⟨h :: done, h2, rest2, by rw [hsplit]; rfl, ?_, ?_, hwhy⟩
        · rw [htab]
          simp only [emit_table, setHandler_table]
          rfl
        · rw [hlen]
          simp only [emit_table, setHandler_table, List.length_cons]
          rw [Table.length_set_absent _ _ _ hnone]
          omega

/-- C10, amended: when `Reg` ends in `Fatalf` at a candidate of the batch (its name is
taken, or its `PostReg` hook returns the error), the candidates before it are left
inserted: the table at that moment is the table before the call with exactly those
candidates written, one new entry each; the failing candidate itself is not written by
this call; and every entry that was there before is unchanged.  The table is as before
the call only when the first candidate fails. -/
theorem Reg_fatal_leaves_earlier (σ σ2 : Heap) (r : Nat) (ctrlStruct : CtrlStruct)
    (plugin : List Plugin) (pc : PluginContainer) (hs : List Handler) (msg : String)
    (hpc : (σ.routers r).pluginContainer.cloneAdd plugin = .ok pc)
    (hfn : (σ.routers r).fn (σ.routers r).pathPrefix ctrlStruct (some pc) = .handlers hs)
    (hfatal : Reg σ r ctrlStruct plugin = .fatal σ2 msg) :
    ∃ done h rest, hs = done ++ h :: rest ∧
      σ2.table r = Table.setAll (σ.table r) done ∧
      (σ2.table r).length = (σ.table r).length + done.length ∧
      ((Table.get (σ2.table r) h.name).isSome = true ∨
        (pc.PostReg h = some msg ∧ Table.get (σ2.table r) h.name = none)) ∧
      (∀ n h0, Table.get (σ.table r) n = some h0 → Table.get (σ2.table r) n = some h0) ∧
      (σ2.table r = σ.table r ↔ done = []) := by
  simp only [Reg, hpc, hfn] at hfatal
  obtain ⟨done, h, rest, hsplit, htab, hlen, hwhy⟩ := regLoop_fatal r pc hs σ σ2 msg hfatal
  refine ⟨done, h, rest, hsplit, htab, hlen, hwhy, ?_, ?_⟩
  · intro n h0 hin
    have hk := regLoop_keeps r pc hs σ n h0 hin
    rw [hfatal] at hk
    simpa [Outcome.heap] using hk
  · constructor
    · intro heq
      rw [heq] at hlen
      exact List.length_eq_zero.mp (by omega)
    · intro hnil
      rw [htab, hnil]
      rfl

/-- C10, at the pull router on which `other.Two` is registered: registering `main.Two`
fails at `Beta` after `Alpha` was written. -/
theorem Reg_fatal_leaves_earlier_witness :
    ∃ done h rest,
      [makeHandler "/" "two" mainTwoType "Alpha" (.newStruct
          (.other Teleport.Kind.Struct (by decide) "Two" "main" "main.Two") "PullCtx")
          mapType (some emptyInterfaceType) newPluginContainer,
        makeHandler "/" "two" mainTwoType "Beta" (.newStruct
          (.other Teleport.Kind.Struct (by decide) "Two" "main" "main.Two") "PullCtx")
          mapType (some emptyInterfaceType) newPluginContainer] = done ++ h :: rest ∧
      (Reg otherTwoRegistered pullRoot.2 (some mainTwoService) []).heap.table pullRoot.2
        = Table.setAll (otherTwoRegistered.table pullRoot.2) done ∧
      ((Reg otherTwoRegistered pullRoot.2 (some mainTwoService) []).heap.table pullRoot.2).length
        = (otherTwoRegistered.table pullRoot.2).length + done.length ∧
      ((Table.get ((Reg otherTwoRegistered pullRoot.2 (some mainTwoService) []).heap.table
          pullRoot.2) h.name).isSome = true ∨
        (newPluginContainer.PostReg h = some "There is a pull handler conflict: /two/beta" ∧
          Table.get ((Reg otherTwoRegistered pullRoot.2 (some mainTwoService) []).heap.table
            pullRoot.2) h.name = none)) ∧
      (∀ n h0, Table.get (otherTwoRegistered.table pullRoot.2) n = some h0 →
        Table.get ((Reg otherTwoRegistered pullRoot.2 (some mainTwoService) []).heap.table
          pullRoot.2) n = some h0) ∧
      ((Reg otherTwoRegistered pullRoot.2 (some mainTwoService) []).heap.table pullRoot.2
        = otherTwoRegistered.table pullRoot.2 ↔ done = []) :=
  Reg_fatal_leaves_earlier otherTwoRegistered _ pullRoot.2 (some mainTwoService) []
    newPluginContainer _ _ rfl rfl rfl

/-- C10 as stated fails: on the pull router that holds `/two/beta`, registering `main.Two`
ends in `Fatalf` at the colliding `Beta`, and the table at that moment also holds
`/two/alpha`, written earlier in the same call. -/
theorem Reg_fatal_leaves_earlier_counterexample :
    List.map Prod.fst (otherTwoRegistered.table pullRoot.2) = ["/two/beta"] ∧
    ∃ σ2 msg, Reg otherTwoRegistered pullRoot.2 (some mainTwoService) [] = .fatal σ2 msg ∧
      msg = "There is a pull handler conflict: /two/beta" ∧
      List.map Prod.fst (σ2.table pullRoot.2) = ["/two/beta", "/two/alpha"] ∧
      List.map Prod.fst (σ2.table pullRoot.2)
        ≠ List.map Prod.fst (otherTwoRegistered.table pullRoot.2) := by
  refine ⟨by decide, _, _, rfl, by decide, by decide, by decide⟩

/-! ## Rejected pull methods -/

/-- The pull method loop never panics: the type piece of the name is always defined. -/
theorem pullMethods_no_panic (ctxMethods : List String) (pathPrefix : String) (ctype : RType)
    (osm : OriginStructMaker) (pc : PluginContainer) (ms : List Method) (acc : List Handler)
    (msg : String) : pullMethods ctxMethods pathPrefix ctype osm pc ms acc ≠ .panic msg := by
  obtain ⟨tName, htn⟩ := Option.isSome_iff_exists.mp (ctrlStructSnakeName_isSome ctype)
  induction ms generalizing acc with
  | nil => simp [pullMethods]
  | cons m rest ih =>
    unfold pullMethods
    simp only [htn]
    repeat' split
    all_goals first
      | exact ih _
      | (intro h; cases h)

/-- When the pull method loop returns a candidate list, every eligible method of the list
satisfies the pull signature rules. -/
theorem pullMethods_handlers_ok (ctxMethods : List String) (pathPrefix : String)
    (ctype : RType) (osm : OriginStructMaker) (pc : PluginContainer) (ms : List Method)
    (acc hs : List Handler)
    (hmk : pullMethods ctxMethods pathPrefix ctype osm pc ms acc = .handlers hs) :
    ∀ m ∈ ms, eligiblePull ctxMethods m = true → pullMethodOk m = true := by
  induction ms generalizing acc with
  | nil => simp
  | cons m rest ih =>
    intro m2 hm2 hel
    rcases pullMethods_cons _ _ _ _ _ _ _ _ _ hmk with ⟨hskip, hrest⟩ | ⟨hskip, hpass⟩
    · rcases List.mem_cons.mp hm2 with heq | hin
      · subst heq
        simp only [eligiblePull, Bool.and_eq_true, decide_eq_true_eq, Bool.not_eq_true'] at hel
        rcases hskip with h1 | h1
        · exact absurd hel.1 h1
        · rw [hel.2] at h1; exact absurd h1 (by simp)
      · exact ih _ hrest m2 hin hel
    · obtain ⟨s, a, e, rt, ret, t, hins, h1, h2, h3, houts, h4, h5, _, hrest⟩ := hpass
      rcases List.mem_cons.mp hm2 with heq | hin
      · subst heq
        simp [pullMethodOk, hins, houts, h1, h2, h3, h4, h5]
      · exact ih _ hrest m2 hin hel

/-- A method with a reply type that is not exported-or-builtin, or with a second result
whose name is not `Xerror`, does not satisfy the pull signature rules. -/
theorem pullMethodOk_false_of_bad (m : Method)
    (hbad : (∃ reply, m.outs.get? 0 = some reply ∧ IsExportedOrBuiltinType reply = false) ∨
      (∃ ret, m.outs.get? 1 = some ret ∧ TrimPrefix ret.Name "teleport." ≠ "Xerror")) :
    pullMethodOk m = false := by
  unfold pullMethodOk
  split
  · rename_i recv arg reply ret hins houts
    rcases hbad with ⟨r, hr, hb⟩ | ⟨r, hr, hb⟩
    · rw [houts] at hr
      simp at hr
      subst hr
      simp [hb]
    · rw [houts] at hr
      simp at hr
      subst hr
      simp [hb]
  · rfl

/-- For a non-nil service value the pull maker returns a candidate list or an error. -/
theorem pullHandlersMaker_no_panic (ctxMethods : List String) (pathPrefix : String)
    (c : CtrlType) (pc : Option PluginContainer) (msg : String) :
    pullHandlersMaker ctxMethods pathPrefix (some c) pc ≠ .panic msg := by
  unfold pullHandlersMaker
  simp only
  repeat' split
  all_goals first
    | exact pullMethods_no_panic _ _ _ _ _ _ _ _
    | (intro h; cases h)

/-- What the checks on the results do reject: for every service value that has an exported
method, not a method of the context value, whose first return type is neither exported
nor builtin, or whose second return type has a name other than `Xerror`,
`pullHandlersMaker` returns an error, which carries no handlers: not a candidate list,
also not one of the methods before it. -/
theorem pull_bad_result_rejected (ctxMethods : List String) (pathPrefix : String)
    (c : CtrlType) (pc : Option PluginContainer) (m : Method)
    (hm : m ∈ c.methods) (hel : eligiblePull ctxMethods m = true)
    (hbad : (∃ reply, m.outs.get? 0 = some reply ∧ IsExportedOrBuiltinType reply = false) ∨
      (∃ ret, m.outs.get? 1 = some ret ∧ TrimPrefix ret.Name "teleport." ≠ "Xerror")) :
    (∃ msg, pullHandlersMaker ctxMethods pathPrefix (some c) pc = .error msg) ∧
    ∀ hs, pullHandlersMaker ctxMethods pathPrefix (some c) pc ≠ .handlers hs := by
  have hnot : ∀ hs, pullHandlersMaker ctxMethods pathPrefix (some c) pc ≠ .handlers hs := by
    intro hs hmk
    obtain ⟨elem, f, _, _, _, _, _, hloop⟩ := pullHandlersMaker_handlers _ _ _ _ _ hmk
    have hok := pullMethods_handlers_ok _ _ _ _ _ _ _ _ hloop m hm hel
    rw [pullMethodOk_false_of_bad m hbad] at hok
    exact absurd hok (by simp)
  refine ⟨?_, hnot⟩
  cases hres : pullHandlersMaker ctxMethods pathPrefix (some c) pc with
  | handlers hs => exact absurd hres (hnot hs)
  | error msg => exact ⟨msg, rfl⟩
  | panic msg => exact absurd hres (pullHandlersMaker_no_panic _ _ _ _ _)

/-- The service whose valid `Alpha` is followed by a `Beta` that returns the unexported
`main.secret`: the maker returns an error. -/
theorem badReplyService_rejected :
    (∃ msg, pullHandlersMaker sampleCtxMethods "/" (some badReplyService) none = .error msg) ∧
    ∀ hs, pullHandlersMaker sampleCtxMethods "/" (some badReplyService) none ≠ .handlers hs :=
  pull_bad_result_rejected sampleCtxMethods "/" badReplyService none
    ⟨"Beta", "", [mainTwoType, mapPtrType], [secretType, xerrorType]⟩
    (List.mem_cons_of_mem _ (List.mem_cons_self _ _)) rfl (Or.inl ⟨secretType, rfl, rfl⟩)

/-- C11 at its failing input: the method `Test` of `main.Fake` is exported and not a method
of the context value, its second return type `main.Xerror` is not the framework's
`teleport.Xerror`, and `pullHandlersMaker` returns a candidate list with its handler
instead of the error `second reply type main.Xerror not teleport.Xerror`: the check
compares `returnType.Name()`, which carries no package. -/
theorem pull_user_Xerror_accepted :
    eligiblePull sampleCtxMethods
      ⟨"Test", "", [fakeType, mapPtrType], [emptyInterfaceType, userXerrorType]⟩ = true ∧
    ¬ isFrameworkXerror userXerrorType ∧
    isFrameworkXerror xerrorType ∧
    ∃ hs, pullHandlersMaker sampleCtxMethods "/" (some fakeService) none = .handlers hs ∧
      hs.map Handler.Name = ["/fake/test"] := by
  refine ⟨by decide, by decide, by decide, _, rfl, by decide⟩

/-! ## The push maker on non-nil service values -/

/-- A type descriptor has an element exactly when its kind is `Ptr`. -/
theorem RType.Elem_isSome_iff (t : RType) : t.Elem.isSome = true ↔ t.Kind = Teleport.Kind.Ptr := by
  cases t with
  | ptr n p s e => simp [RType.Elem, RType.Kind]
  | other k hk n p s => simp [RType.Elem, RType.Kind, hk]

/-- A pointer to a struct, by its parts. -/
theorem isStructPointer_iff (t : RType) :
    isStructPointer t = true ↔ ∃ elem, t.Elem = some elem ∧ elem.Kind = Teleport.Kind.Struct := by
  cases t with
  | ptr n p s e => simp [isStructPointer, RType.Elem]
  | other k hk n p s => simp [isStructPointer, RType.Elem]

/-- The push method loop never panics: the type piece of the name is always defined. -/
theorem pushMethods_no_panic (ctxMethods : List String) (pathPrefix : String) (ctype : RType)
    (osm : OriginStructMaker) (pc : PluginContainer) (ms : List Method) (acc : List Handler)
    (msg : String) : pushMethods ctxMethods pathPrefix ctype osm pc ms acc ≠ .panic msg := by
  obtain ⟨tName, htn⟩ := Option.isSome_iff_exists.mp (ctrlStructSnakeName_isSome ctype)
  induction ms generalizing acc with
  | nil => simp [pushMethods]
  | cons m rest ih =>
    unfold pushMethods
    simp only [htn]
    repeat' split
    all_goals first
      | exact ih _
      | (intro h; cases h)

/-- For a non-nil service value the push maker returns a candidate list or an error. -/
theorem pushHandlersMaker_no_panic (ctxMethods : List String) (pathPrefix : String)
    (c : CtrlType) (pc : Option PluginContainer) (msg : String) :
    pushHandlersMaker ctxMethods pathPrefix (some c) pc ≠ .panic msg := by
  unfold pushHandlersMaker
  simp only
  repeat' split
  all_goals first
    | exact pushMethods_no_panic _ _ _ _ _ _ _ _
    | (intro h; cases h)

/-- When the push method loop returns a candidate list, every eligible method of the list
satisfies the push signature rules. -/
theorem pushMethods_handlers_ok (ctxMethods : List String) (pathPrefix : String)
    (ctype : RType) (osm : OriginStructMaker) (pc : PluginContainer) (ms : List Method)
    (acc hs : List Handler)
    (hmk : pushMethods ctxMethods pathPrefix ctype osm pc ms acc = .handlers hs) :
    ∀ m ∈ ms, eligiblePush ctxMethods m = true → pushMethodOk m = true := by
  induction ms generalizing acc with
  | nil => simp
  | cons m rest ih =>
    intro m2 hm2 hel
    rcases pushMethods_cons _ _ _ _ _ _ _ _ _ hmk with ⟨hskip, hrest⟩ | ⟨hskip, hpass⟩
    · rcases List.mem_cons.mp hm2 with heq | hin
      · subst heq
        simp only [eligiblePush, Bool.and_eq_true, decide_eq_true_eq, Bool.not_eq_true'] at hel
        rcases hskip with h1 | h1
        · exact absurd hel.1 h1
        · rw [hel.2] at h1; exact absurd h1 (by simp)
      · exact ih _ hrest m2 hin hel
    · obtain ⟨s, a, e, t, hins, h1, h2, h3, houts, _, hrest⟩ := hpass
      rcases List.mem_cons.mp hm2 with heq | hin
      · subst heq
        have hk : a.Kind = Teleport.Kind.Ptr :=
          (RType.Elem_isSome_iff a).mp (by rw [h3]; rfl)
        simp [pushMethodOk, hins, h2, hk, List.length_eq_zero.mp houts]
      · exact ih _ hrest m2 hin hel

/-- For a list of methods whose eligible members satisfy the push rules and have a struct
pointer as receiver the loop returns the accumulated handlers followed by one handler per
eligible method, in order. -/
theorem pushMethods_valid (ctxMethods : List String) (pathPrefix : String) (ctype : RType)
    (osm : OriginStructMaker) (pc : PluginContainer) (tName : String)
    (htn : ctrlStructSnakeName ctype = some tName) (ms : List Method) (acc : List Handler)
    (hok : ∀ m ∈ ms, eligiblePush ctxMethods m = true → pushMethodOk m = true)
    (hrecv : ∀ m ∈ ms, ∀ recv rest, m.ins = recv :: rest → isStructPointer recv = true) :
    ∃ hs, pushMethods ctxMethods pathPrefix ctype osm pc ms acc = .handlers (acc ++ hs) ∧
      List.Forall₂ (fun m h => ∃ argElem,
          h = makeHandler pathPrefix tName ctype m.Name osm argElem none pc)
        (ms.filter (eligiblePush ctxMethods)) hs := by
  induction ms generalizing acc with
  | nil => exact ⟨[], by simp [pushMethods], by simp⟩
  | cons m rest ih =>
    have hrest : ∀ m2 ∈ rest, eligiblePush ctxMethods m2 = true → pushMethodOk m2 = true :=
      fun m2 hm2 => hok m2 (List.mem_cons_of_mem _ hm2)
    have hrecv2 : ∀ m2 ∈ rest, ∀ recv rs, m2.ins = recv :: rs → isStructPointer recv = true :=
      fun m2 hm2 => hrecv m2 (List.mem_cons_of_mem _ hm2)
    by_cases hel : eligiblePush ctxMethods m = true
    · have hmok := hok m (List.mem_cons_self _ _) hel
      have hskip : ¬ (m.PkgPath ≠ "" ∨ isPushCtxMethod ctxMethods m.Name = true) := by
        simp [eligiblePush] at hel
        simp [hel]
      unfold pushMethodOk at hmok
      split at hmok
      · rename_i recv arg hins
        simp only [Bool.and_eq_true, decide_eq_true_eq, List.isEmpty_iff] at hmok
        obtain ⟨⟨h2, h3⟩, h4⟩ := hmok
        have h1 := hrecv m (List.mem_cons_self _ _) recv [arg] hins
        obtain ⟨argElem, hElem⟩ :=
          Option.isSome_iff_exists.mp ((RType.Elem_isSome_iff arg).mpr h3)
        obtain ⟨hs, hloop, hall⟩ := ih
          (acc ++ [makeHandler pathPrefix tName ctype m.Name osm argElem none pc]) hrest hrecv2
        refine ⟨makeHandler pathPrefix tName ctype m.Name osm argElem none pc :: hs, ?_, ?_⟩
        · unfold pushMethods
          simp only [hskip, if_false, hins, h1, h2, h4, hElem, htn, not_true_eq_false,
            List.length_nil, ne_eq]
          rw [hloop]
          simp
        · rw [List.filter_cons_of_pos hel]
          exact List.Forall₂.cons ⟨argElem, rfl⟩ hall
      · simp at hmok
    · have hskip : m.PkgPath ≠ "" ∨ isPushCtxMethod ctxMethods m.Name = true := by
        simp [eligiblePush] at hel
        by_cases hp : m.PkgPath = ""
        · exact Or.inr (hel hp)
        · exact Or.inl hp
      obtain ⟨hs, hloop, hall⟩ := ih acc hrest hrecv2
      refine ⟨hs, ?_, ?_⟩
      · unfold pushMethods
        simp only [hskip, if_true]
        exact hloop
      · rw [List.filter_cons_of_neg hel]
        exact hall

/-- For a non-nil service value whose reflected methods take the service type as receiver,
`pushHandlersMaker` returns a candidate list exactly when the service is a valid push
service; the list then has exactly one handler per eligible method, in order, bound to
that method and without reply type; and otherwise the result is an error. -/
theorem pushHandlersMaker_iff_valid (ctxMethods : List String) (pathPrefix : String)
    (c : CtrlType) (pc : Option PluginContainer)
    (hrecv : ∀ m ∈ c.methods, ∀ recv rest, m.ins = recv :: rest → recv = c.rtype) :
    ((∃ hs, pushHandlersMaker ctxMethods pathPrefix (some c) pc = .handlers hs) ↔
      validPushService ctxMethods c = true) ∧
    (∀ hs, pushHandlersMaker ctxMethods pathPrefix (some c) pc = .handlers hs →
      List.Forall₂ (fun m h => h.method = .func c.rtype.toStr m.Name ∧ h.reply = none)
        (c.methods.filter (eligiblePush ctxMethods)) hs) ∧
    (validPushService ctxMethods c = false →
      ∃ msg, pushHandlersMaker ctxMethods pathPrefix (some c) pc = .error msg) := by
  have hfwd : ∀ hs, pushHandlersMaker ctxMethods pathPrefix (some c) pc = .handlers hs →
      validPushService ctxMethods c = true := by
    intro hs hmk
    obtain ⟨elem, f, hElem, hkind, himpl, hf, hanon, hloop⟩ :=
      pushHandlersMaker_handlers _ _ _ _ _ hmk
    have hok := pushMethods_handlers_ok _ _ _ _ _ _ _ _ hloop
    have hptr : isStructPointer c.rtype = true :=
      (isStructPointer_iff _).mpr ⟨elem, hElem, hkind⟩
    simp only [validPushService, hptr, himpl, hf, Option.any_some, hanon, Bool.and_self,
      Bool.true_and, List.all_eq_true, Bool.or_eq_true, Bool.not_eq_true']
    intro m hm
    by_cases hel : eligiblePush ctxMethods m = true
    · exact Or.inr (hok m hm hel)
    · exact Or.inl (by simpa using hel)
  have hbwd : validPushService ctxMethods c = true →
      ∃ hs, pushHandlersMaker ctxMethods pathPrefix (some c) pc = .handlers hs ∧
        List.Forall₂ (fun m h => h.method = .func c.rtype.toStr m.Name ∧ h.reply = none)
          (c.methods.filter (eligiblePush ctxMethods)) hs := by
    intro hvalid
    simp only [validPushService, Bool.and_eq_true, List.all_eq_true, Bool.or_eq_true,
      Bool.not_eq_true'] at hvalid
    obtain ⟨⟨⟨hptr, himpl⟩, hfield⟩, hms⟩ := hvalid
    obtain ⟨tName, htn⟩ := Option.isSome_iff_exists.mp (ctrlStructSnakeName_isSome c.rtype)
    obtain ⟨elem, hElem, hkind⟩ := (isStructPointer_iff _).mp hptr
    have hms2 : ∀ m ∈ c.methods, eligiblePush ctxMethods m = true → pushMethodOk m = true := by
      intro m hm hel
      rcases hms m hm with h1 | h1
      · rw [hel] at h1; exact absurd h1 (by simp)
      · exact h1
    have hrecv2 : ∀ m ∈ c.methods, ∀ recv rest, m.ins = recv :: rest →
        isStructPointer recv = true := by
      intro m hm recv rest hins
      rw [hrecv m hm recv rest hins]
      exact hptr
    cases hf : FieldByName c.elemFields "PushCtx" with
    | none => rw [hf] at hfield; simp at hfield
    | some f =>
      rw [hf] at hfield
      simp only [Option.any_some] at hfield
      obtain ⟨hs, hloop, hall⟩ := pushMethods_valid ctxMethods pathPrefix c.rtype
        (.newStruct elem "PushCtx") (pc.getD newPluginContainer) tName htn c.methods []
        hms2 hrecv2
      refine ⟨hs, ?_, ?_⟩
      · simp only [pushHandlersMaker, hElem, hkind, himpl, hf, hfield, ne_eq,
          not_true_eq_false, if_false, if_true]
        simpa using hloop
      · refine List.Forall₂.imp ?_ hall
        intro m h hx
        obtain ⟨a, hh⟩ := hx
        rw [hh]
        exact ⟨rfl, rfl⟩
  refine ⟨⟨fun ⟨hs, hmk⟩ => hfwd hs hmk, fun hv => ?_⟩, ?_, ?_⟩
  · obtain ⟨hs, hmk, _⟩ := hbwd hv
    exact ⟨hs, hmk⟩
  · intro hs hmk
    obtain ⟨hs2, hmk2, hall⟩ := hbwd (hfwd hs hmk)
    rw [hmk] at hmk2
    injection hmk2 with heq
    rw [heq]
    exact hall
  · intro hinv
    cases hres : pushHandlersMaker ctxMethods pathPrefix (some c) pc with
    | handlers hs =>
      rw [hfwd hs hres] at hinv
      exact absurd hinv (by simp)
    | error msg => exact ⟨msg, rfl⟩
    | panic msg => exact absurd hres (pushHandlersMaker_no_panic _ _ _ _ _)

/-- The equivalence at the service `Push` of the client sample: a valid push service, and
the maker returns a candidate list. -/
theorem pushHandlersMaker_valid_sample :
    validPushService sampleCtxMethods pushService = true ∧
    ∃ hs, pushHandlersMaker sampleCtxMethods "/" (some pushService) none = .handlers hs ∧
      hs.map Handler.Name = ["/push/test"] :=
  ⟨by decide, _, rfl, by decide⟩

/-- C12 at its failing input: for the nil service value, which is not a pointer to a
struct, `pushHandlersMaker` calls `Kind()` on the nil type descriptor and panics; the
result is neither a candidate list nor an error. -/
theorem push_maker_nil_panics :
    (∃ msg, pushHandlersMaker sampleCtxMethods "/" none (some newPluginContainer) = .panic msg) ∧
    (∀ msg, pushHandlersMaker sampleCtxMethods "/" none (some newPluginContainer) ≠ .error msg) ∧
    (∀ hs, pushHandlersMaker sampleCtxMethods "/" none (some newPluginContainer)
      ≠ .handlers hs) := by
  refine ⟨⟨_, rfl⟩, ?_, ?_⟩
  · intro msg h; cases h
  · intro hs h; cases h

/-! ## The argument element type -/

/-- Every candidate of the pull loop was accumulated before or comes from an eligible
method whose single argument is an exported-or-builtin pointer with the handler's
argument element type as pointee. -/
theorem pullMethods_mem_arg (ctxMethods : List String) (pathPrefix : String) (ctype : RType)
    (osm : OriginStructMaker) (pc : PluginContainer) (ms : List Method)
    (acc hs : List Handler)
    (hmk : pullMethods ctxMethods pathPrefix ctype osm pc ms acc = .handlers hs) :
    ∀ h ∈ hs, h ∈ acc ∨ ∃ m ∈ ms, ∃ recv argType,
      eligiblePull ctxMethods m = true ∧ m.ins = [recv, argType] ∧
      h.method = .func ctype.toStr m.Name ∧
      IsExportedOrBuiltinType argType = true ∧ argType.Elem = some h.argElem := by
  induction ms generalizing acc with
  | nil =>
    intro h hmem
    simp [pullMethods] at hmk
    subst hmk
    exact Or.inl hmem
  | cons m rest ih =>
    intro h hmem
    rcases pullMethods_cons _ _ _ _ _ _ _ _ _ hmk with ⟨_, hrest⟩ | ⟨hskip, hpass⟩
    · rcases ih _ hrest h hmem with hacc | ⟨m2, hm2, hx⟩
      · exact Or.inl hacc
      · exact Or.inr ⟨m2, List.mem_cons_of_mem _ hm2, hx⟩
    · obtain ⟨recv, argType, argElem, replyType, _, tName, hins, _, harg, hElem, _, _, _, _,
        hrest⟩ := hpass
      rcases ih _ hrest h hmem with hacc | ⟨m2, hm2, hx⟩
      · rcases List.mem_append.mp hacc with hold | hnew
        · exact Or.inl hold
        · have hh : h = makeHandler pathPrefix tName ctype m.Name osm argElem
              (some replyType) pc := by simpa using hnew
          have hel : eligiblePull ctxMethods m = true := by
            simp only [eligiblePull, Bool.and_eq_true, decide_eq_true_eq, Bool.not_eq_true']
            constructor
            · by_contra hp; exact hskip (Or.inl hp)
            · cases hc : isPullCtxMethod ctxMethods m.Name with
              | false => rfl
              | true => exact absurd (Or.inr hc) hskip
          refine Or.inr ⟨m, List.mem_cons_self _ _, recv, argType, hel, hins, ?_, harg, ?_⟩
          · rw [hh]; rfl
          · rw [hh]; exact hElem
      · exact Or.inr ⟨m2, List.mem_cons_of_mem _ hm2, hx⟩

/-- Every candidate of the push loop was accumulated before or comes from an eligible
method whose single argument is an exported-or-builtin pointer with the handler's
argument element type as pointee. -/
theorem pushMethods_mem_arg (ctxMethods : List String) (pathPrefix : String) (ctype : RType)
    (osm : OriginStructMaker) (pc : PluginContainer) (ms : List Method)
    (acc hs : List Handler)
    (hmk : pushMethods ctxMethods pathPrefix ctype osm pc ms acc = .handlers hs) :
    ∀ h ∈ hs, h ∈ acc ∨ ∃ m ∈ ms, ∃ recv argType,
      eligiblePush ctxMethods m = true ∧ m.ins = [recv, argType] ∧
      h.method = .func ctype.toStr m.Name ∧
      IsExportedOrBuiltinType argType = true ∧ argType.Elem = some h.argElem := by
  induction ms generalizing acc with
  | nil =>
    intro h hmem
    simp [pushMethods] at hmk
    subst hmk
    exact Or.inl hmem
  | cons m rest ih =>
    intro h hmem
    rcases pushMethods_cons _ _ _ _ _ _ _ _ _ hmk with ⟨_, hrest⟩ | ⟨hskip, hpass⟩
    · rcases ih _ hrest h hmem with hacc | ⟨m2, hm2, hx⟩
      · exact Or.inl hacc
      · exact Or.inr ⟨m2, List.mem_cons_of_mem _ hm2, hx⟩
    · obtain ⟨recv, argType, argElem, tName, hins, _, harg, hElem, _, _, hrest⟩ := hpass
      rcases ih _ hrest h hmem with hacc | ⟨m2, hm2, hx⟩
      · rcases List.mem_append.mp hacc with hold | hnew
        · exact Or.inl hold
        · have hh : h = makeHandler pathPrefix tName ctype m.Name osm argElem none pc := by
            simpa using hnew
          have hel : eligiblePush ctxMethods m = true := by
            simp only [eligiblePush, Bool.and_eq_true, decide_eq_true_eq, Bool.not_eq_true']
            constructor
            · by_contra hp; exact hskip (Or.inl hp)
            · cases hc : isPushCtxMethod ctxMethods m.Name with
              | false => rfl
              | true => exact absurd (Or.inr hc) hskip
          refine Or.inr ⟨m, List.mem_cons_self _ _, recv, argType, hel, hins, ?_, harg, ?_⟩
          · rw [hh]; rfl
          · rw [hh]; exact hElem
      · exact Or.inr ⟨m2, List.mem_cons_of_mem _ hm2, hx⟩

/-- A method that satisfies the pull rules has one argument beyond the receiver, an
exported-or-builtin pointer. -/
theorem pullMethodOk_arg (m : Method) (hok : pullMethodOk m = true) :
    ∃ recv argType, m.ins = [recv, argType] ∧ IsExportedOrBuiltinType argType = true ∧
      argType.Kind = Teleport.Kind.Ptr := by
  unfold pullMethodOk at hok
  split at hok
  · rename_i recv arg reply ret hins houts
    simp only [Bool.and_eq_true, decide_eq_true_eq] at hok
    exact ⟨recv, arg, hins, hok.1.1.1.2, (RType.Elem_isSome_iff arg).mp hok.1.1.2⟩
  · simp at hok

/-- A method that satisfies the push rules has one argument beyond the receiver, an
exported-or-builtin pointer. -/
theorem pushMethodOk_arg (m : Method) (hok : pushMethodOk m = true) :
    ∃ recv argType, m.ins = [recv, argType] ∧ IsExportedOrBuiltinType argType = true ∧
      argType.Kind = Teleport.Kind.Ptr := by
  unfold pushMethodOk at hok
  split at hok
  · rename_i recv arg hins
    simp only [Bool.and_eq_true, decide_eq_true_eq] at hok
    exact ⟨recv, arg, hins, hok.1.1, hok.1.2⟩
  · simp at hok

/-- C13: `ArgElemType()` is the pointee of a pointer type.  Every handler in the candidate
list of `pullHandlersMaker` or `pushHandlersMaker` is bound to an eligible method with
exactly one argument beyond the receiver, whose type is exported-or-builtin and a pointer
with `ArgElemType()` as its element; whenever a maker returns a candidate list, every
eligible method has such an argument, so no handler comes from a method whose argument
type is unexported or not a pointer; and the handler that `SetUnknown` installs has the
raw body type `[]byte`, the pointee of `*[]byte`. -/
theorem handler_arg_is_pointee (ctxMethods : List String) (pathPrefix : String)
    (c : CtrlType) (pc : Option PluginContainer) :
    (∀ hs, pullHandlersMaker ctxMethods pathPrefix (some c) pc = .handlers hs →
      (∀ h ∈ hs, ∃ m ∈ c.methods, ∃ recv argType,
        eligiblePull ctxMethods m = true ∧ m.ins = [recv, argType] ∧
        h.method = .func c.rtype.toStr m.Name ∧ IsExportedOrBuiltinType argType = true ∧
        argType.Kind = Teleport.Kind.Ptr ∧ argType.Elem = some h.ArgElemType) ∧
      (∀ m ∈ c.methods, eligiblePull ctxMethods m = true → ∃ recv argType,
        m.ins = [recv, argType] ∧ IsExportedOrBuiltinType argType = true ∧
        argType.Kind = Teleport.Kind.Ptr)) ∧
    (∀ hs, pushHandlersMaker ctxMethods pathPrefix (some c) pc = .handlers hs →
      (∀ h ∈ hs, ∃ m ∈ c.methods, ∃ recv argType,
        eligiblePush ctxMethods m = true ∧ m.ins = [recv, argType] ∧
        h.method = .func c.rtype.toStr m.Name ∧ IsExportedOrBuiltinType argType = true ∧
        argType.Kind = Teleport.Kind.Ptr ∧ argType.Elem = some h.ArgElemType) ∧
      (∀ m ∈ c.methods, eligiblePush ctxMethods m = true → ∃ recv argType,
        m.ins = [recv, argType] ∧ IsExportedOrBuiltinType argType = true ∧
        argType.Kind = Teleport.Kind.Ptr)) ∧
    (∀ σ r v ps σ2, SetUnknown σ r v ps = .ok σ2 () →
      ∃ f, σ2.cells (σ2.routers r).unknownApiType = some f ∧ f.method = .value v ∧
        f.ArgElemType = bytesType ∧ bytesPtrType.Kind = Teleport.Kind.Ptr ∧
        bytesPtrType.Elem = some f.ArgElemType) := by
  refine ⟨?_, ?_, ?_⟩
  · intro hs hmk
    obtain ⟨elem, f, _, _, _, _, _, hloop⟩ := pullHandlersMaker_handlers _ _ _ _ _ hmk
    refine ⟨?_, ?_⟩
    · intro h hmem
      rcases pullMethods_mem_arg _ _ _ _ _ _ _ _ hloop h hmem with hnil | hx
      · simp at hnil
      · obtain ⟨m, hm, recv, argType, hel, hins, hmeth, harg, hElem⟩ := hx
        exact ⟨m, hm, recv, argType, hel, hins, hmeth, harg,
          (RType.Elem_isSome_iff argType).mp (by rw [hElem]; rfl), hElem⟩
    · intro m hm hel
      exact pullMethodOk_arg m (pullMethods_handlers_ok _ _ _ _ _ _ _ _ hloop m hm hel)
  · intro hs hmk
    obtain ⟨elem, f, _, _, _, _, _, hloop⟩ := pushHandlersMaker_handlers _ _ _ _ _ hmk
    refine ⟨?_, ?_⟩
    · intro h hmem
      rcases pushMethods_mem_arg _ _ _ _ _ _ _ _ hloop h hmem with hnil | hx
      · simp at hnil
      · obtain ⟨m, hm, recv, argType, hel, hins, hmeth, harg, hElem⟩ := hx
        exact ⟨m, hm, recv, argType, hel, hins, hmeth, harg,
          (RType.Elem_isSome_iff argType).mp (by rw [hElem]; rfl), hElem⟩
    · intro m hm hel
      exact pushMethodOk_arg m (pushMethods_handlers_ok _ _ _ _ _ _ _ _ hloop m hm hel)
  · intro σ r v ps σ2 hok
    obtain ⟨_, pc2, _, hcell⟩ := SetUnknown_ok_receiver σ σ2 r v ps hok
    exact ⟨_, hcell, rfl, rfl, rfl, rfl⟩

/-- C13, at the pull service `Home` under the root prefix and at the fresh pull router:
the handler of `Test` has the pointee of `*map[string]interface{}` as argument element
type, and the fallback installed by `SetUnknown(pullFallback)` has `[]byte`. -/
theorem handler_arg_is_pointee_witness :
    (∃ m ∈ homeService.methods, ∃ recv argType,
      eligiblePull sampleCtxMethods m = true ∧ m.ins = [recv, argType] ∧
      (makeHandler "/" "home" homeType "Test" (.newStruct homeStructType "PullCtx")
        mapType (some emptyInterfaceType) newPluginContainer).method
          = .func homeService.rtype.toStr m.Name ∧
      IsExportedOrBuiltinType argType = true ∧ argType.Kind = Teleport.Kind.Ptr ∧
      argType.Elem = some (makeHandler "/" "home" homeType "Test"
        (.newStruct homeStructType "PullCtx") mapType (some emptyInterfaceType)
        newPluginContainer).ArgElemType) ∧
    ∃ f, (SetUnknown pullRoot.1 pullRoot.2 pullFallback []).heap.cells
          ((SetUnknown pullRoot.1 pullRoot.2 pullFallback []).heap.routers
            pullRoot.2).unknownApiType = some f ∧
      f.method = .value pullFallback ∧ f.ArgElemType = bytesType ∧
      bytesPtrType.Kind = Teleport.Kind.Ptr ∧ bytesPtrType.Elem = some f.ArgElemType :=
  ⟨((handler_arg_is_pointee sampleCtxMethods "/" homeService none).1 _ rfl).1 _
      (List.mem_cons_self _ _),
   (handler_arg_is_pointee sampleCtxMethods "/" homeService none).2.2
      pullRoot.1 pullRoot.2 pullFallback [] _ rfl⟩

/-! ## The hook runs before the insertion -/

@[simp] theorem emit_log (σ : Heap) (e : Event) : (σ.emit e).log = σ.log ++ [e] := rfl
@[simp] theorem setHandler_log (σ : Heap) (r : Nat) (h : Handler) :
    (σ.setHandler r h).log = σ.log := rfl

/-- A loop that returns normally has found every name free and every hook accepting, has
distinct names, and has emitted one hook event and one log line per candidate. -/
theorem regLoop_ok_trace (r : Nat) (pc : PluginContainer) (hs : List Handler) (σ σ2 : Heap)
    (hok : regLoop r pc hs σ = .ok σ2 ()) :
    σ2.log = σ.log ++ regEvents (σ.routers r).typ hs ∧
    (∀ h ∈ hs, pc.PostReg h = none) ∧
    (∀ h ∈ hs, Table.get (σ.table r) h.name = none) ∧
    (hs.map Handler.name).Nodup := by
  induction hs generalizing σ with
  | nil =>
    simp only [regLoop] at hok
    injection hok with hσ _
    subst hσ
    simp [regEvents]
  | cons h rest ih =>
    unfold regLoop at hok
    split at hok
    · simp [Fatalf] at hok
    · rename_i hfree
      have hnone : Table.get (σ.table r) h.name = none := by simpa using hfree
      split at hok
      · simp [Fatalf] at hok
      · rename_i hhook
        obtain ⟨hlog, hhooks, hfrees, hnodup⟩ := ih _ hok
        have hne : ∀ h2 ∈ rest, h2.name ≠ h.name := by
          intro h2 hm2 heq
          have := hfrees h2 hm2
          simp only [emit_table, setHandler_table] at this
          rw [heq, Table.get_set_same] at this
          exact absurd this (by simp)
        refine ⟨?_, ?_, ?_, ?_⟩
        · rw [hlog]
          simp [regEvents]
        · intro h2 hm2
          rcases List.mem_cons.mp hm2 with heq | hin
          · rw [heq]; exact hhook
          · exact hhooks h2 hin
        · intro h2 hm2
          rcases List.mem_cons.mp hm2 with heq | hin
          · rw [heq]; exact hnone
          · have := hfrees h2 hin
            simp only [emit_table, setHandler_table] at this
            rw [Table.get_set_ne _ _ _ _ (hne h2 hin)] at this
            exact this
        · rw [List.map_cons, List.nodup_cons]
          refine ⟨?_, hnodup⟩
          intro hmem
          obtain ⟨h2, hm2, heq⟩ := List.mem_map.mp hmem
          exact hne h2 hm2 heq

/-- A loop that ends in `Fatalf`: the candidates before the failing one passed their
hooks and are written; the failing one was stopped by the conflict check, before its
hook, or by the error of its hook, before its insertion. -/
theorem regLoop_fatal_trace (r : Nat) (pc : PluginContainer) (hs : List Handler)
    (σ σ2 : Heap) (msg : String) (hfatal : regLoop r pc hs σ = .fatal σ2 msg) :
    ∃ done h rest, hs = done ++ h :: rest ∧
      σ2.table r = Table.setAll (σ.table r) done ∧
      (∀ d ∈ done, pc.PostReg d = none) ∧
      (((Table.get (σ2.table r) h.name).isSome = true ∧
          σ2.log = σ.log ++ regEvents (σ.routers r).typ done ++ [.Fatalf msg]) ∨
        (pc.PostReg h = some msg ∧ Table.get (σ2.table r) h.name = none ∧
          σ2.log = σ.log ++ regEvents (σ.routers r).typ done
            ++ [.PostReg h.name, .Fatalf msg])) := by
  induction hs generalizing σ with
  | nil => simp [regLoop] at hfatal
  | cons h rest ih =>
    unfold regLoop at hfatal
    split at hfatal
    · rename_i htaken
      simp only [Fatalf] at hfatal
      injection hfatal with hσ hmsg
      subst hσ
      subst hmsg
      exact ⟨[], h, rest, rfl, rfl, by simp, Or.inl ⟨by simpa using htaken, by simp [regEvents]⟩⟩
    · rename_i hfree
      have hnone : Table.get (σ.table r) h.name = none := by simpa using hfree
      split at hfatal
      · rename_i err herr
        simp only [Fatalf] at hfatal
        injection hfatal with hσ hmsg
        subst hσ
        subst hmsg
        exact ⟨[], h, rest, rfl, rfl, by simp,
          Or.inr ⟨herr, by simpa using hnone, by simp [regEvents]⟩⟩
      · rename_i hhook
        obtain ⟨done, h2, rest2, hsplit, htab, hhooks, hwhy⟩ := ih _ hfatal
        refine ⟨h :: done, h2, rest2, by rw [hsplit]; rfl, ?_, ?_, ?_⟩
        · rw [htab]
          simp only [emit_table, setHandler_table]
          rfl
        · intro d hd
          rcases List.mem_cons.mp hd with heq | hin
          · rw [heq]; exact hhook
          · exact hhooks d hin
        · rcases hwhy with ⟨h1, hlog⟩ | ⟨h1, h3, hlog⟩
          · exact Or.inl ⟨h1, by rw [hlog]; simp [regEvents]⟩
          · exact Or.inr ⟨h1, h3, by rw [hlog]; simp [regEvents]⟩

/-- A candidate whose hook returns an error makes the loop end in `Fatalf`. -/
theorem regLoop_hook_error (r : Nat) (pc : PluginContainer) (hs : List Handler) (σ : Heap)
    (hex : ∃ h ∈ hs, (pc.PostReg h).isSome = true) :
    ∃ σ2 msg, regLoop r pc hs σ = .fatal σ2 msg := by
  induction hs generalizing σ with
  | nil => simp at hex
  | cons h rest ih =>
    unfold regLoop
    split
    · exact ⟨_, _, rfl⟩
    · split
      · exact ⟨_, _, rfl⟩
      · rename_i hhook
        apply ih
        obtain ⟨h1, hmem, herr⟩ := hex
        rcases List.mem_cons.mp hmem with heq | hin
        · subst heq
          rw [hhook] at herr
          exact absurd herr (by simp)
        · exact ⟨h1, hin, herr⟩

/-- The round of the loop for a candidate whose name is free and whose hook accepts. -/
theorem regLoop_step (r : Nat) (pc : PluginContainer) (h : Handler) (rest : List Handler)
    (σ : Heap) (hfree : Table.get (σ.table r) h.name = none) (hhook : pc.PostReg h = none) :
    regLoop r pc (h :: rest) σ = regLoop r pc rest (σ.afterCandidate r h) := by
  conv_lhs => unfold regLoop
  simp [hfree, hhook, Heap.afterCandidate]

/-- The round of the loop for a candidate whose name is taken. -/
theorem regLoop_taken (r : Nat) (pc : PluginContainer) (h : Handler) (rest : List Handler)
    (σ : Heap) (htaken : (Table.get (σ.table r) h.name).isSome = true) :
    regLoop r pc (h :: rest) σ
      = Fatalf σ ("There is a " ++ (σ.routers r).typ ++ " handler conflict: " ++ h.name) := by
  conv_lhs => unfold regLoop
  simp [htaken]

/-- The round of the loop for a candidate whose name is free and whose hook fails. -/
theorem regLoop_hook_fails (r : Nat) (pc : PluginContainer) (h : Handler)
    (rest : List Handler) (σ : Heap) (err : String)
    (hfree : Table.get (σ.table r) h.name = none) (hhook : pc.PostReg h = some err) :
    regLoop r pc (h :: rest) σ = Fatalf (σ.emit (.PostReg h.name)) err := by
  conv_lhs => unfold regLoop
  simp [hfree, hhook]

@[simp] theorem afterCandidate_table (σ : Heap) (r : Nat) (h : Handler) :
    (σ.afterCandidate r h).table r = Table.set (σ.table r) h.name h := by
  simp [Heap.afterCandidate]

@[simp] theorem afterCandidate_log (σ : Heap) (r : Nat) (h : Handler) :
    (σ.afterCandidate r h).log = σ.log ++ [.PostReg h.name,
      .Printf ("register " ++ (σ.routers r).typ ++ " handler: " ++ h.name)] := by
  simp [Heap.afterCandidate]

/-- The loop only appends to the log. -/
theorem regLoop_log_ext (r : Nat) (pc : PluginContainer) (hs : List Handler) (σ : Heap) :
    ∃ l, (regLoop r pc hs σ).heap.log = σ.log ++ l := by
  induction hs generalizing σ with
  | nil => exact ⟨[], by simp [regLoop, Outcome.heap]⟩
  | cons h rest ih =>
    by_cases htaken : (Table.get (σ.table r) h.name).isSome = true
    · rw [regLoop_taken r pc h rest σ htaken]
      exact ⟨_, rfl⟩
    · have hfree : Table.get (σ.table r) h.name = none := by simpa using htaken
      cases hhook : pc.PostReg h with
      | some err =>
        rw [regLoop_hook_fails r pc h rest σ err hfree hhook]
        exact ⟨[.PostReg h.name, .Fatalf err], by simp [Fatalf, Outcome.heap]⟩
      | none =>
        rw [regLoop_step r pc h rest σ hfree hhook]
        obtain ⟨l, hl⟩ := ih (σ.afterCandidate r h)
        exact ⟨_, by rw [hl, afterCandidate_log, List.append_assoc]⟩

/-- A name that resolves after the loop and did not before belongs to a candidate whose
hook was invoked during the loop and returned no error. -/
theorem regLoop_new_entry (r : Nat) (pc : PluginContainer) (hs : List Handler) (σ : Heap)
    (name : String) (hnew : Handler) (hbefore : Table.get (σ.table r) name = none)
    (hafter : Table.get ((regLoop r pc hs σ).heap.table r) name = some hnew) :
    hnew ∈ hs ∧ hnew.name = name ∧ pc.PostReg hnew = none ∧
    ∃ l, (regLoop r pc hs σ).heap.log = σ.log ++ l ∧ Event.PostReg name ∈ l := by
  induction hs generalizing σ with
  | nil =>
    simp only [regLoop, Outcome.heap] at hafter
    rw [hbefore] at hafter
    exact absurd hafter (by simp)
  | cons h rest ih =>
    by_cases htaken : (Table.get (σ.table r) h.name).isSome = true
    · rw [regLoop_taken r pc h rest σ htaken] at hafter
      simp only [Fatalf, Outcome.heap, emit_table] at hafter
      rw [hbefore] at hafter
      exact absurd hafter (by simp)
    · have hfree : Table.get (σ.table r) h.name = none := by simpa using htaken
      cases hhook : pc.PostReg h with
      | some err =>
        rw [regLoop_hook_fails r pc h rest σ err hfree hhook] at hafter
        simp only [Fatalf, Outcome.heap, emit_table] at hafter
        rw [hbefore] at hafter
        exact absurd hafter (by simp)
      | none =>
        rw [regLoop_step r pc h rest σ hfree hhook] at hafter ⊢
        by_cases hname : name = h.name
        · have hk := regLoop_keeps r pc rest (σ.afterCandidate r h) name h (by
            rw [afterCandidate_table, hname]; exact Table.get_set_same _ _ _)
          rw [hk] at hafter
          injection hafter with heq
          subst heq
          obtain ⟨l, hl⟩ := regLoop_log_ext r pc rest (σ.afterCandidate r h)
          refine ⟨List.mem_cons_self _ _, hname.symm, hhook, ?_⟩
          refine ⟨[.PostReg h.name, .Printf ("register " ++ (σ.routers r).typ ++ " handler: "
            ++ h.name)] ++ l, ?_, ?_⟩
          · rw [hl, afterCandidate_log, List.append_assoc]
          · rw [hname]; simp
        · have hb2 : Table.get ((σ.afterCandidate r h).table r) name = none := by
            rw [afterCandidate_table, Table.get_set_ne _ _ _ _ hname]
            exact hbefore
          obtain ⟨hmem, hnm, hhk, l, hl, hin⟩ := ih _ hb2 hafter
          refine ⟨List.mem_cons_of_mem _ hmem, hnm, hhk, ?_⟩
          refine ⟨[.PostReg h.name, .Printf ("register " ++ (σ.routers r).typ ++ " handler: "
            ++ h.name)] ++ l, ?_, ?_⟩
          · rw [hl, afterCandidate_log, List.append_assoc]
          · exact List.mem_append_right _ hin

/-- The hook events for a name among the events of passing candidates are as many as the
candidates of that name. -/
theorem count_PostReg_regEvents (typ name : String) (hs : List Handler) :
    List.count (Event.PostReg name) (regEvents typ hs) = List.count name (hs.map Handler.name) := by
  induction hs with
  | nil => rfl
  | cons h rest ih =>
    simp only [regEvents, List.map_cons, List.count_cons, ih]
    by_cases hn : h.name = name
    · simp [hn]
    · simp [hn]

/-- C14: in `Reg` the hook comes between the conflict check and the insertion.  A candidate
whose `PostReg` returns an error makes `Reg` end in `Fatalf`; when `Reg` ends in `Fatalf`,
the candidates before the failing one passed their hooks and are the ones written, and
the failing one was stopped either by the conflict check or by the error of its hook, in
which case the hook event is the last before `Fatalf` and its name is not in the table;
when `Reg` returns normally every hook accepted and the log has exactly one hook event
per candidate, each before the line logged after its insertion; a name that resolves
after `Reg` and did not before belongs to a candidate whose hook was invoked in this call
and returned no error; and in each round the hook event is emitted on a heap whose table
does not have the name, before the map write. -/
theorem Reg_hook_before_insert (σ : Heap) (r : Nat) (ctrlStruct : CtrlStruct)
    (plugin : List Plugin) (pc : PluginContainer) (hs : List Handler)
    (hpc : (σ.routers r).pluginContainer.cloneAdd plugin = .ok pc)
    (hfn : (σ.routers r).fn (σ.routers r).pathPrefix ctrlStruct (some pc) = .handlers hs) :
    ((∃ h ∈ hs, (pc.PostReg h).isSome = true) →
      ∃ σ2 msg, Reg σ r ctrlStruct plugin = .fatal σ2 msg) ∧
    (∀ σ2 msg, Reg σ r ctrlStruct plugin = .fatal σ2 msg →
      ∃ done h rest, hs = done ++ h :: rest ∧
        σ2.table r = Table.setAll (σ.table r) done ∧
        (∀ d ∈ done, pc.PostReg d = none) ∧
        (((Table.get (σ2.table r) h.name).isSome = true ∧
            σ2.log = σ.log ++ regEvents (σ.routers r).typ done ++ [.Fatalf msg]) ∨
          (pc.PostReg h = some msg ∧ Table.get (σ2.table r) h.name = none ∧
            σ2.log = σ.log ++ regEvents (σ.routers r).typ done
              ++ [.PostReg h.name, .Fatalf msg]))) ∧
    (∀ σ2, Reg σ r ctrlStruct plugin = .ok σ2 () →
      σ2.log = σ.log ++ regEvents (σ.routers r).typ hs ∧
      ∀ h ∈ hs, pc.PostReg h = none ∧
        List.count (Event.PostReg h.name) (regEvents (σ.routers r).typ hs) = 1) ∧
    (∀ name hnew, Table.get (σ.table r) name = none →
      Table.get ((Reg σ r ctrlStruct plugin).heap.table r) name = some hnew →
      hnew ∈ hs ∧ hnew.name = name ∧ pc.PostReg hnew = none ∧
      ∃ l, (Reg σ r ctrlStruct plugin).heap.log = σ.log ++ l ∧ Event.PostReg name ∈ l) ∧
    (∀ h rest σ1, Table.get (σ1.table r) h.name = none → pc.PostReg h = none →
      regLoop r pc (h :: rest) σ1
        = regLoop r pc rest (((σ1.emit (.PostReg h.name)).setHandler r h).emit
            (.Printf ("register " ++ (σ1.routers r).typ ++ " handler: " ++ h.name))) ∧
      Table.get ((σ1.emit (.PostReg h.name)).table r) h.name = none) := by
  have hreg : Reg σ r ctrlStruct plugin = regLoop r pc hs σ := by
    simp [Reg, hpc, hfn]
  rw [hreg]
  refine ⟨regLoop_hook_error r pc hs σ, ?_, ?_, ?_, ?_⟩
  · intro σ2 msg hfatal
    exact regLoop_fatal_trace r pc hs σ σ2 msg hfatal
  · intro σ2 hok
    obtain ⟨hlog, hhooks, _, hnodup⟩ := regLoop_ok_trace r pc hs σ σ2 hok
    refine ⟨hlog, fun h hmem => ⟨hhooks h hmem, ?_⟩⟩
    rw [count_PostReg_regEvents]
    exact List.count_eq_one_of_mem hnodup (List.mem_map_of_mem Handler.name hmem)
  · intro name hnew hbefore hafter
    exact regLoop_new_entry r pc hs σ name hnew hbefore hafter
  · intro h rest σ1 hfree hhook
    exact ⟨regLoop_step r pc h rest σ1 hfree hhook, by simpa using hfree⟩

/-- C14, at the fresh pull router with a plugin that rejects `/two/beta`: registering
`main.Two` ends in `Fatalf`. -/
theorem Reg_hook_before_insert_witness :
    ∃ σ2 msg, Reg pullRoot.1 pullRoot.2 (some mainTwoService) [rejectBeta] = .fatal σ2 msg :=
  (Reg_hook_before_insert pullRoot.1 pullRoot.2 (some mainTwoService) [rejectBeta] _ _
    rfl rfl).1 ⟨_, List.mem_cons_of_mem _ (List.mem_cons_self _ _), rfl⟩

/-- The run of `Reg` for `main.Two` with the plugin that rejects `/two/beta`, in full:
`Alpha` is hooked and written, `Beta` is hooked and refused, and `/two/beta` does not
resolve. -/
theorem Reg_rejectBeta_run :
    List.map Prod.fst
      ((Reg pullRoot.1 pullRoot.2 (some mainTwoService) [rejectBeta]).heap.table pullRoot.2)
      = ["/two/alpha"] ∧
    (Reg pullRoot.1 pullRoot.2 (some mainTwoService) [rejectBeta]).heap.log
      = [.PostReg "/two/alpha", .Printf "register pull handler: /two/alpha",
         .PostReg "/two/beta", .Fatalf "beta is rejected"] ∧
    get (Reg pullRoot.1 pullRoot.2 (some mainTwoService) [rejectBeta]).heap pullRoot.2
      "/two/beta" = (none, false) := by
  refine ⟨by decide, by decide, rfl⟩

/-! ## Setting the fallback twice -/

/-- A normal return of `SetUnknown` adds one line to the log: `set` when the cell of the
receiver was nil, `covered` otherwise. -/
theorem SetUnknown_ok_log (σ σ2 : Heap) (r : Nat) (v : GoValue) (ps : List Plugin)
    (hok : SetUnknown σ r v ps = .ok σ2 ()) :
    σ2.log = σ.log ++
      [if (σ.cells (σ.routers r).unknownApiType).isNone then
          Event.Printf ("set " ++ unknownName (σ.routers r).typ ++ " handler")
        else Event.Warnf ("covered " ++ unknownName (σ.routers r).typ ++ " handler")] := by
  unfold SetUnknown at hok
  split at hok
  · simp [Fatalf] at hok
  · simp only at hok
    split at hok
    · simp [Fatalf] at hok
    · split at hok
      · simp [Fatalf] at hok
      · injection hok with hσ _
        subst hσ
        split <;> simp [Heap.emit]

/-- C15: when `r.SetUnknown(f1)` and then `r.SetUnknown(f2)` return normally, `r.get` of
every unregistered name returns the handler wrapping `f2`, which is not the one wrapping
`f1` when the two values differ; the first call logs the informational `set` line when no
fallback was installed on `r`, and the second call logs the `covered` warning. -/
theorem SetUnknown_twice (σ σ1 σ2 : Heap) (r : Nat) (f1 f2 : GoValue) (ps1 ps2 : List Plugin)
    (h1 : SetUnknown σ r f1 ps1 = .ok σ1 ()) (h2 : SetUnknown σ1 r f2 ps2 = .ok σ2 ()) :
    (∀ name, Table.get (σ.table r) name = none →
      ∃ f, get σ2 r name = (some f, true) ∧ f.method = .value f2 ∧
        (f1 ≠ f2 → f.method ≠ .value f1)) ∧
    (σ.cells (σ.routers r).unknownApiType = none →
      σ1.log = σ.log ++ [.Printf ("set " ++ unknownName (σ.routers r).typ ++ " handler")]) ∧
    σ2.log = σ1.log ++ [.Warnf ("covered " ++ unknownName (σ.routers r).typ ++ " handler")] := by
  obtain ⟨htab1, pc1, _, hcell1⟩ := SetUnknown_ok_receiver σ σ1 r f1 ps1 h1
  obtain ⟨htab2, pc2, _, hcell2⟩ := SetUnknown_ok_receiver σ1 σ2 r f2 ps2 h2
  obtain ⟨_, _, _, _, hrouters1⟩ := SetUnknown_ok σ σ1 r f1 ps1 h1
  have htyp : (σ1.routers r).typ = (σ.routers r).typ := by
    rw [hrouters1]; simp
  refine ⟨?_, ?_, ?_⟩
  · intro name hmiss
    refine ⟨unknownHandlerOf (σ1.routers r).typ f2 pc2, ?_, rfl, ?_⟩
    · simp [get, htab2, htab1, hmiss, hcell2]
    · intro hne heq
      simp only [unknownHandlerOf] at heq
      injection heq with hv
      exact hne hv.symm
  · intro hnil
    rw [SetUnknown_ok_log σ σ1 r f1 ps1 h1, hnil]
    rfl
  · rw [SetUnknown_ok_log σ1 σ2 r f2 ps2 h2, hcell1, htyp]
    rfl

/-- C15, at the fresh pull router with two functions of the pull fallback type: the
second call logs the `covered` warning after the `set` line of the first. -/
theorem SetUnknown_twice_witness :
    (SetUnknown (SetUnknown pullRoot.1 pullRoot.2 pullFallback []).heap pullRoot.2
        pullFallback2 []).heap.log
      = (SetUnknown pullRoot.1 pullRoot.2 pullFallback []).heap.log
        ++ [.Warnf ("covered " ++ unknownName (pullRoot.1.routers pullRoot.2).typ
          ++ " handler")] :=
  (SetUnknown_twice pullRoot.1 _ _ pullRoot.2 pullFallback pullFallback2 [] [] rfl rfl).2.2

/-! ## The nil service value -/

/-- C16 at its failing input: for the nil service value both makers call `Kind()` on the
nil type descriptor and panic, and `Reg(nil)` panics with them on the pull and on the
push router; a non-pointer value and a pointer to a non-struct get the descriptive
error. -/
theorem makers_nil_panic :
    pullHandlersMaker sampleCtxMethods "/" none none
      = .panic "invalid memory address or nil pointer dereference" ∧
    pushHandlersMaker sampleCtxMethods "/" none none
      = .panic "invalid memory address or nil pointer dereference" ∧
    (∃ σ2 msg, Reg pullRoot.1 pullRoot.2 none [] = .panic σ2 msg) ∧
    (∃ σ2 msg, Reg pushRoot.1 pushRoot.2 none [] = .panic σ2 msg) ∧
    pullHandlersMaker sampleCtxMethods "/" (some homeValue) none
      = .error "register pull handler: the type is not struct point: main.Home" ∧
    pushHandlersMaker sampleCtxMethods "/" (some intPointer) none
      = .error "register push handler: the type is not struct point: *int" :=
  ⟨rfl, rfl, ⟨_, _, rfl⟩, ⟨_, _, rfl⟩, rfl, rfl⟩

/-! ## Rooted prefixes and names -/

/-- The backtracking loop stops at `dotdot` at the latest. -/
theorem backtrack_ge (out : List Char) (dotdot w : Nat) (h : dotdot ≤ w) :
    dotdot ≤ backtrack out dotdot w := by
  induction w with
  | zero => simpa [backtrack] using h
  | succ n ih =>
    unfold backtrack
    split
    · rename_i hc
      exact ih (by omega)
    · exact h

/-- On a rooted path the buffer of `path.Clean` keeps its leading slash. -/
theorem cleanLoop_rooted (n : Nat) : ∀ (rest : List Char) (inElem : Bool) (out : List Char)
    (dotdot : Nat), rest.length ≤ n → 1 ≤ dotdot → (∃ t, out = '/' :: t) →
    ∃ t, cleanLoop true rest inElem out dotdot = '/' :: t := by
  induction n with
  | zero =>
    intro rest inElem out dotdot hlen _ hout
    have : rest = [] := List.length_eq_zero.mp (by omega)
    subst this
    simpa [cleanLoop] using hout
  | succ n ih =>
    intro rest inElem out dotdot hlen hdd hout
    obtain ⟨t, ht⟩ := hout
    cases rest with
    | nil => exact ⟨t, by simp [cleanLoop, ht]⟩
    | cons c rest =>
      have hlen1 : rest.length ≤ n := by simpa using hlen
      have happ : ∀ x : List Char, ∃ t2, out ++ x = '/' :: t2 := fun x => ⟨t ++ x, by simp [ht]⟩
      have hslash : ∀ (p : Prop) [Decidable p],
          ∃ t2, (if p then out ++ ['/'] else out) ++ [c] = '/' :: t2 := by
        intro p _
        split
        · exact ⟨t ++ ['/'] ++ [c], by simp [ht]⟩
        · exact ⟨t ++ [c], by simp [ht]⟩
      cases inElem with
      | true =>
        unfold cleanLoop
        split
        · exact ih _ _ _ _ hlen1 hdd ⟨t, ht⟩
        · exact ih _ _ _ _ hlen1 hdd (happ [c])
      | false =>
        unfold cleanLoop
        simp only
        split
        · exact ih _ _ _ _ hlen1 hdd ⟨t, ht⟩
        · split
          · split
            · exact ⟨t, ht⟩
            · rename_i d rest2
              have hlen2 : rest2.length ≤ n := by
                simp only [List.length_cons] at hlen1; omega
              split
              · exact ih _ _ _ _ hlen2 hdd ⟨t, ht⟩
              · split
                · split
                  · rename_i hlt
                    apply ih _ _ _ _ hlen2 hdd
                    have hge := backtrack_ge out dotdot (out.length - 1) (by omega)
                    obtain ⟨k, hk⟩ : ∃ k, backtrack out dotdot (out.length - 1) = k + 1 :=
                      ⟨backtrack out dotdot (out.length - 1) - 1, by omega⟩
                    exact ⟨t.take k, by rw [hk, ht]; simp⟩
                  · split
                    · rename_i hnr
                      exact absurd trivial hnr
                    · exact ih _ _ _ _ hlen2 hdd ⟨t, ht⟩
                · exact ih _ _ _ _ hlen1 hdd (hslash _)
          · exact ih _ _ _ _ hlen1 hdd (hslash _)

/-- The function `path.Clean` keeps a leading slash. -/
theorem cleanChars_rooted (rest : List Char) : ∃ t, cleanChars ('/' :: rest) = '/' :: t := by
  obtain ⟨t, ht⟩ := cleanLoop_rooted rest.length rest false ['/'] 1 (le_refl _) (le_refl _)
    ⟨[], rfl⟩
  exact ⟨t, by simp [cleanChars, ht]⟩

/-- Joining onto a rooted first element gives a rooted path, the result of `path.Clean` on
a rooted path. -/
theorem Join_rooted (P : String) (es : List String) (hP : beginsWithSlash P) :
    beginsWithSlash (Join (P :: es)) ∧
    ∃ p, Join (P :: es) = Clean p ∧ beginsWithSlash p := by
  unfold beginsWithSlash at hP
  obtain ⟨pd⟩ := P
  cases pd with
  | nil => simp at hP
  | cons c rest0 =>
    simp only [List.head?_cons, Option.some.injEq] at hP
    subst hP
    have hne : (String.mk ('/' :: rest0)) ≠ "" := by
      intro h
      have := congrArg String.data h
      simp at this
    have hjoin : ∃ rest, joinSlash ((String.mk ('/' :: rest0) :: es).map String.data)
        = '/' :: rest := by
      cases es with
      | nil => exact ⟨rest0, by simp [joinSlash]⟩
      | cons e es2 => exact ⟨_, by simp [joinSlash]; rfl⟩
    obtain ⟨rest, hrest⟩ := hjoin
    obtain ⟨t, ht⟩ := cleanChars_rooted rest
    have hJ : Join (String.mk ('/' :: rest0) :: es) = String.mk ('/' :: t) := by
      simp only [Join, hne, ne_eq, not_false_eq_true, if_true, hrest, ht]
    refine ⟨by rw [hJ]; rfl, String.mk ('/' :: rest), ?_, rfl⟩
    rw [hJ]
    simp [Clean, ht]

/-- The property of a chain start that every `Group` call preserves holds at the end of
the chain. -/
theorem GroupChain_invariant (P : Heap → Nat → Prop)
    (hstep : ∀ σ1 g1 p ps σ2 g2, P σ1 g1 → Group σ1 g1 p ps = .ok σ2 g2 → P σ2 g2)
    {σ σ2 : Heap} {r g : Nat} (hchain : GroupChain σ r σ2 g) (h0 : P σ r) : P σ2 g := by
  induction hchain with
  | refl => exact h0
  | step p ps _ hgroup ih => exact hstep _ _ p ps _ _ (ih h0) hgroup

/-- Every entry of the table after the loop was there before or is a candidate stored
under its own name. -/
theorem regLoop_mem_key (r : Nat) (pc : PluginContainer) (hs : List Handler) (σ : Heap)
    (k : String) (h : Handler) (hmem : (k, h) ∈ (regLoop r pc hs σ).heap.table r) :
    (k, h) ∈ σ.table r ∨ (h ∈ hs ∧ k = h.name) := by
  induction hs generalizing σ with
  | nil => exact Or.inl (by simpa [regLoop, Outcome.heap] using hmem)
  | cons h1 rest ih =>
    by_cases htaken : (Table.get (σ.table r) h1.name).isSome = true
    · rw [regLoop_taken r pc h1 rest σ htaken] at hmem
      exact Or.inl (by simpa [Fatalf, Outcome.heap] using hmem)
    · have hfree : Table.get (σ.table r) h1.name = none := by simpa using htaken
      cases hhook : pc.PostReg h1 with
      | some err =>
        rw [regLoop_hook_fails r pc h1 rest σ err hfree hhook] at hmem
        exact Or.inl (by simpa [Fatalf, Outcome.heap] using hmem)
      | none =>
        rw [regLoop_step r pc h1 rest σ hfree hhook] at hmem
        rcases ih _ hmem with hin | ⟨hin, hk⟩
        · rw [afterCandidate_table] at hin
          rcases Table.mem_set _ _ _ _ _ hin with h2 | ⟨hk, h2⟩
          · exact Or.inl h2
          · exact Or.inr ⟨by rw [h2]; exact List.mem_cons_self _ _, by rw [hk, h2]⟩
        · exact Or.inr ⟨List.mem_cons_of_mem _ hin, hk⟩

/-- Every entry of the table at the end of `Reg` was there before or is a candidate of
the maker of the router, stored under its own name. -/
theorem Reg_table_mem (σ : Heap) (r : Nat) (ctrlStruct : CtrlStruct) (plugin : List Plugin)
    (k : String) (h : Handler) (hmem : (k, h) ∈ (Reg σ r ctrlStruct plugin).heap.table r) :
    (k, h) ∈ σ.table r ∨ ∃ pc hs,
      (σ.routers r).fn (σ.routers r).pathPrefix ctrlStruct (some pc) = .handlers hs ∧
      h ∈ hs ∧ k = h.name := by
  unfold Reg at hmem
  split at hmem
  · exact Or.inl (by simpa [Fatalf, Outcome.heap] using hmem)
  · rename_i pc hpc
    split at hmem
    · exact Or.inl (by simpa [Fatalf, Outcome.heap] using hmem)
    · exact Or.inl (by simpa [Outcome.heap] using hmem)
    · rename_i hs hfn
      rcases regLoop_mem_key r pc hs σ k h hmem with h1 | ⟨h1, h2⟩
      · exact Or.inl h1
      · exact Or.inr ⟨pc, hs, hfn, h1, h2⟩

/-- C17: in a lineage whose root comes from `newPullRouter` or `newPushRouter`, every
router reached by a chain of `Group` calls with arbitrary prefix strings has a path prefix
that begins with `/` and is the result of `path.Clean` on a rooted path, and every entry
that `Reg` on such a router adds to the table has a name that begins with `/`. -/
theorem lineage_prefix_rooted (ctxMethods : List String) (σ : Heap) (pc0 : PluginContainer)
    (s : Heap × Nat)
    (hroot : s = newPullRouter ctxMethods σ pc0 ∨ s = newPushRouter ctxMethods σ pc0)
    (σ2 : Heap) (g : Nat) (hchain : GroupChain s.1 s.2 σ2 g) :
    beginsWithSlash (σ2.routers g).pathPrefix ∧
    (∃ p, (σ2.routers g).pathPrefix = Clean p ∧ beginsWithSlash p) ∧
    (∀ ctrlStruct plugin name h,
      (name, h) ∈ (Reg σ2 g ctrlStruct plugin).heap.table g →
      (name, h) ∈ σ2.table g ∨ beginsWithSlash name) := by
  have hinv := GroupChain_invariant
    (fun σx x => beginsWithSlash (σx.routers x).pathPrefix ∧
      (∃ p, (σx.routers x).pathPrefix = Clean p ∧ beginsWithSlash p) ∧
      ((σx.routers x).fn = pullHandlersMaker ctxMethods ∨
        (σx.routers x).fn = pushHandlersMaker ctxMethods))
    (by
      intro σ1 g1 p ps σ3 g3 hP hgroup
      obtain ⟨hp, hf, _⟩ := Group_router _ _ _ _ _ _ hgroup
      obtain ⟨h1, h2⟩ := Join_rooted (σ1.routers g1).pathPrefix [p] hP.1
      exact ⟨by rw [hp]; exact h1, by rw [hp]; exact h2, by rw [hf]; exact hP.2.2⟩)
    hchain
    (by
      rcases hroot with h | h <;> subst h
      · simp only [newPullRouter, newRouter_router]
        exact ⟨by decide, ⟨"/", by decide, by decide⟩, Or.inl trivial⟩
      · simp only [newPushRouter, newRouter_router]
        exact ⟨by decide, ⟨"/", by decide, by decide⟩, Or.inr trivial⟩)
  obtain ⟨hpre, hclean, hfn⟩ := hinv
  refine ⟨hpre, hclean, ?_⟩
  intro ctrlStruct plugin name h hmem
  rcases Reg_table_mem σ2 g ctrlStruct plugin name h hmem with hold | ⟨pc, hs, hmk, hin, hname⟩
  · exact Or.inl hold
  · right
    cases ctrlStruct with
    | none =>
      rcases hfn with hf | hf <;> rw [hf] at hmk <;> simp [pullHandlersMaker, pushHandlersMaker] at hmk
    | some c =>
      have hmk2 : pullHandlersMaker ctxMethods (σ2.routers g).pathPrefix (some c) (some pc)
            = .handlers hs ∨
          pushHandlersMaker ctxMethods (σ2.routers g).pathPrefix (some c) (some pc)
            = .handlers hs := by
        rcases hfn with hf | hf <;> rw [hf] at hmk
        · exact Or.inl hmk
        · exact Or.inr hmk
      obtain ⟨m, _, t, _, _, hnm⟩ := maker_names ctxMethods _ c (some pc) hs hmk2 h hin
      rw [hname, hnm]
      exact (Join_rooted _ _ hpre).1

/-- C17, at `Group("a").Group("b")` of the fresh pull router. -/
theorem lineage_prefix_rooted_witness :
    beginsWithSlash (pullGroupAB.1.routers pullGroupAB.2).pathPrefix :=
  (lineage_prefix_rooted sampleCtxMethods Heap.init newPluginContainer pullRoot (Or.inl rfl)
    pullGroupAB.1 pullGroupAB.2
    (GroupChain.step "b" [] (GroupChain.step "a" [] (GroupChain.refl _ _) rfl) rfl)).1

/-! ## What the two mutators leave alone -/

@[simp] theorem afterCandidate_routers (σ : Heap) (r : Nat) (h : Handler) :
    (σ.afterCandidate r h).routers = σ.routers := rfl

/-- The loop writes to no map other than the one of the router. -/
theorem regLoop_maps_other (r : Nat) (pc : PluginContainer) (hs : List Handler) (σ : Heap)
    (m : Nat) (hm : m ≠ (σ.routers r).handlers) :
    (regLoop r pc hs σ).heap.maps m = σ.maps m := by
  induction hs generalizing σ with
  | nil => simp [regLoop, Outcome.heap]
  | cons h rest ih =>
    by_cases htaken : (Table.get (σ.table r) h.name).isSome = true
    · rw [regLoop_taken r pc h rest σ htaken]
      simp [Fatalf, Outcome.heap]
    · have hfree : Table.get (σ.table r) h.name = none := by simpa using htaken
      cases hhook : pc.PostReg h with
      | some err =>
        rw [regLoop_hook_fails r pc h rest σ err hfree hhook]
        simp [Fatalf, Outcome.heap]
      | none =>
        rw [regLoop_step r pc h rest σ hfree hhook, ih _ (by simpa using hm)]
        simp [Heap.afterCandidate, Heap.setHandler, update_other _ _ _ _ hm]

/-- A `Reg` that returns normally has run the loop on the candidates of the maker. -/
theorem Reg_ok_loop (σ σ2 : Heap) (r : Nat) (ctrlStruct : CtrlStruct) (plugin : List Plugin)
    (hok : Reg σ r ctrlStruct plugin = .ok σ2 ()) :
    ∃ pc hs, (σ.routers r).pluginContainer.cloneAdd plugin = .ok pc ∧
      (σ.routers r).fn (σ.routers r).pathPrefix ctrlStruct (some pc) = .handlers hs ∧
      regLoop r pc hs σ = .ok σ2 () := by
  unfold Reg at hok
  split at hok
  · simp [Fatalf] at hok
  · rename_i pc hpc
    split at hok
    · simp [Fatalf] at hok
    · simp at hok
    · rename_i hs hfn
      exact ⟨pc, hs, hpc, hfn, hok⟩

/-- C18: a `SetUnknown` that returns normally leaves every map, and with it the handler
table of the router, the map reference, the path prefix, the plugin chain, the kind tag
and the maker of the router as they were, and does not touch any other router; only the
cell address of the receiver changes.  A `Reg` that returns normally leaves every router
(cell address, path prefix, plugin chain, kind tag, maker) and every fallback cell as
they were and writes to no other map; in the table of the router every entry that was
there is still there, so the table only grows. -/
theorem mutators_frame (σ σ2 : Heap) (r : Nat) :
    (∀ v ps, SetUnknown σ r v ps = .ok σ2 () →
      σ2.maps = σ.maps ∧ σ2.table r = σ.table r ∧
      (σ2.routers r).handlers = (σ.routers r).handlers ∧
      (σ2.routers r).pathPrefix = (σ.routers r).pathPrefix ∧
      (σ2.routers r).pluginContainer = (σ.routers r).pluginContainer ∧
      (σ2.routers r).typ = (σ.routers r).typ ∧
      (σ2.routers r).fn = (σ.routers r).fn ∧
      (∀ x, x ≠ r → σ2.routers x = σ.routers x) ∧
      (∀ a, a ≠ σ.nextCell → σ2.cells a = σ.cells a)) ∧
    (∀ ctrlStruct ps, Reg σ r ctrlStruct ps = .ok σ2 () →
      σ2.routers = σ.routers ∧ σ2.cells = σ.cells ∧
      σ2.cells (σ2.routers r).unknownApiType = σ.cells (σ.routers r).unknownApiType ∧
      (∀ m, m ≠ (σ.routers r).handlers → σ2.maps m = σ.maps m) ∧
      (∀ n h0, Table.get (σ.table r) n = some h0 → Table.get (σ2.table r) n = some h0) ∧
      (σ.table r).length ≤ (σ2.table r).length) := by
  refine ⟨?_, ?_⟩
  · intro v ps hok
    obtain ⟨pc, _, hmaps, hcells, hrouters⟩ := SetUnknown_ok σ σ2 r v ps hok
    refine ⟨hmaps, ?_, ?_, ?_, ?_, ?_, ?_, ?_, ?_⟩
    · simp [Heap.table, hmaps, hrouters]
    · rw [hrouters]; simp
    · rw [hrouters]; simp
    · rw [hrouters]; simp
    · rw [hrouters]; simp
    · rw [hrouters]; simp
    · intro x hx
      rw [hrouters, update_other _ _ _ _ hx]
    · intro a ha
      rw [hcells, update_other _ _ _ _ ha]
  · intro ctrlStruct ps hok
    obtain ⟨pc, hs, _, _, hloop⟩ := Reg_ok_loop σ σ2 r ctrlStruct ps hok
    have hr : σ2.routers = σ.routers := by
      have := regLoop_routers r pc hs σ
      rw [hloop] at this
      simpa [Outcome.heap] using this
    have hc : σ2.cells = σ.cells := by
      have := regLoop_cells r pc hs σ
      rw [hloop] at this
      simpa [Outcome.heap] using this
    refine ⟨hr, hc, by rw [hr, hc], ?_, ?_, ?_⟩
    · intro m hm
      have := regLoop_maps_other r pc hs σ m hm
      rw [hloop] at this
      simpa [Outcome.heap] using this
    · intro n h0 hin
      have := regLoop_keeps r pc hs σ n h0 hin
      rw [hloop] at this
      simpa [Outcome.heap] using this
    · obtain ⟨_, hhooks, hfrees, hnodup⟩ := regLoop_ok_trace r pc hs σ σ2 hloop
      obtain ⟨σ3, hok3, hlen⟩ := regLoop_ok r pc hs σ hfrees hnodup hhooks
      rw [hloop] at hok3
      injection hok3 with hσ _
      subst hσ
      omega

/-- C18, at the fresh pull router: `SetUnknown(pullFallback)` leaves the table as it was,
and registering `Home` leaves the cells as they were. -/
theorem mutators_frame_witness :
    (SetUnknown pullRoot.1 pullRoot.2 pullFallback []).heap.table pullRoot.2
        = pullRoot.1.table pullRoot.2 ∧
    homeRegistered.cells = pullRoot.1.cells :=
  ⟨((mutators_frame pullRoot.1 _ pullRoot.2).1 pullFallback [] rfl).2.1,
   ((mutators_frame pullRoot.1 homeRegistered pullRoot.2).2 (some homeService) [] rfl).2.1⟩

end Teleport
